import Mathlib

/-!
# fcd: translation context (`translation_context.cpp`)

A shallow embedding of the lifter's registries, intrinsic resolver and driver,
followed by the properties proved about them.

Conventions of the embedding:

* `uint64_t` addresses and `size_t` sizes are natural numbers.
* A heap object of the intermediate representation (function, basic block,
  instruction) is identified by a natural number standing for its pointer.
  `LLVMContext.nextId` is the allocator: every `Create` takes the next number.
* `std::unordered_map<uint64_t, T*>` is an association list.  In the source
  every `operator[]` that finds a null entry assigns it before returning, so
  a key bound to the null pointer is never observable and null is absence.
* A C++ reference that the code mutates through (`Function& insertInto`,
  `Module& module`) is carried by value inside the state that holds it.
* A function operand carries the function's name beside its identity; the
  name of a function is fixed when it is created.
* `assert` is compiled in: a failed assertion ends the run.
-/

namespace Fcd

/-! ## Address-keyed tables -/

/-- Association list standing for `std::unordered_map<uint64_t, T>`. -/
abbrev AddrMap (β : Type) := List (Nat × β)

namespace AddrMap

/-- Lookup, `find` followed by `->second`. -/
def find {β : Type} : AddrMap β → Nat → Option β
  | [], _ => none
  | (k', v) :: rest, k => if k' = k then some v else find rest k

/-- Assignment through `operator[]`: `m[k] = v`. -/
def set {β : Type} : AddrMap β → Nat → β → AddrMap β
  | [], k, v => [(k, v)]
  | (k', v') :: rest, k, v =>
    if k' = k then (k, v) :: rest else (k', v') :: set rest k v

/-- Removal of the entry of a key, `erase(iter)`. -/
def erase {β : Type} : AddrMap β → Nat → AddrMap β
  | [], _ => []
  | (k', v) :: rest, k => if k' = k then erase rest k else (k', v) :: erase rest k

/-- The member `insert({k, v})`: adds the pair only when the key is free and
reports whether it did (the `.second` of the returned pair). -/
def insert {β : Type} (m : AddrMap β) (k : Nat) (v : β) : AddrMap β × Bool :=
  match find m k with
  | some _ => (m, false)
  | none => (m ++ [(k, v)], true)

end AddrMap

/-! ## Intermediate representation -/

/-- Types of the intermediate representation, as far as the lifter builds them. -/
inductive Ty where
  | void
  | label
  | int (bits : Nat)
  | pointer (pointee : Ty) (addressSpace : Nat)
  | named (name : String)
  | func
  deriving DecidableEq

/-- The method `Type::getPointerTo(unsigned AddrSpace = 0)`. -/
def Ty.getPointerTo (t : Ty) (addrSpace : Nat := 0) : Ty := .pointer t addrSpace

/-- Values that may stand as an operand. -/
inductive Value where
  | constantInt (bits : Nat) (value : Nat)
  | argument (ty : Ty) (fn : Nat) (index : Nat)
  | instruction (ty : Ty) (id : Nat)
  | basicBlock (id : Nat)
  | function (id : Nat) (name : String)
  | globalVariable (ty : Ty) (id : Nat)
  | null
  deriving DecidableEq

/-- The method `Value::getType`. -/
def Value.getType : Value → Ty
  | .constantInt bits _ => .int bits
  | .argument ty _ _ => ty
  | .instruction ty _ => ty
  | .basicBlock _ => .label
  | .function _ _ => .pointer .func 0
  | .globalVariable ty _ => ty
  | .null => .void

/-- Instruction kinds the lifter creates or inspects. -/
inductive Opcode where
  | call | br | ret | unreachable
  | intToPtr | bitCast | zext | trunc
  | load | store | alloca | phi
  | other (code : Nat)
  deriving DecidableEq

/-- One instruction. A call keeps its arguments first and the callee last, so
`getOperand(i)` of a call is its `i`-th argument. -/
structure Instruction where
  id : Nat
  opcode : Opcode
  ty : Ty
  operands : List Value
  programMemory : Bool
  deriving DecidableEq

/-- The value an instruction defines. -/
def Instruction.asValue (i : Instruction) : Value := .instruction i.ty i.id

/-- Whether the instruction ends a block. -/
def Instruction.isTerminator (i : Instruction) : Bool :=
  i.opcode = .br || i.opcode = .ret || i.opcode = .unreachable

structure BasicBlock where
  id : Nat
  name : String
  insts : List Instruction
  deriving DecidableEq

structure Function where
  id : Nat
  name : String
  params : List Ty
  blocks : List BasicBlock
  prototype : Bool
  virtualAddress : Option Nat
  deriving DecidableEq

/-- Allocator of object identities. -/
structure LLVMContext where
  nextId : Nat
  deriving DecidableEq

/-- Replace one operand value by another inside an instruction. -/
def Instruction.replaceUses (i : Instruction) (old new : Value) : Instruction :=
  { i with operands := i.operands.map fun v => if v = old then new else v }

def BasicBlock.replaceUses (b : BasicBlock) (old new : Value) : BasicBlock :=
  { b with insts := b.insts.map fun i => i.replaceUses old new }

/-- The method `Value::replaceAllUsesWith` for a value whose users all live in
one function (a block or an instruction result). -/
def Function.replaceAllUsesWith (fn : Function) (old new : Value) : Function :=
  { fn with blocks := fn.blocks.map fun b => b.replaceUses old new }

/-- The method `BasicBlock::eraseFromParent`: unlinks and deletes the block. -/
def Function.eraseBlock (fn : Function) (block : Nat) : Function :=
  { fn with blocks := fn.blocks.filter fun b => b.id ≠ block }

/-- The call `BasicBlock::Create(ctx, name, parent)`: a new empty block appended to
the function. Returns the block, the context and the function. -/
def BasicBlock.Create (ctx : LLVMContext) (name : String) (parent : Function) :
    Nat × LLVMContext × Function :=
  (ctx.nextId, { nextId := ctx.nextId + 1 },
    { parent with blocks := parent.blocks ++ [{ id := ctx.nextId, name := name, insts := [] }] })

/-- Ids of the blocks of a function, in order. -/
def Function.blockIds (fn : Function) : List Nat := fn.blocks.map (·.id)

/-- An operand slot: instruction `inst` inside block `block` of the function
holds `v` as its operand number `index`. -/
def Function.HasUse (fn : Function) (block inst index : Nat) (v : Value) : Prop :=
  ∃ b ∈ fn.blocks, b.id = block ∧ ∃ i ∈ b.insts, i.id = inst ∧ i.operands.get? index = some v

/-! ## Block registry (`AddressToBlock`) -/

structure AddressToBlock where
  insertInto : Function
  blocks : AddrMap Nat
  stubs : AddrMap Nat
  deriving DecidableEq

namespace AddressToBlock

/-- The constructor `AddressToBlock(Function& fn)`. -/
def new (fn : Function) : AddressToBlock := { insertInto := fn, blocks := [], stubs := [] }

/-- The method `blockToInstruction` (the spec's `referenceFor`). -/
def blockToInstruction (ctx : LLVMContext) (self : AddressToBlock) (address : Nat) :
    Nat × LLVMContext × AddressToBlock :=
  match self.blocks.find address with
  | some block => (block, ctx, self)
  | none =>
    match self.stubs.find address with
    | some stub => (stub, ctx, self)
    | none =>
      let created := BasicBlock.Create ctx "" self.insertInto
      (created.1, created.2.1,
        { self with insertInto := created.2.2, stubs := self.stubs.set address created.1 })

/-- The method `implementInstruction` (the spec's `implement`); `none` is the null
pointer that signals an address already implemented. -/
def implementInstruction (ctx : LLVMContext) (self : AddressToBlock) (address : Nat) :
    Option Nat × LLVMContext × AddressToBlock :=
  match self.blocks.find address with
  | some _ => (none, ctx, self)
  | none =>
    let created := BasicBlock.Create ctx "" self.insertInto
    let bodyBlock := created.1
    let blocks := self.blocks.set address bodyBlock
    match self.stubs.find address with
    | some stub =>
      let fn := created.2.2.replaceAllUsesWith (.basicBlock stub) (.basicBlock bodyBlock)
      (some bodyBlock, created.2.1,
        { insertInto := fn.eraseBlock stub, blocks := blocks, stubs := self.stubs.erase address })
    | none =>
      (some bodyBlock, created.2.1, { self with insertInto := created.2.2, blocks := blocks })

end AddressToBlock

/-! ## Failures -/

/-- Ways a call can fail to return normally. -/
inductive Failure where
  /-- A thrown `std::invalid_argument(what)`: the caller may catch it. -/
  | invalid_argument (what : String)
  /-- A thrown `std::out_of_range` (from `vector::at`). -/
  | out_of_range
  /-- A failed `assert` or checked `cast<>`: the process aborts. -/
  | assertion (what : String)
  /-- A call of `abort()`. -/
  | abort
  /-- The point `llvm_unreachable` was reached. -/
  | unreachable
  /-- A dereferenced null pointer. -/
  | nullDereference
  /-- A use of an object that was already deleted. -/
  | useAfterFree
  /-- The model ran out of iterations (not a behaviour of the code). -/
  | outOfFuel
  deriving DecidableEq

/-- Result of a state-changing call: it returns normally in a state, or it fails
in the state reached when the failure happened. -/
inductive Outcome (σ : Type) where
  | done (s : σ)
  | failed (e : Failure) (s : σ)
  deriving DecidableEq

/-- Sequencing: continue only after a normal return. -/
def Outcome.andThen {σ : Type} (o : Outcome σ) (k : σ → Outcome σ) : Outcome σ :=
  match o with
  | .done s => k s
  | .failed e s => .failed e s

/-! ## Editing a function body -/

/-- The block that holds an instruction (`Instruction::getParent`). -/
def Function.parentOf (fn : Function) (inst : Nat) : Option BasicBlock :=
  fn.blocks.find? fun b => b.insts.any fun i => i.id = inst

/-- The instruction with a given identity, if it is still in the function. -/
def Function.findInst (fn : Function) (inst : Nat) : Option Instruction :=
  (fn.blocks.flatMap (·.insts)).find? fun i => i.id = inst

/-- Insert `new` right before the instruction `before` inside a block. -/
def insertBeforeIn (before : Nat) (new : Instruction) : List Instruction → List Instruction
  | [] => []
  | i :: rest => if i.id = before then new :: i :: rest else i :: insertBeforeIn before new rest

/-- Creation of an instruction with the `InsertBefore` argument. -/
def Function.insertBefore (fn : Function) (before : Nat) (new : Instruction) : Function :=
  { fn with blocks := fn.blocks.map fun b => { b with insts := insertBeforeIn before new b.insts } }

/-- Creation of an instruction with the `InsertAtEnd` argument. -/
def Function.insertAtEnd (fn : Function) (block : Nat) (new : Instruction) : Function :=
  { fn with blocks := fn.blocks.map fun b =>
      if b.id = block then { b with insts := b.insts ++ [new] } else b }

/-- The method `Instruction::eraseFromParent`. -/
def Function.eraseInst (fn : Function) (inst : Nat) : Function :=
  { fn with blocks := fn.blocks.map fun b =>
      { b with insts := b.insts.filter fun i => i.id ≠ inst } }

/-- Blocks a terminator may transfer to: its block operands. -/
def Instruction.successors (i : Instruction) : List Nat :=
  i.operands.filterMap fun v => match v with
    | .basicBlock b => some b
    | _ => none

/-- The unconditional branch `BranchInst::Create(dest, ...)`. -/
def BranchInst.Create (id dest : Nat) : Instruction :=
  { id := id, opcode := .br, ty := .void, operands := [.basicBlock dest], programMemory := false }

/-- The return `ReturnInst::Create(ctx, ...)` of no value. -/
def ReturnInst.Create (id : Nat) : Instruction :=
  { id := id, opcode := .ret, ty := .void, operands := [], programMemory := false }

/-- Insert a block right after the block `after`. -/
def insertBlockAfter (after : Nat) (new : BasicBlock) : List BasicBlock → List BasicBlock
  | [] => []
  | b :: rest => if b.id = after then b :: new :: rest else b :: insertBlockAfter after new rest

/-- The method `BasicBlock::splitBasicBlock(I)` on the block `block`: the
instructions from `at` to the end move to a new block placed right after
`block`; `block` receives a branch to the new block at its end; the phi nodes
of the successors of the new block name it in place of `block`. Returns the
new block. -/
def Function.splitBasicBlock (ctx : LLVMContext) (fn : Function) (block split : Nat) :
    Nat × LLVMContext × Function :=
  let newId := ctx.nextId
  let brId := ctx.nextId + 1
  let old := (fn.blocks.find? fun b => b.id = block).map (·.insts) |>.getD []
  let kept := old.takeWhile fun i => i.id ≠ split
  let moved := old.dropWhile fun i => i.id ≠ split
  let succs := (moved.getLast?.map Instruction.successors).getD []
  let blocks1 := fn.blocks.map fun b =>
    if b.id = block then { b with insts := kept ++ [BranchInst.Create brId newId] } else b
  let blocks2 := insertBlockAfter block { id := newId, name := "", insts := moved } blocks1
  let blocks3 := blocks2.map fun b =>
    if b.id ∈ succs then
      { b with insts := b.insts.map fun i =>
          if i.opcode = .phi then i.replaceUses (.basicBlock block) (.basicBlock newId) else i }
    else b
  (newId, { nextId := ctx.nextId + 2 }, { fn with blocks := blocks3 })

/-! ## Module -/

/-- Configuration record (`x86_config`). -/
structure x86_config where
  isa : Nat
  address_size : Nat
  ip : Nat
  sp : Nat
  fp : Nat
  deriving DecidableEq

/-- Constant initialisers the lifter builds: the configuration record, and the
decoded detail of one instruction (named by the identity of the detail). -/
inductive Constant where
  | config (c : x86_config)
  | detail (d : Nat)
  deriving DecidableEq

structure GlobalVariable where
  id : Nat
  ty : Ty
  isConstant : Bool
  initializer : Constant
  name : String
  deriving DecidableEq

structure Module where
  name : String
  functions : List Function
  globals : List GlobalVariable
  dataLayout : String
  targetTriple : String
  deriving DecidableEq

/-- The function object behind a pointer. -/
def Module.findFunction (m : Module) (id : Nat) : Option Function :=
  m.functions.find? fun fn => fn.id = id

/-- Mutation of a function of the module through a pointer to it. -/
def Module.modifyFunction (m : Module) (id : Nat) (f : Function → Function) : Module :=
  { m with functions := m.functions.map fun fn => if fn.id = id then f fn else fn }

/-- The call `Function::Create(type, linkage, name, &module)`: a function without
a body, appended to the module. -/
def Function.Create (ctx : LLVMContext) (params : List Ty) (name : String) (m : Module) :
    Nat × LLVMContext × Module :=
  (ctx.nextId, { nextId := ctx.nextId + 1 },
    { m with functions := m.functions ++
        [{ id := ctx.nextId, name := name, params := params, blocks := [],
           prototype := false, virtualAddress := none }] })

/-- The method `Module::getOrInsertFunction(name, type)`: the function of that
name, declared first when the module has none. -/
def Module.getOrInsertFunction (ctx : LLVMContext) (m : Module) (name : String)
    (params : List Ty) : Nat × LLVMContext × Module :=
  match m.functions.find? fun fn => fn.name = name with
  | some fn => (fn.id, ctx, m)
  | none => Function.Create ctx params name m

/-- The method `Function::deleteBody`: drops every block, and with them the
metadata attached to the function (which is why the source records the
virtual address again right after calling it). -/
def Function.deleteBody (fn : Function) : Function :=
  { fn with blocks := [], prototype := false, virtualAddress := none }

/-- The first formal parameter, `arg_begin()`. -/
def Function.arg_begin (fn : Function) : Value :=
  .argument (fn.params.headD .void) fn.id 0

/-! ## Metadata helpers (`metadata.h`) -/

namespace md

/-- Modelled from the spec: `md::setPrototype` of the absent `metadata.h`; it
tags the function "is prototype". -/
def setPrototype (fn : Function) : Function := { fn with prototype := true }

/-- Modelled from the spec: `md::isPrototype` of the absent `metadata.h`; it reads
the "is prototype" tag. -/
def isPrototype (fn : Function) : Bool := fn.prototype

/-- Modelled from the spec: `md::setVirtualAddress` of the absent `metadata.h`; it
tags the function "virtual address = X". -/
def setVirtualAddress (fn : Function) (address : Nat) : Function :=
  { fn with virtualAddress := some address }

/-- Modelled from the spec: `md::setProgramMemory` of the absent `metadata.h`; it
tags the instruction "is program memory access". -/
def setProgramMemory (i : Instruction) : Instruction := { i with programMemory := true }

end md

/-! ## Function registry (`AddressToFunction`) -/

/-- The digit character `write_hex` emits for a value below sixteen. -/
def hexDigit (x : Nat) : Char :=
  if x < 10 then Char.ofNat (48 + x) else Char.ofNat (97 + x - 10)

/-- The loop of `raw_ostream::write_hex`: digits are written from the end of
the buffer towards its start while `N` is not zero. -/
def write_hex_loop : Nat → Nat → List Char → List Char
  | 0, _, buffer => buffer
  | fuel + 1, N, buffer =>
    if N = 0 then buffer else write_hex_loop fuel (N / 16) (hexDigit (N % 16) :: buffer)

/-- The method `raw_ostream::write_hex(N)`. The loop divides `N` by sixteen each
round, so `N` rounds are enough. -/
def write_hex (N : Nat) : String :=
  if N = 0 then "0" else String.mk (write_hex_loop N N [])

structure AddressToFunction where
  module : Module
  fnType : List Ty
  aliases : AddrMap String
  functions : AddrMap Nat
  deriving DecidableEq

namespace AddressToFunction

/-- The constructor `AddressToFunction(module, fnType)`. -/
def new (module : Module) (fnType : List Ty) : AddressToFunction :=
  { module := module, fnType := fnType, aliases := [], functions := [] }

/-- The private `createFunction(const Twine& name)`. -/
def createFunctionNamed (ctx : LLVMContext) (self : AddressToFunction) (name : String) :
    Nat × LLVMContext × AddressToFunction :=
  let created := Function.Create ctx self.fnType name self.module
  (created.1, created.2.1, { self with module := created.2.2 })

/-- The method `setAlias`: the insertion keeps an alias already present, and the
assertion on its outcome then fails. -/
def setAlias (self : AddressToFunction) (aliasName : String) (address : Nat) :
    Outcome AddressToFunction :=
  let result := self.aliases.insert address aliasName
  if result.2 then .done { self with aliases := result.1 }
  else .failed (.assertion "result.second") { self with aliases := result.1 }

/-- The method `nameForAddress` (the spec's `nameFor`). -/
def nameForAddress (self : AddressToFunction) (address : Nat) : String :=
  match self.aliases.find address with
  | some name => name
  | none => "func_" ++ write_hex address

/-- Body given to a fresh call target: a cast of the first parameter, a call of
the prototype marker with it, and a return; then the two tags. -/
def prototypeBody (ctx : LLVMContext) (protoIntrin address : Nat) (result : Function) :
    Function :=
  let i8Ptr := Ty.pointer (.int 8) 0
  let created := BasicBlock.Create ctx "" result
  let body := created.1
  let bitcast : Instruction :=
    { id := ctx.nextId + 1, opcode := .bitCast, ty := i8Ptr,
      operands := [result.arg_begin], programMemory := false }
  let fn1 := created.2.2.insertAtEnd body bitcast
  let call : Instruction :=
    { id := ctx.nextId + 2, opcode := .call, ty := .void,
      operands := [bitcast.asValue, .function protoIntrin "/fcd/prototype"],
      programMemory := false }
  let fn2 := fn1.insertAtEnd body call
  let fn3 := fn2.insertAtEnd body (ReturnInst.Create (ctx.nextId + 3))
  md.setVirtualAddress (md.setPrototype fn3) address

/-- The method `getCallTarget` (the spec's `getOrCreateCallTarget`). -/
def getCallTarget (ctx : LLVMContext) (self : AddressToFunction) (address : Nat) :
    Nat × LLVMContext × AddressToFunction :=
  match self.functions.find address with
  | some result => (result, ctx, self)
  | none =>
    let created := createFunctionNamed ctx self (self.nameForAddress address)
    let result := created.1
    let i8Ptr := Ty.pointer (.int 8) 0
    let proto := Module.getOrInsertFunction created.2.1 created.2.2.module "/fcd/prototype" [i8Ptr]
    let ctx2 := proto.2.1
    let module := proto.2.2.modifyFunction result (prototypeBody ctx2 proto.1 address)
    (result, { nextId := ctx2.nextId + 4 },
      { created.2.2 with module := module, functions := self.functions.set address result })

/-- The public `createFunction(uint64_t address)` (the spec's `defineEntry`); `none`
is the null pointer returned for an address already defined. -/
def createFunction (ctx : LLVMContext) (self : AddressToFunction) (address : Nat) :
    Option Nat × LLVMContext × AddressToFunction :=
  match self.functions.find address with
  | none =>
    let created := createFunctionNamed ctx self (self.nameForAddress address)
    (some created.1, created.2.1,
      { created.2.2 with functions := self.functions.set address created.1 })
  | some result =>
    if (self.module.findFunction result).any md.isPrototype then
      let module := self.module.modifyFunction result fun fn =>
        md.setVirtualAddress (BasicBlock.Create ctx "entry" fn.deleteBody).2.2 address
      (some result, { nextId := ctx.nextId + 1 }, { self with module := module })
    else
      (none, ctx, self)

end AddressToFunction

/-! ## Intrinsic resolver -/

/-- Decoder modes of the disassembler (`cs_mode`). -/
inductive cs_mode where
  | CS_MODE_16
  | CS_MODE_32
  | CS_MODE_64
  deriving DecidableEq

/-- The function `cs_size_mode`; the `default` case throws. -/
def cs_size_mode (address_size : Nat) : Except Failure cs_mode :=
  match address_size with
  | 2 => .ok .CS_MODE_16
  | 4 => .ok .CS_MODE_32
  | 8 => .ok .CS_MODE_64
  | _ => .error (.invalid_argument "address_size")

/-- The function `getStoreType`: the integer type `Type::getIntNTy(ctx, size * 8)`,
or the thrown exception. -/
def getStoreType (size : Nat) : Except Failure Ty :=
  if size = 1 ∨ size = 2 ∨ size = 4 ∨ size = 8 then .ok (.int (size * 8))
  else .error (.invalid_argument "size")

/-- The method `ConstantInt::getLimitedValue()`: the value, capped at the largest
`uint64_t`. -/
def getLimitedValue (value : Nat) : Nat :=
  if value > 2 ^ 64 - 1 then 2 ^ 64 - 1 else value

/-- Insertion into a `std::unordered_set<uint64_t>`. -/
def AddrSet.insert (s : List Nat) (a : Nat) : List Nat :=
  if a ∈ s then s else s ++ [a]

/-- The method `CallInst::getCalledFunction`: the name of the callee when the
called operand is a function, nothing otherwise. -/
def Instruction.getCalledFunction (i : Instruction) : Option String :=
  match i.operands.getLast? with
  | some (.function _ name) => some name
  | _ => none

/-- What `resolveIntrinsic` reads and writes: the allocator, the two registries
(the block registry holds the function being built) and the set of discovered
addresses. -/
structure Lifting where
  ctx : LLVMContext
  funcMap : AddressToFunction
  blockMap : AddressToBlock
  newLabels : List Nat
  deriving DecidableEq

/-- The branch of `resolveIntrinsic` for `x86_jump_intrin`. -/
def resolveJump (call : Instruction) (st : Lifting) : Outcome Lifting :=
  match call.operands.get? 2 with
  | none => .failed (.assertion "getOperand") st
  | some (.constantInt _ value) =>
    let dest := getLimitedValue value
    let ref := st.blockMap.blockToInstruction st.ctx dest
    let destination := ref.1
    let branch := BranchInst.Create ref.2.1.nextId destination
    let ctx1 : LLVMContext := { nextId := ref.2.1.nextId + 1 }
    let fn1 := ref.2.2.insertInto.insertBefore call.id branch
    let newLabels := AddrSet.insert st.newLabels dest
    match fn1.parentOf branch.id with
    | none => .failed .nullDereference
        { st with ctx := ctx1, blockMap := { ref.2.2 with insertInto := fn1 },
                  newLabels := newLabels }
    | some parent =>
      let split := fn1.splitBasicBlock ctx1 parent.id call.id
      let remaining := split.1
      .done { st with ctx := split.2.1,
                      blockMap := { ref.2.2 with insertInto := split.2.2.eraseBlock remaining },
                      newLabels := newLabels }
  | some _ => .done st

/-- The branch of `resolveIntrinsic` for `x86_call_intrin`. -/
def resolveCall (call : Instruction) (st : Lifting) : Outcome Lifting :=
  match call.operands.get? 2 with
  | none => .failed (.assertion "getOperand") st
  | some (.constantInt _ value) =>
    let destination := getLimitedValue value
    let got := st.funcMap.getCallTarget st.ctx destination
    let target := got.1
    let targetName := ((got.2.2.module.findFunction target).map (·.name)).getD ""
    let replacement : Instruction :=
      { id := got.2.1.nextId, opcode := .call, ty := .void,
        operands := [(call.operands.get? 1).getD .null, .function target targetName],
        programMemory := false }
    let fn1 := st.blockMap.insertInto.insertBefore call.id replacement
    let fn2 := fn1.replaceAllUsesWith call.asValue replacement.asValue
    let fn3 := fn2.eraseInst call.id
    .done { st with ctx := { nextId := got.2.1.nextId + 1 }, funcMap := got.2.2,
                    blockMap := { st.blockMap with insertInto := fn3 } }
  | some _ => .done st

/-- The branch of `resolveIntrinsic` for `x86_ret_intrin`. -/
def resolveRet (call : Instruction) (st : Lifting) : Outcome Lifting :=
  match st.blockMap.insertInto.parentOf call.id with
  | none => .failed .nullDereference st
  | some parent =>
    let split := st.blockMap.insertInto.splitBasicBlock st.ctx parent.id call.id
    let remainder := split.1
    let fn1 := split.2.2.insertAtEnd parent.id (ReturnInst.Create split.2.1.nextId)
    .done { st with ctx := { nextId := split.2.1.nextId + 1 },
                    blockMap := { st.blockMap with insertInto := fn1.eraseBlock remainder } }

/-- The constant operand demanded by `cast<ConstantInt>(call.getOperand(1))`. -/
def sizeOperand (call : Instruction) : Except Failure Nat :=
  match call.operands.get? 1 with
  | none => .error (.assertion "getOperand")
  | some (.constantInt _ value) => .ok (getLimitedValue value)
  | some _ => .error (.assertion "cast<ConstantInt>")

/-- The branch of `resolveIntrinsic` for `x86_read_mem`. -/
def resolveReadMem (call : Instruction) (st : Lifting) : Outcome Lifting :=
  match call.operands.get? 0 with
  | none => .failed (.assertion "getOperand") st
  | some intptr =>
    match sizeOperand call >>= getStoreType with
    | .error e => .failed e st
    | .ok storeType =>
      let pointer : Instruction :=
        { id := st.ctx.nextId, opcode := .intToPtr, ty := storeType.getPointerTo,
          operands := [intptr], programMemory := false }
      let fn1 := st.blockMap.insertInto.insertBefore call.id pointer
      let load : Instruction := md.setProgramMemory
        { id := st.ctx.nextId + 1, opcode := .load, ty := storeType,
          operands := [pointer.asValue], programMemory := false }
      let fn2 := fn1.insertBefore call.id load
      let i64 := Ty.int 64
      if load.ty ≠ i64 then
        let zext : Instruction :=
          { id := st.ctx.nextId + 2, opcode := .zext, ty := i64,
            operands := [load.asValue], programMemory := false }
        let fn3 := fn2.insertBefore call.id zext
        let fn4 := fn3.replaceAllUsesWith call.asValue zext.asValue
        .done { st with ctx := { nextId := st.ctx.nextId + 3 },
                        blockMap := { st.blockMap with insertInto := fn4.eraseInst call.id } }
      else
        let fn4 := fn2.replaceAllUsesWith call.asValue load.asValue
        .done { st with ctx := { nextId := st.ctx.nextId + 2 },
                        blockMap := { st.blockMap with insertInto := fn4.eraseInst call.id } }

/-- The branch of `resolveIntrinsic` for `x86_write_mem`. -/
def resolveWriteMem (call : Instruction) (st : Lifting) : Outcome Lifting :=
  match call.operands.get? 0, call.operands.get? 2 with
  | some intptr, some value =>
    match sizeOperand call >>= getStoreType with
    | .error e => .failed e st
    | .ok storeType =>
      let pointer : Instruction :=
        { id := st.ctx.nextId, opcode := .intToPtr, ty := storeType.getPointerTo,
          operands := [intptr], programMemory := false }
      let fn1 := st.blockMap.insertInto.insertBefore call.id pointer
      if value.getType ≠ storeType then
        let trunc : Instruction :=
          { id := st.ctx.nextId + 1, opcode := .trunc, ty := storeType,
            operands := [value], programMemory := false }
        let fn2 := fn1.insertBefore call.id trunc
        let storeInst : Instruction := md.setProgramMemory
          { id := st.ctx.nextId + 2, opcode := .store, ty := .void,
            operands := [trunc.asValue, pointer.asValue], programMemory := false }
        let fn3 := fn2.insertBefore call.id storeInst
        .done { st with ctx := { nextId := st.ctx.nextId + 3 },
                        blockMap := { st.blockMap with insertInto := fn3.eraseInst call.id } }
      else
        let storeInst : Instruction := md.setProgramMemory
          { id := st.ctx.nextId + 1, opcode := .store, ty := .void,
            operands := [value, pointer.asValue], programMemory := false }
        let fn3 := fn1.insertBefore call.id storeInst
        .done { st with ctx := { nextId := st.ctx.nextId + 2 },
                        blockMap := { st.blockMap with insertInto := fn3.eraseInst call.id } }
  | _, _ => .failed (.assertion "getOperand") st

/-- The function `resolveIntrinsic`. The call is named by its identity; a call that
an earlier rewrite deleted is no longer found. -/
def resolveIntrinsic (call : Nat) (st : Lifting) : Outcome Lifting :=
  match st.blockMap.insertInto.findInst call with
  | none => .failed .useAfterFree st
  | some inst =>
    match inst.getCalledFunction with
    | none => .done st
    | some name =>
      if name = "x86_jump_intrin" then resolveJump inst st
      else if name = "x86_call_intrin" then resolveCall inst st
      else if name = "x86_ret_intrin" then resolveRet inst st
      else if name = "x86_read_mem" then resolveReadMem inst st
      else if name = "x86_write_mem" then resolveWriteMem inst st
      else .done st

/-- The calls of a block are resolved in order. -/
def resolveCalls : List Nat → Lifting → Outcome Lifting
  | [], st => .done st
  | call :: rest, st => (resolveIntrinsic call st).andThen (resolveCalls rest)

/-- The overload `resolveIntrinsics(BasicBlock& block, ...)`: the calls of the block
are collected first, then resolved one by one. -/
def resolveIntrinsicsBlock (block : Nat) (st : Lifting) : Outcome Lifting :=
  match st.blockMap.insertInto.blocks.find? fun b => b.id = block with
  | none => .failed .useAfterFree st
  | some b =>
    resolveCalls ((b.insts.filter fun i => i.opcode = .call).map (·.id)) st

/-- The method `getNextNode` of a block: the block after it in its function. -/
def Function.getNextNode (fn : Function) (block : Nat) : Option Nat :=
  ((fn.blocks.dropWhile fun b => b.id ≠ block).drop 1).head?.map (·.id)

/-- The loop of `resolveIntrinsics(begin, inclusiveEnd, ...)`, one round per block
from `iter` up to `inclusiveEnd`. -/
def resolveIntrinsicsLoop : Nat → Nat → Nat → Lifting → Outcome Lifting
  | 0, _, _, st => .failed .outOfFuel st
  | fuel + 1, iter, inclusiveEnd, st =>
    if iter = inclusiveEnd then resolveIntrinsicsBlock inclusiveEnd st
    else
      (resolveIntrinsicsBlock iter st).andThen fun st1 =>
        if st1.blockMap.insertInto.blocks.all fun b => b.id ≠ iter then
          .failed .useAfterFree st1
        else
          match st1.blockMap.insertInto.getNextNode iter with
          | none => .failed .nullDereference st1
          | some next => resolveIntrinsicsLoop fuel next inclusiveEnd st1

/-- The overload `resolveIntrinsics(begin, inclusiveEnd, ...)`. No round adds a
block between `begin` and `inclusiveEnd`, so one round per block present
at the start is enough. -/
def resolveIntrinsics (begin inclusiveEnd : Nat) (st : Lifting) : Outcome Lifting :=
  resolveIntrinsicsLoop (st.blockMap.insertInto.blocks.length + 1) begin inclusiveEnd st

/-- The function `takeOne`: removes and returns the element `begin()` points at.
Which element that is depends on the hash table; `pick` chooses its position. -/
def takeOne (pick : List Nat → Nat) (toVisit : List Nat) : Nat × List Nat :=
  let index := pick toVisit % toVisit.length
  (toVisit.getD index 0, toVisit.eraseIdx index)

/-! ## Semantics provider (`CodeGenerator`) -/

/-- A `std::vector<Function*>`: `size` elements are in bounds; `storage` is what
was written at each index, in bounds or in reserved capacity. -/
structure FunctionVector where
  size : Nat
  storage : AddrMap Function
  deriving DecidableEq

/-- The method `vector::at(index)`: bounds-checked access. An index in bounds that
was never written holds the null pointer. -/
def FunctionVector.at (v : FunctionVector) (index : Nat) : Except Failure (Option Function) :=
  if index < v.size then .ok (v.storage.find index) else .error .out_of_range

/-- The method `vector::reserve(n)`: capacity only; the size is as before. -/
def FunctionVector.reserve (v : FunctionVector) (_n : Nat) : FunctionVector := v

/-- The assignment `v[index] = f` through the unchecked `operator[]`: the storage is
written; the size is as before. -/
def FunctionVector.assign (v : FunctionVector) (index : Nat) (f : Function) : FunctionVector :=
  { v with storage := v.storage.set index f }

structure CodeGenerator where
  /-- The member `unique_ptr<Module> module`; `none` is the null pointer. -/
  module : Option Module
  functionByOpcode : FunctionVector
  prologue : Function
  registerType : Ty
  flagsType : Ty
  configType : Ty
  deriving DecidableEq

/-- One decoded instruction as the disassembler reports it. -/
structure cs_insn where
  id : Nat
  size : Nat
  detail : Nat
  deriving DecidableEq

/-- Collaborators outside the repository, and the one choice the code leaves to
the hash table. -/
structure External where
  /-- The disassembler: the instruction at the head of the bytes, decoded in
  a mode at an address, when there is one. -/
  disasm : cs_mode → List Nat → Nat → Option cs_insn
  /-- The call `CloneAndPruneFunctionInto(target, body, argumentMap, true, returns)`:
  the context, the target with the clone added, and the cloned returns. -/
  clone : LLVMContext → Function → Function → List (Value × Value) →
    LLVMContext × Function × List Nat
  /-- Position of the element `begin()` of an unordered set points at. -/
  pick : List Nat → Nat

namespace CodeGenerator

/-- The method `implementationFor`. -/
def implementationFor (self : CodeGenerator) (index : Nat) :
    Except Failure (Option Function) :=
  self.functionByOpcode.at index

/-- The private constructor: null module, empty table, void types. The
prologue pointer is not initialised; it is given here as a function without
blocks. -/
def create : CodeGenerator :=
  { module := none,
    functionByOpcode := { size := 0, storage := [] },
    prologue := { id := 0, name := "", params := [], blocks := [], prototype := false,
                  virtualAddress := none },
    registerType := .void, flagsType := .void, configType := .void }

/-- The method `init`; `parsed` is what `parseIR` returned for the bundle. The parsed
module is bound to a local variable named `module`, which hides the member, so
`module = move(module)` moves the local onto itself and the member keeps its
value. A bundle that does not parse fails `assert(false)`. -/
def init (self : CodeGenerator) (parsed : Option Module) : Except Failure (Bool × CodeGenerator) :=
  match parsed with
  | some _ => .ok (true, self)
  | none => .error (.assertion "false")

/-- The method `getFunction(name)`: the function of the member module, asserted to
exist. -/
def getFunction (self : CodeGenerator) (name : String) : Except Failure Function :=
  match self.module with
  | none => .error .nullDereference
  | some m =>
    match m.functions.find? fun fn => fn.name = name with
    | some fn => .ok fn
    | none => .error (.assertion "result != nullptr")

/-- The lines `funcs[e] = codegen->getFunction("x86_" #n)` that the list of
`X86_INSTRUCTION_DECL(e, n)` of the absent `x86_defs.h` expands to, in order; the
list is a parameter. -/
def fillTable (self : CodeGenerator) : List (Nat × String) → FunctionVector →
    Except Failure FunctionVector
  | [], funcs => .ok funcs
  | (e, n) :: rest, funcs =>
    match self.getFunction ("x86_" ++ n) with
    | .error err => .error err
    | .ok fn => fillTable self rest (funcs.assign e fn)

/-- The factory `CodeGenerator::x86`; `parsed` is what `parseIR` returned for the
embedded bundle, `X86_INS_ENDING` and `decls` stand for the constant and the
declaration list of the absent disassembler and `x86_defs.h` headers. The
result `none` is the null pointer. -/
def x86 (parsed : Option Module) (X86_INS_ENDING : Nat) (decls : List (Nat × String)) :
    Except Failure (Option CodeGenerator) :=
  match create.init parsed with
  | .error e => .error e
  | .ok (false, _) => .ok none
  | .ok (true, codegen) =>
    match codegen.module with
    | none => .error .nullDereference
    | some _ =>
      let codegen := { codegen with
        registerType := .named "struct.x86_regs",
        flagsType := .named "struct.x86_flags_reg",
        configType := .named "struct.x86_config" }
      match codegen.getFunction "x86_function_prologue" with
      | .error e => .error e
      | .ok prologue =>
        let codegen := { codegen with prologue := prologue }
        let funcs := codegen.functionByOpcode.reserve X86_INS_ENDING
        match codegen.fillTable decls funcs with
        | .error e => .error e
        | .ok funcs => .ok (some { codegen with functionByOpcode := funcs })

/-- The method `implementationForPrologue`. -/
def implementationForPrologue (self : CodeGenerator) : Function := self.prologue

def getRegisterTy (self : CodeGenerator) : Ty := self.registerType
def getFlagsTy (self : CodeGenerator) : Ty := self.flagsType
def getConfigTy (self : CodeGenerator) : Ty := self.configType

/-- The method `constantForDetail`: the detail record as a constant of the type
`struct.cs_x86`. -/
def constantForDetail (detail : Nat) : Constant × Ty := (.detail detail, .named "struct.cs_x86")

/-- The loop over the cloned returns: each gets a branch to `jumpOut` before
it and is erased. -/
def redirectReturns (jumpOut : Nat) : List Nat → LLVMContext → Function → LLVMContext × Function
  | [], ctx, fn => (ctx, fn)
  | ret :: rest, ctx, fn =>
    redirectReturns jumpOut rest { nextId := ctx.nextId + 1 }
      ((fn.insertBefore ret (BranchInst.Create ctx.nextId jumpOut)).eraseInst ret)

/-- The method `inlineInstruction`; `none` is the null pointer returned when the
clone has no return. -/
def inlineInstruction (ext : External) (ctx : LLVMContext) (target instructionBody : Function)
    (parameters : List Value) : Option Nat × LLVMContext × Function :=
  let formals := instructionBody.params.enum.map fun p =>
    Value.argument p.2 instructionBody.id p.1
  let argumentMap := formals.zip parameters
  let cloned := ext.clone ctx target instructionBody argumentMap
  let returns := cloned.2.2
  if returns.length > 0 then
    let created := BasicBlock.Create cloned.1 "" cloned.2.1
    let jumpOut := created.1
    let redirected := redirectReturns jumpOut returns created.2.1 created.2.2
    (some jumpOut, redirected.1, redirected.2)
  else
    (none, cloned.1, cloned.2.1)

end CodeGenerator

/-! ## Translation driver (`TranslationContext`) -/

/-- Modelled from the spec: the constant `x86_isa32` of the absent emulator header;
the instruction-set width is 32 or 64. -/
def x86_isa32 : Nat := 32

/-- Modelled from the spec: the constant `x86_isa64` of the absent emulator header;
the instruction-set width is 32 or 64. -/
def x86_isa64 : Nat := 64

structure TranslationContext where
  context : LLVMContext
  irgen : CodeGenerator
  /-- Mode of the open disassembler handle. -/
  cs : cs_mode
  /-- The function registry; it holds the output module. -/
  functionMap : AddressToFunction
  resultFnTy : List Ty
  configVariable : Value
  deriving DecidableEq

/-- The data-layout string assembled by the constructor. The size is printed
with `snprintf` into a buffer of five bytes, so at most four characters. -/
def dataLayoutFor (config : x86_config) : String :=
  let dataLayout := "e-" ++ "n8:16"
  let dataLayout := if config.isa ≥ x86_isa32 then dataLayout ++ ":32" else dataLayout
  let dataLayout := if config.isa ≥ x86_isa64 then dataLayout ++ ":64" else dataLayout
  let dataLayout := dataLayout ++ "-"
  let dataLayout := dataLayout ++ "p0:64:64:64-"
  let addressSize := (":" ++ toString (config.address_size * 8 % 2 ^ 64)).take 4
  dataLayout ++ ("p1" ++ addressSize ++ addressSize ++ addressSize)

/-- The target triple set by the constructor: architecture by instruction set,
unknown vendor and system. -/
def tripleFor (config : x86_config) : Except Failure String :=
  if config.isa = x86_isa32 then .ok "i386-unknown-unknown"
  else if config.isa = x86_isa64 then .ok "x86_64-unknown-unknown"
  else .error .unreachable

namespace TranslationContext

/-- The constructor. `generator` is what `CodeGenerator::x86(context)` returned
(`none` for the null pointer) and `capstoneOpens` tells whether a
disassembler handle opens in a mode. -/
def new (context : LLVMContext) (generator : Option CodeGenerator)
    (capstoneOpens : cs_mode → Bool) (config : x86_config) (module_name : String) :
    Except Failure TranslationContext :=
  match generator with
  | none => .error .abort
  | some irgen =>
    match cs_size_mode config.address_size with
    | .error e => .error e
    | .ok mode =>
      if !capstoneOpens mode then .error .abort
      else
        let resultFnTy := [irgen.getRegisterTy.getPointerTo]
        let configTy := irgen.getConfigTy
        let configVariable : GlobalVariable :=
          { id := context.nextId, ty := configTy, isConstant := true,
            initializer := .config config, name := "config" }
        match tripleFor config with
        | .error e => .error e
        | .ok triple =>
          let module : Module :=
            { name := module_name, functions := [], globals := [configVariable],
              dataLayout := dataLayoutFor config, targetTriple := triple }
          .ok { context := { nextId := context.nextId + 1 }, irgen := irgen, cs := mode,
                functionMap := AddressToFunction.new module resultFnTy,
                resultFnTy := resultFnTy,
                configVariable := .globalVariable (configTy.getPointerTo) configVariable.id }

/-- The method `nameOf`. -/
def nameOf (self : TranslationContext) (address : Nat) : String :=
  self.functionMap.nameForAddress address

/-- The method `createAlias`. -/
def createAlias (self : TranslationContext) (address : Nat) (name : String) :
    Outcome TranslationContext :=
  match self.functionMap.setAlias name address with
  | .done fm => .done { self with functionMap := fm }
  | .failed e fm => .failed e { self with functionMap := fm }

/-- The bytes the decoder starts from for the address `branch`: the pointer
`begin + (branch - base_address)`. Outside of the range there are no bytes. -/
def codeAt (bytes : List Nat) (base_address branch : Nat) : List Nat :=
  if branch < base_address then [] else bytes.drop (branch - base_address)

/-- The `for` loop of `createFunction`: one linear chain of instructions. -/
def decodeChain (ext : External) (self : TranslationContext) (registers flags : Value) :
    Nat → List Nat → Nat → Lifting → Outcome Lifting
  | 0, _, _, st => .failed .outOfFuel st
  | fuel + 1, code, address, st =>
    match ext.disasm self.cs code address with
    | none => .done st
    | some insn =>
      let implemented := st.blockMap.implementInstruction st.ctx address
      let st1 := { st with ctx := implemented.2.1, blockMap := implemented.2.2 }
      match implemented.1 with
      | none => .done st1
      | some _ =>
        match self.irgen.implementationFor insn.id with
        | .error e => .failed e st1
        | .ok none => .failed .nullDereference st1
        | .ok (some implementation) =>
          let detailAsConstant := CodeGenerator.constantForDetail insn.detail
          let detailVariable : GlobalVariable :=
            { id := st1.ctx.nextId, ty := detailAsConstant.2, isConstant := true,
              initializer := detailAsConstant.1, name := "" }
          let module := { st1.funcMap.module with
            globals := st1.funcMap.module.globals ++ [detailVariable] }
          let parameters := [self.configVariable,
            .globalVariable detailAsConstant.2.getPointerTo detailVariable.id, registers, flags]
          let inlined := CodeGenerator.inlineInstruction ext { nextId := st1.ctx.nextId + 1 }
            st1.blockMap.insertInto implementation parameters
          let st2 := { st1 with ctx := inlined.2.1,
                                funcMap := { st1.funcMap with module := module },
                                blockMap := { st1.blockMap with insertInto := inlined.2.2 } }
          match inlined.1 with
          | none => .done st2
          | some _ => decodeChain ext self registers flags fuel (code.drop insn.size)
              (address + insn.size) st2

/-- The last block of a function, `&fn->back()`. -/
def back (fn : Function) : Option Nat := fn.blocks.getLast?.map (·.id)

/-- The `while` loop of `createFunction` over the worklist `toVisit`, which is
the field `newLabels` of the state. -/
def visitLoop (ext : External) (self : TranslationContext) (registers flags : Value)
    (base_address : Nat) (bytes : List Nat) : Nat → Lifting → Outcome Lifting
  | 0, st => .failed .outOfFuel st
  | fuel + 1, st =>
    if st.newLabels.isEmpty then .done st
    else
      let taken := takeOne ext.pick st.newLabels
      let branch := taken.1
      let st0 := { st with newLabels := taken.2 }
      let code := codeAt bytes base_address branch
      match back st0.blockMap.insertInto with
      | none => .failed .nullDereference st0
      | some start =>
        (decodeChain ext self registers flags (code.length + 2) code branch st0).andThen
          fun st1 =>
            match back st1.blockMap.insertInto with
            | none => .failed .nullDereference st1
            | some last =>
              (resolveIntrinsics start last st1).andThen
                (visitLoop ext self registers flags base_address bytes fuel)

/-- What `createFunction` leaves behind: the function it returns, if it returns,
and the context. -/
structure Built where
  fn : Option Nat
  self : TranslationContext
  deriving DecidableEq

/-- Write the loop state back: the body under construction into its function
of the module, the registry and the allocator into the context. -/
def commit (self : TranslationContext) (fn : Nat) (st : Lifting) : TranslationContext :=
  { self with
    context := st.ctx,
    functionMap := { st.funcMap with
      module := st.funcMap.module.modifyFunction fn fun _ => st.blockMap.insertInto } }

/-- The method `createFunction(base_address, begin, end)` (the spec's
`buildFunction`); `bytes` are the bytes from `begin` to `end` and `fuel`
bounds the rounds of the worklist loop. The module check of debug builds is
left out. -/
def createFunction (ext : External) (fuel : Nat) (self : TranslationContext)
    (base_address : Nat) (bytes : List Nat) : Outcome Built :=
  let defined := self.functionMap.createFunction self.context base_address
  let self1 := { self with context := defined.2.1, functionMap := defined.2.2 }
  match defined.1 with
  | none => .failed (.assertion "fn != nullptr") { fn := none, self := self1 }
  | some fn =>
    match self1.functionMap.module.findFunction fn with
    | none => .failed .nullDereference { fn := none, self := self1 }
    | some body =>
      let blockMap := AddressToBlock.new body
      let created := BasicBlock.Create self1.context "entry" blockMap.insertInto
      let entry := created.1
      let registers := body.arg_begin
      let flagsInst : Instruction :=
        { id := created.2.1.nextId, opcode := .alloca, ty := self.irgen.getFlagsTy.getPointerTo,
          operands := [], programMemory := false }
      let flags := flagsInst.asValue
      let fn1 := created.2.2.insertAtEnd entry flagsInst
      let inlined := CodeGenerator.inlineInstruction ext { nextId := created.2.1.nextId + 1 } fn1
        self.irgen.implementationForPrologue [self.configVariable, registers]
      let ref := AddressToBlock.blockToInstruction inlined.2.1
        { blockMap with insertInto := inlined.2.2 } base_address
      let st : Lifting :=
        { ctx := ref.2.1, funcMap := self1.functionMap, blockMap := ref.2.2, newLabels := [] }
      match inlined.1 with
      | none => .failed .nullDereference { fn := none, self := commit self1 fn st }
      | some prologueExit =>
        let branch := BranchInst.Create st.ctx.nextId ref.1
        let st1 := { st with
          ctx := { nextId := st.ctx.nextId + 1 },
          blockMap := { st.blockMap with
            insertInto := st.blockMap.insertInto.insertAtEnd prologueExit branch },
          newLabels := [base_address] }
        match visitLoop ext self1 registers flags base_address bytes fuel st1 with
        | .done st2 => .done { fn := some fn, self := commit self1 fn st2 }
        | .failed e st2 => .failed e { fn := none, self := commit self1 fn st2 }

/-- The method `take`: hands the module over. -/
def take (self : TranslationContext) : Module := self.functionMap.module

end TranslationContext

/-! ## A cloner and a decoder to run the driver with -/

/-- The value a cloned operand is mapped to. -/
def remapValue (vmap : List (Value × Value)) (v : Value) : Value :=
  match vmap.find? fun p => p.1 = v with
  | some p => p.2
  | none => v

/-- A cloner in the place of `CloneAndPruneFunctionInto`: every block of the body is
copied to the end of the target under new identities, formal parameters are
replaced by the mapped arguments, references to copied blocks and instructions
follow the copies, and the copied returns are reported. Nothing is pruned. -/
def cloneFunctionInto (ctx : LLVMContext) (target body : Function)
    (argumentMap : List (Value × Value)) : LLVMContext × Function × List Nat :=
  let nBlocks := body.blocks.length
  let insts := body.blocks.flatMap (·.insts)
  let newBlocks := body.blocks.enumFrom ctx.nextId
  let newInsts := insts.enumFrom (ctx.nextId + nBlocks)
  let vmap := argumentMap ++
    newBlocks.map (fun p => (Value.basicBlock p.2.id, Value.basicBlock p.1)) ++
    newInsts.map (fun p => (p.2.asValue, Value.instruction p.2.ty p.1))
  let newInstId (i : Instruction) : Nat :=
    match newInsts.find? fun p => p.2.id = i.id with
    | some p => p.1
    | none => i.id
  let clonedBlocks : List BasicBlock := newBlocks.map fun p =>
    { id := p.1, name := p.2.name,
      insts := p.2.insts.map fun i =>
        { i with id := newInstId i, operands := i.operands.map (remapValue vmap) } }
  let returns := ((clonedBlocks.flatMap (·.insts)).filter fun i => i.opcode = .ret).map (·.id)
  ({ nextId := ctx.nextId + nBlocks + insts.length },
    { target with blocks := target.blocks ++ clonedBlocks }, returns)

/-- A decoder for three one-opcode instructions: `nop` (0x90, id 1), `ret` (0xc3,
id 2) and a two-byte `jmp` (0xeb, id 3). -/
def sampleDisasm (_mode : cs_mode) (bytes : List Nat) (_address : Nat) : Option cs_insn :=
  match bytes with
  | 0x90 :: _ => some { id := 1, size := 1, detail := 0 }
  | 0xc3 :: _ => some { id := 2, size := 1, detail := 0 }
  | 0xeb :: _ :: _ => some { id := 3, size := 2, detail := 0 }
  | _ => none

/-- Semantic bodies to run the driver with: a prologue and a `nop` that only
return, a `ret` that calls the return intrinsic, and a `jmp` that calls the jump
intrinsic with the constant destination 0x1000. -/
def sampleBundle : Module :=
  let regs := Ty.pointer (.named "struct.x86_regs") 0
  let config := Ty.pointer (.named "struct.x86_config") 0
  let detail := Ty.pointer (.named "struct.cs_x86") 0
  let flags := Ty.pointer (.named "struct.x86_flags_reg") 0
  { name := "IRImplementation",
    functions :=
      [{ id := 100, name := "x86_function_prologue", params := [config, regs],
         blocks := [{ id := 101, name := "", insts := [ReturnInst.Create 102] }],
         prototype := false, virtualAddress := none },
       { id := 110, name := "x86_nop", params := [config, detail, regs, flags],
         blocks := [{ id := 111, name := "", insts := [ReturnInst.Create 112] }],
         prototype := false, virtualAddress := none },
       { id := 120, name := "x86_ret", params := [config, detail, regs, flags],
         blocks := [{ id := 121, name := "", insts :=
           [{ id := 122, opcode := .call, ty := .void,
              operands := [.argument config 120 0, .argument regs 120 2,
                           .function 190 "x86_ret_intrin"],
              programMemory := false },
            { id := 123, opcode := .unreachable, ty := .void, operands := [],
              programMemory := false }] }],
         prototype := false, virtualAddress := none },
       { id := 130, name := "x86_jmp", params := [config, detail, regs, flags],
         blocks := [{ id := 131, name := "", insts :=
           [{ id := 132, opcode := .call, ty := .void,
              operands := [.argument config 130 0, .argument regs 130 2,
                           .constantInt 64 0x1000, .function 191 "x86_jump_intrin"],
              programMemory := false },
            { id := 133, opcode := .unreachable, ty := .void, operands := [],
              programMemory := false }] }],
         prototype := false, virtualAddress := none }],
    globals := [], dataLayout := "", targetTriple := "" }

/-- The function of the sample bundle with a given name, or an empty one. -/
def sampleBody (name : String) : Function :=
  (sampleBundle.functions.find? fun fn => fn.name = name).getD
    { id := 0, name := name, params := [], blocks := [], prototype := false,
      virtualAddress := none }

/-- A semantics provider over the sample bundle whose table serves the three
opcodes of the sample decoder. -/
def workingGenerator : CodeGenerator :=
  { module := some sampleBundle,
    functionByOpcode :=
      { size := 4,
        storage := [(1, sampleBody "x86_nop"), (2, sampleBody "x86_ret"),
                    (3, sampleBody "x86_jmp")] },
    prologue := sampleBody "x86_function_prologue",
    registerType := .named "struct.x86_regs",
    flagsType := .named "struct.x86_flags_reg",
    configType := .named "struct.x86_config" }

/-- The sample decoder and the cloner above, with the first element picked. -/
def workingExternal : External :=
  { disasm := sampleDisasm, clone := cloneFunctionInto, pick := fun _ => 0 }

/-! ## Invariants and step relations used by the properties -/

/-- Every registered stub was handed out by the allocator, and no two
addresses share a stub. -/
def AddressToBlock.StubsValid (ctx : LLVMContext) (self : AddressToBlock) : Prop :=
  (∀ e ∈ self.stubs, e.2 < ctx.nextId) ∧ (self.stubs.map Prod.snd).Nodup

/-- One step in the life of a block registry: a call of one of its two
methods, or an edit of the function by its owner, who may allocate. -/
inductive AddressToBlock.Step :
    LLVMContext × AddressToBlock → LLVMContext × AddressToBlock → Prop where
  | reference (ctx : LLVMContext) (self : AddressToBlock) (a : Nat) :
      Step (ctx, self) (self.blockToInstruction ctx a).2
  | implement (ctx : LLVMContext) (self : AddressToBlock) (a : Nat) :
      Step (ctx, self) (self.implementInstruction ctx a).2
  | edit (ctx ctx' : LLVMContext) (self : AddressToBlock) (fn : Function)
      (h : ctx.nextId ≤ ctx'.nextId) :
      Step (ctx, self) (ctx', { self with insertInto := fn })

/-- A registry used to exercise the properties: the function has one block that
branches to the stub registered for the address 0x1000. -/
def sampleRegistry : AddressToBlock :=
  { insertInto :=
      { id := 0, name := "func_1000", params := [], prototype := false, virtualAddress := none,
        blocks := [{ id := 1, name := "entry", insts := [BranchInst.Create 2 3] },
                   { id := 3, name := "", insts := [] }] },
    blocks := [],
    stubs := [(0x1000, 3)] }

/-- Every registered function and every function of the module was handed out
by the allocator, and no two addresses share a function. -/
def AddressToFunction.Valid (ctx : LLVMContext) (self : AddressToFunction) : Prop :=
  (∀ e ∈ self.functions, e.2 < ctx.nextId) ∧ (self.functions.map Prod.snd).Nodup ∧
    ∀ fn ∈ self.module.functions, fn.id < ctx.nextId

/-- One step in the life of the function registry that is not `createFunction` at
the address `a`: a call target looked up, another address defined, an alias
set. -/
inductive AddressToFunction.StepAvoiding (a : Nat) :
    LLVMContext × AddressToFunction → LLVMContext × AddressToFunction → Prop where
  | callTarget (ctx : LLVMContext) (self : AddressToFunction) (b : Nat) :
      StepAvoiding a (ctx, self) (self.getCallTarget ctx b).2
  | define (ctx : LLVMContext) (self : AddressToFunction) (b : Nat) (h : b ≠ a) :
      StepAvoiding a (ctx, self) (self.createFunction ctx b).2
  | setAlias (ctx : LLVMContext) (self self' : AddressToFunction) (name : String) (b : Nat)
      (h : self.setAlias name b = .done self') :
      StepAvoiding a (ctx, self) (ctx, self')

/-- A module and registry used to exercise the properties: nothing registered. -/
def sampleFunctions : AddressToFunction :=
  AddressToFunction.new
    { name := "m", functions := [], globals := [], dataLayout := "", targetTriple := "" }
    [Ty.pointer (.named "struct.x86_regs") 0]

/-- Reference definition of the name of an address, in the spec's words: the
alias registered for the address if there is one, otherwise `func_` followed by
the lowercase hexadecimal numeral of the address, without leading zeros. -/
def nameForSpec (aliases : AddrMap String) (address : Nat) : String :=
  match aliases.find address with
  | some name => name
  | none => "func_" ++ String.mk (Nat.toDigits 16 address)

/-- A semantics provider and collaborators used to exercise the driver; the
decoder decodes nothing and the cloner clones nothing. -/
def sampleGenerator : CodeGenerator :=
  { module := none,
    functionByOpcode := { size := 0, storage := [] },
    prologue := { id := 100, name := "x86_function_prologue", params := [], blocks := [],
                  prototype := false, virtualAddress := none },
    registerType := .named "struct.x86_regs",
    flagsType := .named "struct.x86_flags_reg",
    configType := .named "struct.x86_config" }

def sampleExternal : External :=
  { disasm := fun _ _ _ => none,
    clone := fun ctx target _ _ => (ctx, target, []),
    pick := fun _ => 0 }

/-- A translation context used to exercise the driver: the empty registry with
the address 0x1000 already defined once. -/
def sampleContext : TranslationContext :=
  { context := (sampleFunctions.createFunction ⟨1⟩ 0x1000).2.1,
    irgen := sampleGenerator,
    cs := .CS_MODE_64,
    functionMap := (sampleFunctions.createFunction ⟨1⟩ 0x1000).2.2,
    resultFnTy := [Ty.pointer (.named "struct.x86_regs") 0],
    configVariable := .globalVariable (.pointer (.named "struct.x86_config") 0) 0 }

/-- The instruction stands in some block of the function. -/
def Function.HasInst (fn : Function) (i : Instruction) : Prop :=
  ∃ b ∈ fn.blocks, i ∈ b.insts

/-- A read of eight bytes at the constant address 0x3000. -/
def sampleRead : Instruction :=
  { id := 2, opcode := .call, ty := .int 64,
    operands := [.constantInt 64 0x3000, .constantInt 64 8, .function 50 "x86_read_mem"],
    programMemory := false }

/-- A pseudo-call to the constant address 0x2000. -/
def sampleCall : Instruction :=
  { id := 3, opcode := .call, ty := .void,
    operands := [.globalVariable (.pointer (.named "struct.x86_config") 0) 7,
                 .argument (.pointer (.named "struct.x86_regs") 0) 0 0,
                 .constantInt 64 0x2000, .function 51 "x86_call_intrin"],
    programMemory := false }

/-- A write of three bytes at the constant address 0x3000. -/
def sampleWrite : Instruction :=
  { id := 4, opcode := .call, ty := .void,
    operands := [.constantInt 64 0x3000, .constantInt 64 3, .constantInt 64 1,
                 .function 52 "x86_write_mem"],
    programMemory := false }

/-- A lifting state used to exercise the resolver: one block holding the three
sample instructions. -/
def sampleLifting : Lifting :=
  { ctx := { nextId := 10 },
    funcMap := sampleFunctions,
    blockMap :=
      { insertInto :=
          { id := 0, name := "func_1000", params := [Ty.pointer (.named "struct.x86_regs") 0],
            prototype := false, virtualAddress := none,
            blocks := [{ id := 1, name := "", insts := [sampleRead, sampleCall, sampleWrite] }] },
        blocks := [(0x1000, 1)], stubs := [] },
    newLabels := [] }

/-- Reference definition of the data layout, in the spec's words: little-endian;
native integer widths 8 and 16, then 32 when the instruction-set width is at
least 32, then 64 when it is at least 64; pointers of 64 bits in address space
0; pointers of `addressSize * 8` bits in address space 1. -/
def dataLayoutSpec (isaWidth addressSize : Nat) : String :=
  "-".intercalate
    ["e",
     "n" ++ ":".intercalate (([8, 16] ++ (if isaWidth ≥ 32 then [32] else []) ++
        (if isaWidth ≥ 64 then [64] else [])).map toString),
     "p0:64:64:64",
     "p1:" ++ ":".intercalate (List.replicate 3 (toString (addressSize * 8)))]

/-- A translation context over the working provider with nothing registered;
identities from 200 on are free. -/
def workingContext : TranslationContext :=
  { context := { nextId := 200 },
    irgen := workingGenerator,
    cs := .CS_MODE_64,
    functionMap := sampleFunctions,
    resultFnTy := [Ty.pointer (.named "struct.x86_regs") 0],
    configVariable := .globalVariable (.pointer (.named "struct.x86_config") 0) 0 }

/-- The edit `redirectReturns` makes to the instructions of one block. -/
def CodeGenerator.redirectIn (jumpOut : Nat) : List Nat → Nat → List Instruction → List Instruction
  | [], _, insts => insts
  | ret :: rest, next, insts =>
    CodeGenerator.redirectIn jumpOut rest (next + 1)
      ((insertBeforeIn ret (BranchInst.Create next jumpOut) insts).filter fun i => i.id ≠ ret)

/-- A register move standing before a control transfer in the samples. -/
def sampleMove : Instruction :=
  { id := 2, opcode := .other 0, ty := .int 64, operands := [.constantInt 64 1],
    programMemory := false }

/-- The instruction that ends an inlined body after its intrinsic. -/
def sampleUnreachable : Instruction :=
  { id := 4, opcode := .unreachable, ty := .void, operands := [], programMemory := false }

/-- A lifting state whose block at 0x1000 holds a move, a jump intrinsic to the
constant address 0x1008 and the end of the inlined body. -/
def sampleJumpLifting : Lifting :=
  { sampleLifting with
    blockMap :=
      { sampleLifting.blockMap with
        insertInto :=
          { sampleLifting.blockMap.insertInto with
            blocks := [{ id := 1, name := "", insts :=
              [sampleMove,
               { id := 3, opcode := .call, ty := .void,
                 operands := [.globalVariable (.pointer (.named "struct.x86_config") 0) 7,
                              .argument (.pointer (.named "struct.x86_regs") 0) 0 0,
                              .constantInt 64 0x1008, .function 53 "x86_jump_intrin"],
                 programMemory := false },
               sampleUnreachable] }] } } }

/-- A lifting state whose block at 0x1000 holds a move, a return intrinsic and the
end of the inlined body. -/
def sampleRetLifting : Lifting :=
  { sampleLifting with
    blockMap :=
      { sampleLifting.blockMap with
        insertInto :=
          { sampleLifting.blockMap.insertInto with
            blocks := [{ id := 1, name := "", insts :=
              [sampleMove,
               { id := 3, opcode := .call, ty := .void,
                 operands := [.globalVariable (.pointer (.named "struct.x86_config") 0) 7,
                              .argument (.pointer (.named "struct.x86_regs") 0) 0 0,
                              .function 54 "x86_ret_intrin"],
                 programMemory := false },
               sampleUnreachable] }] } } }

/-- No address is registered both as a stub and as an implemented block. -/
def AddressToBlock.Exclusive (self : AddressToBlock) : Prop :=
  ∀ a, self.stubs.find a = none ∨ self.blocks.find a = none

/-- A jump intrinsic to the constant address 0x1000. -/
def sampleBackwardJump : Instruction :=
  { id := 3, opcode := .call, ty := .void,
    operands := [.globalVariable (.pointer (.named "struct.x86_config") 0) 7,
                 .argument (.pointer (.named "struct.x86_regs") 0) 0 0,
                 .constantInt 64 0x1000, .function 53 "x86_jump_intrin"],
    programMemory := false }

/-- A lifting state whose block at 0x1000 holds a move, a jump intrinsic back to
0x1000 and the end of the inlined body. -/
def sampleBackwardLifting : Lifting :=
  { sampleLifting with
    blockMap :=
      { sampleLifting.blockMap with
        insertInto :=
          { sampleLifting.blockMap.insertInto with
            blocks := [{ id := 1, name := "", insts :=
              [sampleMove, sampleBackwardJump, sampleUnreachable] }] } } }

/-- What the driver relies on from the cloner: it only allocates, and every block
of the function it returns is a block of the target or carries an identity
allocated during the call. -/
def CloneContract (clone : LLVMContext → Function → Function → List (Value × Value) →
    LLVMContext × Function × List Nat) : Prop :=
  ∀ ctx target body args,
    ctx.nextId ≤ (clone ctx target body args).1.nextId ∧
    ∀ b ∈ (clone ctx target body args).2.1.blocks,
      b.id ∈ target.blockIds ∨
        (ctx.nextId ≤ b.id ∧ b.id < (clone ctx target body args).1.nextId)

/-- Every block of the function under construction was handed out by the
allocator. -/
def Lifting.BlocksAllocated (st : Lifting) : Prop :=
  ∀ b ∈ st.blockMap.insertInto.blocks, b.id < st.ctx.nextId

/-- The function under construction has no block of the identity `S`. -/
def Lifting.NoBlock (S : Nat) (st : Lifting) : Prop :=
  ∀ b ∈ st.blockMap.insertInto.blocks, b.id ≠ S

/-- The state in which the worklist loop of `createFunction` starts: the worklist
holds the base address alone, nothing is implemented, and the stub of the base
address, the empty block `S`, is the last block of the function. -/
def Lifting.LoopEntry (S base : Nat) (st : Lifting) : Prop :=
  st.newLabels = [base] ∧ st.blockMap.blocks = [] ∧ st.blockMap.stubs = [(base, S)] ∧
    S < st.ctx.nextId ∧
    ∃ pre, st.blockMap.insertInto.blocks = pre ++ [{ id := S, name := "", insts := [] }] ∧
      ∀ b ∈ pre, b.id < S

/-- The value of a digit character that `write_hex` emits: the inverse of
`hexDigit` on the values below sixteen. -/
def hexValue (c : Char) : Nat :=
  if c.toNat < 58 then c.toNat - 48 else c.toNat - 87

/-- The number a string of hexadecimal digits denotes, most significant digit
first. -/
def hexNumber (digits : List Char) : Nat :=
  digits.foldl (fun acc c => acc * 16 + hexValue c) 0

namespace AddrMap

theorem find_set_self {β : Type} (m : AddrMap β) (k : Nat) (v : β) :
    find (set m k v) k = some v := by
  induction m with
  | nil => simp [set, find]
  | cons e rest ih =>
    obtain ⟨k', v'⟩ := e
    by_cases h : k' = k
    · simp [set, find, h]
    · simp [set, find, h, ih]

theorem find_set_of_ne {β : Type} (m : AddrMap β) (k k' : Nat) (v : β) (h : k' ≠ k) :
    find (set m k v) k' = find m k' := by
  induction m with
  | nil => simp [set, find, Ne.symm h]
  | cons e rest ih =>
    obtain ⟨k0, v0⟩ := e
    by_cases h0 : k0 = k
    · subst h0
      simp [set, find, Ne.symm h]
    · by_cases h1 : k0 = k'
      · subst h1
        simp [set, find, h0]
      · simp [set, find, h0, h1, ih]

theorem find_erase_self {β : Type} (m : AddrMap β) (k : Nat) :
    find (erase m k) k = none := by
  induction m with
  | nil => simp [erase, find]
  | cons e rest ih =>
    obtain ⟨k0, v0⟩ := e
    by_cases h0 : k0 = k <;> simp [erase, find, h0, ih]

theorem find_erase_of_ne {β : Type} (m : AddrMap β) (k k' : Nat) (h : k' ≠ k) :
    find (erase m k) k' = find m k' := by
  induction m with
  | nil => simp [erase, find]
  | cons e rest ih =>
    obtain ⟨k0, v0⟩ := e
    by_cases h0 : k0 = k
    · subst h0
      simp [erase, find, Ne.symm h, ih]
    · by_cases h1 : k0 = k'
      · subst h1
        simp [erase, find, h0]
      · simp [erase, find, h0, h1, ih]

theorem mem_of_find {β : Type} (m : AddrMap β) (k : Nat) (v : β) (h : find m k = some v) :
    (k, v) ∈ m := by
  induction m with
  | nil => simp [find] at h
  | cons e rest ih =>
    obtain ⟨k0, v0⟩ := e
    by_cases h0 : k0 = k
    · subst h0
      simp [find] at h
      simp [h]
    · simp [find, h0] at h
      exact List.mem_cons_of_mem _ (ih h)

theorem set_of_find_none {β : Type} (m : AddrMap β) (k : Nat) (v : β) (h : find m k = none) :
    set m k v = m ++ [(k, v)] := by
  induction m with
  | nil => simp [set]
  | cons e rest ih =>
    obtain ⟨k0, v0⟩ := e
    by_cases h0 : k0 = k
    · simp [find, h0] at h
    · simp [find, h0] at h
      simp [set, h0, ih h]

theorem erase_sublist {β : Type} (m : AddrMap β) (k : Nat) : (erase m k).Sublist m := by
  induction m with
  | nil => simp [erase]
  | cons e rest ih =>
    obtain ⟨k0, v0⟩ := e
    by_cases h0 : k0 = k
    · simp only [erase, h0, if_true]
      exact List.Sublist.cons _ (by simpa [h0] using ih)
    · simp only [erase, h0, if_false]
      exact List.Sublist.cons₂ _ ih

end AddrMap

namespace AddressToBlock

theorem stubsValid_reference (ctx : LLVMContext) (self : AddressToBlock) (a : Nat)
    (h : self.StubsValid ctx) :
    (self.blockToInstruction ctx a).2.2.StubsValid (self.blockToInstruction ctx a).2.1 := by
  unfold blockToInstruction
  cases hb : self.blocks.find a with
  | some b => simpa using h
  | none =>
    cases hs : self.stubs.find a with
    | some st => simpa using h
    | none =>
      obtain ⟨hlt, hnd⟩ := h
      simp only [BasicBlock.Create, StubsValid, AddrMap.set_of_find_none _ _ _ hs]
      constructor
      · intro e he
        rcases List.mem_append.mp he with he | he
        · exact Nat.lt_succ_of_lt (hlt e he)
        · simp at he
          subst he
          simp
      · rw [List.map_append, List.nodup_append]
        refine ⟨hnd, by simp, ?_⟩
        intro v hv hv'
        simp at hv'
        subst hv'
        obtain ⟨e, he, heq⟩ := List.mem_map.mp hv
        have := hlt e he
        omega

theorem stubsValid_implement (ctx : LLVMContext) (self : AddressToBlock) (a : Nat)
    (h : self.StubsValid ctx) :
    (self.implementInstruction ctx a).2.2.StubsValid (self.implementInstruction ctx a).2.1 := by
  unfold implementInstruction
  cases hb : self.blocks.find a with
  | some b => simpa using h
  | none =>
    obtain ⟨hlt, hnd⟩ := h
    cases hs : self.stubs.find a with
    | some st =>
      simp only [BasicBlock.Create, StubsValid]
      have hsub := AddrMap.erase_sublist self.stubs a
      exact ⟨fun e he => Nat.lt_succ_of_lt (hlt e (hsub.subset he)),
        List.Nodup.sublist (hsub.map _) hnd⟩
    | none =>
      simp only [BasicBlock.Create, StubsValid]
      exact ⟨fun e he => Nat.lt_succ_of_lt (hlt e he), hnd⟩

theorem stubsValid_step {s t : LLVMContext × AddressToBlock} (hst : Step s t)
    (h : s.2.StubsValid s.1) : t.2.StubsValid t.1 := by
  cases hst with
  | reference ctx self a => exact stubsValid_reference ctx self a h
  | implement ctx self a => exact stubsValid_implement ctx self a h
  | edit ctx ctx' self fn hle =>
    exact ⟨fun e he => Nat.lt_of_lt_of_le (h.1 e he) hle, h.2⟩

/-- A step that leaves an address without an implemented block keeps the stub
registered for it. -/
theorem stub_kept_step {s t : LLVMContext × AddressToBlock} (x S : Nat) (hst : Step s t)
    (hs : s.2.stubs.find x = some S) (ht : t.2.blocks.find x = none) :
    t.2.stubs.find x = some S := by
  cases hst with
  | reference ctx self a =>
    simp only [blockToInstruction] at ht ⊢
    cases hb : self.blocks.find a with
    | some b => simpa [hb] using hs
    | none =>
      cases hsa : self.stubs.find a with
      | some st => simpa [hb, hsa] using hs
      | none =>
        have hne : x ≠ a := by
          rintro rfl
          simp [hsa] at hs
        simp only [hb, hsa]
        rw [AddrMap.find_set_of_ne _ _ _ _ hne]
        exact hs
  | implement ctx self a =>
    simp only [implementInstruction] at ht ⊢
    cases hb : self.blocks.find a with
    | some b => simpa [hb] using hs
    | none =>
      have hne : x ≠ a := by
        rintro rfl
        cases hsx : self.stubs.find x <;> simp [hb, hsx, AddrMap.find_set_self] at ht
      cases hsa : self.stubs.find a with
      | some st =>
        simp only [hb, hsa]
        rw [AddrMap.find_erase_of_ne _ _ _ hne]
        exact hs
      | none => simpa [hb, hsa] using hs
  | edit ctx ctx' self fn hle => exact hs

/-- No step takes an implemented block away from its address. -/
theorem block_kept_step {s t : LLVMContext × AddressToBlock} (x B : Nat) (hst : Step s t)
    (hs : s.2.blocks.find x = some B) : t.2.blocks.find x = some B := by
  cases hst with
  | reference ctx self a =>
    simp only [blockToInstruction]
    cases hb : self.blocks.find a with
    | some b => simpa [hb] using hs
    | none =>
      cases hsa : self.stubs.find a with
      | some st => simpa [hb, hsa] using hs
      | none => simpa [hb, hsa] using hs
  | implement ctx self a =>
    simp only [implementInstruction]
    cases hb : self.blocks.find a with
    | some b => simpa [hb] using hs
    | none =>
      have hne : x ≠ a := by
        rintro rfl
        simp [hb] at hs
      cases hsa : self.stubs.find a with
      | some st =>
        simp only [hb, hsa]
        rw [AddrMap.find_set_of_ne _ _ _ _ hne]
        exact hs
      | none =>
        simp only [hb, hsa]
        rw [AddrMap.find_set_of_ne _ _ _ _ hne]
        exact hs
  | edit ctx ctx' self fn hle => exact hs

theorem block_kept_steps {s t : LLVMContext × AddressToBlock} (x B : Nat)
    (hst : Relation.ReflTransGen Step s t)
    (hs : s.2.blocks.find x = some B) : t.2.blocks.find x = some B := by
  induction hst with
  | refl => exact hs
  | tail _ hstep ih => exact block_kept_step x B hstep ih

/-- An implemented block is what `blockToInstruction` returns, and nothing changes. -/
theorem reference_of_block (ctx : LLVMContext) (self : AddressToBlock) (x B : Nat)
    (h : self.blocks.find x = some B) :
    self.blockToInstruction ctx x = (B, ctx, self) := by
  simp [blockToInstruction, h]

end AddressToBlock

namespace AddressToBlock

/-- What `implementInstruction` does at an address that holds the stub `S` and no
implemented block. -/
theorem implement_of_stub (ctx : LLVMContext) (self : AddressToBlock) (x S : Nat)
    (hs : self.stubs.find x = some S) (hb : self.blocks.find x = none) :
    self.implementInstruction ctx x =
      (some ctx.nextId, { nextId := ctx.nextId + 1 },
        { insertInto :=
            ((BasicBlock.Create ctx "" self.insertInto).2.2.replaceAllUsesWith
              (.basicBlock S) (.basicBlock ctx.nextId)).eraseBlock S,
          blocks := self.blocks.set x ctx.nextId,
          stubs := self.stubs.erase x }) := by
  simp [implementInstruction, hs, hb, BasicBlock.Create]

theorem hasUse_after_promotion (ctx : LLVMContext) (fn : Function) (S block inst index : Nat)
    (hne : block ≠ S) (h : fn.HasUse block inst index (.basicBlock S)) :
    (((BasicBlock.Create ctx "" fn).2.2.replaceAllUsesWith
        (.basicBlock S) (.basicBlock ctx.nextId)).eraseBlock S).HasUse
      block inst index (.basicBlock ctx.nextId) := by
  obtain ⟨b, hb, hbid, i, hi, hiid, hop⟩ := h
  refine ⟨b.replaceUses (.basicBlock S) (.basicBlock ctx.nextId), ?_, hbid,
    i.replaceUses (.basicBlock S) (.basicBlock ctx.nextId), ?_, hiid, ?_⟩
  · simp only [Function.eraseBlock, Function.replaceAllUsesWith, BasicBlock.Create,
      List.mem_filter, List.mem_map, List.mem_append]
    refine ⟨⟨b, Or.inl hb, rfl⟩, ?_⟩
    simp [BasicBlock.replaceUses, hbid, hne]
  · simp only [BasicBlock.replaceUses, List.mem_map]
    exact ⟨i, hi, rfl⟩
  · rw [List.get?_eq_getElem?] at hop
    simp [Instruction.replaceUses, List.getElem?_map, hop]

theorem no_use_after_promotion (ctx : LLVMContext) (fn : Function) (S block inst index : Nat)
    (hne : ctx.nextId ≠ S) :
    ¬ (((BasicBlock.Create ctx "" fn).2.2.replaceAllUsesWith
        (.basicBlock S) (.basicBlock ctx.nextId)).eraseBlock S).HasUse
      block inst index (.basicBlock S) := by
  rintro ⟨b, hb, -, i, hi, -, hop⟩
  simp only [Function.eraseBlock, Function.replaceAllUsesWith, List.mem_filter,
    List.mem_map] at hb
  obtain ⟨⟨b0, -, rfl⟩, -⟩ := hb
  simp only [BasicBlock.replaceUses, List.mem_map] at hi
  obtain ⟨i0, -, rfl⟩ := hi
  simp only [Instruction.replaceUses, List.get?_eq_getElem?, List.getElem?_map,
    Option.map_eq_some'] at hop
  obtain ⟨v, -, hv⟩ := hop
  by_cases hvs : v = .basicBlock S
  · simp [hvs] at hv
    exact hne hv
  · simp [hvs] at hv

/-- While an address has no implemented block, its stub stays registered and the
registry stays valid. -/
theorem stub_kept_steps {s t : LLVMContext × AddressToBlock} (x S : Nat)
    (hst : Relation.ReflTransGen (fun s t => Step s t ∧ t.2.blocks.find x = none) s t)
    (hv : s.2.StubsValid s.1) (hs : s.2.stubs.find x = some S)
    (hb : s.2.blocks.find x = none) :
    t.2.StubsValid t.1 ∧ t.2.stubs.find x = some S ∧ t.2.blocks.find x = none := by
  induction hst with
  | refl => exact ⟨hv, hs, hb⟩
  | tail _ hstep ih =>
    exact ⟨stubsValid_step hstep.1 ih.1, stub_kept_step x S hstep.1 ih.2.1 hstep.2, hstep.2⟩

/-- C1. Stub promotion. In a valid registry where `x` has no implemented block,
`blockToInstruction x` returns a block `S` registered as the stub of `x`, a new empty
block of the function unless `x` had a stub already. After any
further steps that leave `x` unimplemented, `implementInstruction x` returns a new
block `B` different from `S`; then `S` is the stub of no address and is no longer
a block of the function, `B` is a block of the function, every operand slot
outside `S` that held `S` holds `B`, no operand slot holds `S`, and after any
later steps `blockToInstruction x` returns `B` and changes nothing. -/
theorem stub_promotion (ctx : LLVMContext) (self : AddressToBlock) (x : Nat)
    (hvalid : self.StubsValid ctx) (hx : self.blocks.find x = none) :
    ∃ S, (self.blockToInstruction ctx x).1 = S ∧
      (self.blockToInstruction ctx x).2.2.stubs.find x = some S ∧
      (self.blockToInstruction ctx x).2.2.blocks.find x = none ∧
      (self.stubs.find x = none →
        ({ id := S, name := "", insts := [] } : BasicBlock)
          ∈ (self.blockToInstruction ctx x).2.2.insertInto.blocks) ∧
      ∀ ctx2 r2,
        Relation.ReflTransGen (fun s t => Step s t ∧ t.2.blocks.find x = none)
          (self.blockToInstruction ctx x).2 (ctx2, r2) →
        ∃ B, (r2.implementInstruction ctx2 x).1 = some B ∧ B ≠ S ∧
          (∀ y, (r2.implementInstruction ctx2 x).2.2.stubs.find y ≠ some S) ∧
          S ∉ (r2.implementInstruction ctx2 x).2.2.insertInto.blockIds ∧
          B ∈ (r2.implementInstruction ctx2 x).2.2.insertInto.blockIds ∧
          (∀ block inst index, block ≠ S →
            r2.insertInto.HasUse block inst index (.basicBlock S) →
            (r2.implementInstruction ctx2 x).2.2.insertInto.HasUse block inst index
              (.basicBlock B)) ∧
          (∀ block inst index,
            ¬ (r2.implementInstruction ctx2 x).2.2.insertInto.HasUse block inst index
              (.basicBlock S)) ∧
          ∀ ctx4 r4,
            Relation.ReflTransGen Step (r2.implementInstruction ctx2 x).2 (ctx4, r4) →
            r4.blockToInstruction ctx4 x = (B, ctx4, r4) := by
  have hfirst : (self.blockToInstruction ctx x).2.2.stubs.find x
        = some (self.blockToInstruction ctx x).1 ∧
      (self.blockToInstruction ctx x).2.2.blocks.find x = none := by
    unfold blockToInstruction
    cases hs : self.stubs.find x with
    | some st => simp [hx, hs]
    | none => simp [hx, hs, AddrMap.find_set_self]
  have hnew : self.stubs.find x = none →
      ({ id := (self.blockToInstruction ctx x).1, name := "", insts := [] } : BasicBlock)
        ∈ (self.blockToInstruction ctx x).2.2.insertInto.blocks := by
    intro hs
    simp [blockToInstruction, hx, hs, BasicBlock.Create]
  refine ⟨_, rfl, hfirst.1, hfirst.2, hnew, ?_⟩
  intro ctx2 r2 hsteps
  obtain ⟨hv2, hs2, hb2⟩ := stub_kept_steps x _ hsteps
    (stubsValid_reference ctx self x hvalid) hfirst.1 hfirst.2
  simp only at hv2 hs2 hb2
  generalize (self.blockToInstruction ctx x).1 = S at hs2 ⊢
  have hlt : S < ctx2.nextId := hv2.1 (x, S) (AddrMap.mem_of_find _ _ _ hs2)
  have hne : ctx2.nextId ≠ S := by omega
  rw [implement_of_stub ctx2 r2 x S hs2 hb2]
  refine ⟨ctx2.nextId, rfl, hne, ?_, ?_, ?_, ?_, ?_, ?_⟩
  · intro y hy
    simp only at hy
    have hyx : y ≠ x := by
      rintro rfl
      simp [AddrMap.find_erase_self] at hy
    rw [AddrMap.find_erase_of_ne _ _ _ hyx] at hy
    have h1 := AddrMap.mem_of_find _ _ _ hy
    have h2 := AddrMap.mem_of_find _ _ _ hs2
    have := List.inj_on_of_nodup_map hv2.2 h1 h2 rfl
    simp at this
    exact hyx this
  · simp [Function.blockIds, Function.eraseBlock, List.mem_filter]
  · simp only [Function.blockIds, Function.eraseBlock, Function.replaceAllUsesWith,
      BasicBlock.Create, List.mem_map, List.mem_filter]
    refine ⟨{ id := ctx2.nextId, name := "", insts := [] },
      ⟨⟨{ id := ctx2.nextId, name := "", insts := [] }, ?_, ?_⟩, ?_⟩, rfl⟩
    · simp
    · simp [BasicBlock.replaceUses]
    · simp [hne]
  · intro block inst index hbs huse
    exact hasUse_after_promotion ctx2 r2.insertInto S block inst index hbs huse
  · intro block inst index
    exact no_use_after_promotion ctx2 r2.insertInto S block inst index hne
  · intro ctx4 r4 hlater
    apply reference_of_block
    have := block_kept_steps x ctx2.nextId hlater (by simp [AddrMap.find_set_self])
    simpa using this

end AddressToBlock

namespace AddressToBlock

theorem stub_promotion_witness :
    sampleRegistry.StubsValid ⟨4⟩ ∧ sampleRegistry.blocks.find 0x1000 = none ∧
    ∃ S, (sampleRegistry.blockToInstruction ⟨4⟩ 0x1000).1 = S ∧
      (sampleRegistry.blockToInstruction ⟨4⟩ 0x1000).2.2.stubs.find 0x1000 = some S ∧
      (sampleRegistry.blockToInstruction ⟨4⟩ 0x1000).2.2.blocks.find 0x1000 = none :=
  ⟨by simp [StubsValid, sampleRegistry], by simp [sampleRegistry, AddrMap.find],
    (stub_promotion ⟨4⟩ sampleRegistry 0x1000 (by simp [StubsValid, sampleRegistry])
      (by simp [sampleRegistry, AddrMap.find])).imp fun _ h => ⟨h.1, h.2.1, h.2.2.1⟩⟩

/-- C2. Idempotence of `implementInstruction`. Once `implementInstruction x` has
returned a block `B`, a second call returns the null pointer and leaves the
allocator, the function, the stub map and the block map as they were, and
`blockToInstruction x` returns `B`, also without any change. -/
theorem implement_idempotent (ctx : LLVMContext) (self : AddressToBlock) (x B : Nat)
    (h : (self.implementInstruction ctx x).1 = some B) :
    (self.implementInstruction ctx x).2.2.implementInstruction
        (self.implementInstruction ctx x).2.1 x
      = (none, (self.implementInstruction ctx x).2.1, (self.implementInstruction ctx x).2.2) ∧
    (self.implementInstruction ctx x).2.2.blockToInstruction
        (self.implementInstruction ctx x).2.1 x
      = (B, (self.implementInstruction ctx x).2.1, (self.implementInstruction ctx x).2.2) := by
  have hfind : (self.implementInstruction ctx x).2.2.blocks.find x = some B := by
    unfold implementInstruction at h ⊢
    cases hb : self.blocks.find x with
    | some b => simp [hb] at h
    | none =>
      cases hs : self.stubs.find x <;>
        simp [hb, hs, BasicBlock.Create] at h ⊢ <;>
        simp [← h, AddrMap.find_set_self]
  constructor
  · generalize self.implementInstruction ctx x = r at hfind
    simp [implementInstruction, hfind]
  · exact reference_of_block _ _ x B hfind

theorem implement_idempotent_witness :
    (sampleRegistry.implementInstruction ⟨4⟩ 0x1000).1 = some 4 ∧
    (sampleRegistry.implementInstruction ⟨4⟩ 0x1000).2.2.implementInstruction
        (sampleRegistry.implementInstruction ⟨4⟩ 0x1000).2.1 0x1000
      = (none, (sampleRegistry.implementInstruction ⟨4⟩ 0x1000).2.1,
          (sampleRegistry.implementInstruction ⟨4⟩ 0x1000).2.2) :=
  ⟨by decide, (implement_idempotent ⟨4⟩ sampleRegistry 0x1000 4 (by decide)).1⟩

end AddressToBlock

/-! ## Function registry -/

theorem Module.findFunction_modify (m : Module) (R F : Nat) (f : Function → Function)
    (hf : ∀ fn, (f fn).id = fn.id) :
    (m.modifyFunction R f).findFunction F =
      (m.findFunction F).map fun fn => if fn.id = R then f fn else fn := by
  simp only [Module.findFunction, Module.modifyFunction, List.find?_map]
  have hcomp : ((fun fn : Function => decide (fn.id = F)) ∘
      fun fn => if fn.id = R then f fn else fn) = fun fn => decide (fn.id = F) := by
    funext fn
    by_cases hR : fn.id = R
    · simp only [Function.comp, if_pos hR, hf]
    · simp only [Function.comp, if_neg hR]
  rw [hcomp]

theorem Module.findFunction_modify_of_ne (m : Module) (R F : Nat) (f : Function → Function)
    (hf : ∀ fn, (f fn).id = fn.id) (hne : F ≠ R) :
    (m.modifyFunction R f).findFunction F = m.findFunction F := by
  rw [Module.findFunction_modify m R F f hf]
  cases h : m.findFunction F with
  | none => rfl
  | some fn =>
    have hid : fn.id = F := by
      have := List.find?_some h
      simpa using this
    simp [hid, hne]

theorem Module.modify_ids (m : Module) (R : Nat) (f : Function → Function)
    (hf : ∀ fn, (f fn).id = fn.id) (n : Nat) (h : ∀ fn ∈ m.functions, fn.id < n) :
    ∀ fn ∈ (m.modifyFunction R f).functions, fn.id < n := by
  intro fn hfn
  simp only [Module.modifyFunction, List.mem_map] at hfn
  obtain ⟨g, hg, rfl⟩ := hfn
  by_cases hR : g.id = R
  · rw [if_pos hR, hf]
    exact h g hg
  · rw [if_neg hR]
    exact h g hg

/-- What `getOrInsertFunction` leaves: the module with at most one declaration
added, taken from the allocator. -/
theorem Module.getOrInsertFunction_spec (ctx : LLVMContext) (m : Module) (name : String)
    (params : List Ty) :
    ∃ extra : List Function,
      (Module.getOrInsertFunction ctx m name params).2.2
        = { m with functions := m.functions ++ extra } ∧
      ctx.nextId ≤ (Module.getOrInsertFunction ctx m name params).2.1.nextId ∧
      ∀ fn ∈ extra, ctx.nextId ≤ fn.id ∧
        fn.id < (Module.getOrInsertFunction ctx m name params).2.1.nextId := by
  unfold Module.getOrInsertFunction
  cases h : m.functions.find? fun fn => fn.name = name with
  | some fn => exact ⟨[], by simp, by simp, by simp⟩
  | none =>
    refine ⟨[{ id := ctx.nextId, name := name, params := params, blocks := [],
               prototype := false, virtualAddress := none }], ?_, ?_, ?_⟩ <;>
      simp [Function.Create]

namespace AddressToFunction

theorem prototypeBody_id (ctx : LLVMContext) (p a : Nat) (fn : Function) :
    (prototypeBody ctx p a fn).id = fn.id := by
  simp [prototypeBody, md.setVirtualAddress, md.setPrototype, Function.insertAtEnd,
    BasicBlock.Create]

theorem prototypeBody_tags (ctx : LLVMContext) (p a : Nat) (fn : Function) :
    md.isPrototype (prototypeBody ctx p a fn) = true ∧
      (prototypeBody ctx p a fn).virtualAddress = some a := by
  simp [prototypeBody, md.setVirtualAddress, md.setPrototype, md.isPrototype,
    Function.insertAtEnd, BasicBlock.Create]

end AddressToFunction

namespace AddressToFunction

theorem getCallTarget_of_some (ctx : LLVMContext) (self : AddressToFunction) (a F : Nat)
    (h : self.functions.find a = some F) : self.getCallTarget ctx a = (F, ctx, self) := by
  simp [getCallTarget, h]

/-- What `getCallTarget` does at an address without a function. -/
theorem getCallTarget_created (ctx : LLVMContext) (self : AddressToFunction) (a : Nat)
    (ha : self.functions.find a = none) :
    (self.getCallTarget ctx a).1 = ctx.nextId ∧
    (self.getCallTarget ctx a).2.2.functions = self.functions.set a ctx.nextId ∧
    (self.getCallTarget ctx a).2.2.aliases = self.aliases ∧
    ctx.nextId < (self.getCallTarget ctx a).2.1.nextId ∧
    ((∀ fn ∈ self.module.functions, fn.id < ctx.nextId) →
      ∀ fn ∈ (self.getCallTarget ctx a).2.2.module.functions,
        fn.id < (self.getCallTarget ctx a).2.1.nextId) ∧
    (∃ fn, (self.getCallTarget ctx a).2.2.module.findFunction ctx.nextId = some fn ∧
      md.isPrototype fn = true ∧ fn.virtualAddress = some a) ∧
    (∀ F fn, F < ctx.nextId → self.module.findFunction F = some fn →
      (self.getCallTarget ctx a).2.2.module.findFunction F = some fn) := by
  obtain ⟨extra, hmod, hle, hextra⟩ := Module.getOrInsertFunction_spec
    (Function.Create ctx self.fnType (self.nameForAddress a) self.module).2.1
    (Function.Create ctx self.fnType (self.nameForAddress a) self.module).2.2
    "/fcd/prototype" [Ty.pointer (.int 8) 0]
  simp only [getCallTarget, ha, createFunctionNamed]
  generalize Module.getOrInsertFunction
    (Function.Create ctx self.fnType (self.nameForAddress a) self.module).2.1
    (Function.Create ctx self.fnType (self.nameForAddress a) self.module).2.2
    "/fcd/prototype" [Ty.pointer (.int 8) 0] = proto at hmod hle hextra ⊢
  have hle' : ctx.nextId + 1 ≤ proto.2.1.nextId := hle
  have hextra' : ∀ fn ∈ extra, ctx.nextId + 1 ≤ fn.id ∧ fn.id < proto.2.1.nextId := hextra
  refine ⟨rfl, rfl, trivial, by omega, ?_, ?_, ?_⟩
  · intro hids fn hfn
    have hbound : ∀ g ∈ proto.2.2.functions, g.id < proto.2.1.nextId + 4 := by
      intro g hg
      rw [hmod] at hg
      simp only [Function.Create, List.append_assoc, List.mem_append] at hg
      rcases hg with hg | hg | hg
      · have := hids g hg
        omega
      · simp at hg
        subst hg
        simp only
        omega
      · have := (hextra' g hg).2
        omega
    exact Module.modify_ids _ _ _ (prototypeBody_id _ _ _) _ hbound fn hfn
  · show ∃ fn, (proto.2.2.modifyFunction ctx.nextId _).findFunction ctx.nextId = some fn ∧ _
    rw [Module.findFunction_modify _ _ _ _ (prototypeBody_id _ _ _)]
    have hfound : ∃ g, proto.2.2.findFunction ctx.nextId = some g := by
      rw [hmod]
      simp only [Module.findFunction, Function.Create, List.append_assoc]
      rw [← Option.isSome_iff_exists, List.find?_isSome]
      exact ⟨{ id := ctx.nextId, name := self.nameForAddress a, params := self.fnType,
               blocks := [], prototype := false, virtualAddress := none },
        by simp, by simp⟩
    obtain ⟨g, hg⟩ := hfound
    have hgid : g.id = ctx.nextId := by
      have := List.find?_some hg
      simpa using this
    rw [hg]
    refine ⟨_, rfl, ?_⟩
    simp only [hgid, if_true]
    exact prototypeBody_tags _ _ _ _
  · intro F fn hF hfind
    show (proto.2.2.modifyFunction ctx.nextId _).findFunction F = some fn
    rw [Module.findFunction_modify_of_ne _ _ _ _ (prototypeBody_id _ _ _) (by omega), hmod]
    simp only [Module.findFunction, Function.Create, List.append_assoc] at hfind ⊢
    rw [List.find?_append, hfind]
    rfl

end AddressToFunction

namespace AddressToFunction

theorem valid_set_fresh (ctx : LLVMContext) (functions : AddrMap Nat) (b n : Nat)
    (hlt : ∀ e ∈ functions, e.2 < ctx.nextId) (hnd : (functions.map Prod.snd).Nodup)
    (hb : functions.find b = none) (hn : ctx.nextId < n) :
    (∀ e ∈ functions.set b ctx.nextId, e.2 < n) ∧
      ((functions.set b ctx.nextId).map Prod.snd).Nodup := by
  rw [AddrMap.set_of_find_none _ _ _ hb]
  constructor
  · intro e he
    rcases List.mem_append.mp he with he | he
    · have := hlt e he
      omega
    · simp at he
      subst he
      exact hn
  · rw [List.map_append, List.nodup_append]
    refine ⟨hnd, by simp, ?_⟩
    intro v hv hv'
    simp at hv'
    subst hv'
    obtain ⟨e, he, heq⟩ := List.mem_map.mp hv
    have := hlt e he
    omega

theorem valid_getCallTarget (ctx : LLVMContext) (self : AddressToFunction) (b : Nat)
    (h : self.Valid ctx) :
    (self.getCallTarget ctx b).2.2.Valid (self.getCallTarget ctx b).2.1 := by
  cases hb : self.functions.find b with
  | some F => rw [getCallTarget_of_some ctx self b F hb]; exact h
  | none =>
    obtain ⟨-, hfun, -, hlt, hids, -, -⟩ := getCallTarget_created ctx self b hb
    obtain ⟨h1, h2, h3⟩ := h
    have := valid_set_fresh ctx self.functions b _ h1 h2 hb hlt
    refine ⟨?_, ?_, hids h3⟩
    · rw [hfun]; exact this.1
    · rw [hfun]; exact this.2

/-- The function written back by `createFunction` on a prototype keeps its
identity. -/
theorem redefine_id (ctx : LLVMContext) (a : Nat) (fn : Function) :
    (md.setVirtualAddress (BasicBlock.Create ctx "entry" fn.deleteBody).2.2 a).id = fn.id := by
  simp [md.setVirtualAddress, BasicBlock.Create, Function.deleteBody]

theorem createFunction_absent (ctx : LLVMContext) (self : AddressToFunction) (b : Nat)
    (hb : self.functions.find b = none) :
    self.createFunction ctx b =
      (some ctx.nextId, { nextId := ctx.nextId + 1 },
        { self with
          module := { self.module with functions := self.module.functions ++
            [{ id := ctx.nextId, name := self.nameForAddress b, params := self.fnType,
               blocks := [], prototype := false, virtualAddress := none }] },
          functions := self.functions.set b ctx.nextId }) := by
  simp [createFunction, hb, createFunctionNamed, Function.Create]

theorem createFunction_prototype (ctx : LLVMContext) (self : AddressToFunction) (b R : Nat)
    (hb : self.functions.find b = some R)
    (hp : (self.module.findFunction R).any md.isPrototype = true) :
    self.createFunction ctx b =
      (some R, { nextId := ctx.nextId + 1 },
        { self with module := self.module.modifyFunction R fun fn =>
            md.setVirtualAddress (BasicBlock.Create ctx "entry" fn.deleteBody).2.2 b }) := by
  simp [createFunction, hb, hp]

theorem createFunction_defined (ctx : LLVMContext) (self : AddressToFunction) (b R : Nat)
    (hb : self.functions.find b = some R)
    (hp : (self.module.findFunction R).any md.isPrototype = false) :
    self.createFunction ctx b = (none, ctx, self) := by
  simp [createFunction, hb, hp]

theorem valid_createFunction (ctx : LLVMContext) (self : AddressToFunction) (b : Nat)
    (h : self.Valid ctx) :
    (self.createFunction ctx b).2.2.Valid (self.createFunction ctx b).2.1 := by
  obtain ⟨h1, h2, h3⟩ := h
  cases hb : self.functions.find b with
  | none =>
    rw [createFunction_absent ctx self b hb]
    have := valid_set_fresh ctx self.functions b (ctx.nextId + 1) h1 h2 hb (by omega)
    refine ⟨this.1, this.2, ?_⟩
    intro fn hfn
    simp only [List.mem_append, List.mem_singleton] at hfn
    rcases hfn with hfn | hfn
    · have := h3 fn hfn
      simp only
      omega
    · subst hfn
      simp
  | some R =>
    cases hp : (self.module.findFunction R).any md.isPrototype with
    | false => rw [createFunction_defined ctx self b R hb hp]; exact ⟨h1, h2, h3⟩
    | true =>
      rw [createFunction_prototype ctx self b R hb hp]
      refine ⟨fun e he => Nat.lt_succ_of_lt (h1 e he), h2, ?_⟩
      exact Module.modify_ids _ _ _ (redefine_id ctx b) _
        (fun fn hfn => Nat.lt_succ_of_lt (h3 fn hfn))

theorem setAlias_done (self self' : AddressToFunction) (name : String) (b : Nat)
    (h : self.setAlias name b = .done self') :
    self'.functions = self.functions ∧ self'.module = self.module ∧
      self.aliases.find b = none ∧ self'.aliases = self.aliases ++ [(b, name)] := by
  unfold setAlias AddrMap.insert at h
  cases hf : self.aliases.find b with
  | some n => simp [hf] at h
  | none =>
    simp [hf] at h
    subst h
    simp

theorem valid_step {a : Nat} {s t : LLVMContext × AddressToFunction}
    (hst : StepAvoiding a s t) (h : s.2.Valid s.1) : t.2.Valid t.1 := by
  cases hst with
  | callTarget ctx self b => exact valid_getCallTarget ctx self b h
  | define ctx self b hne => exact valid_createFunction ctx self b h
  | setAlias ctx self self' name b hdone =>
    obtain ⟨hf, hm, -, -⟩ := setAlias_done self self' name b hdone
    simpa [Valid, hf, hm] using h

end AddressToFunction

namespace AddressToFunction

/-- A step other than `createFunction a` leaves the function registered at `a`
and its object as they are. -/
theorem frame_step {a F : Nat} {fn : Function} {s t : LLVMContext × AddressToFunction}
    (hst : StepAvoiding a s t) (hv : s.2.Valid s.1)
    (hF : s.2.functions.find a = some F) (hfn : s.2.module.findFunction F = some fn) :
    t.2.functions.find a = some F ∧ t.2.module.findFunction F = some fn := by
  have hlt : F < s.1.nextId := hv.1 (a, F) (AddrMap.mem_of_find _ _ _ hF)
  cases hst with
  | callTarget ctx self b =>
    cases hb : self.functions.find b with
    | some R => rw [getCallTarget_of_some ctx self b R hb]; exact ⟨hF, hfn⟩
    | none =>
      obtain ⟨-, hfun, -, -, -, -, hframe⟩ := getCallTarget_created ctx self b hb
      have hne : a ≠ b := by
        rintro rfl
        simp [hb] at hF
      refine ⟨?_, hframe F fn hlt hfn⟩
      rw [hfun, AddrMap.find_set_of_ne _ _ _ _ hne]
      exact hF
  | define ctx self b hne =>
    cases hb : self.functions.find b with
    | none =>
      rw [createFunction_absent ctx self b hb]
      refine ⟨?_, ?_⟩
      · simp only
        rw [AddrMap.find_set_of_ne _ _ _ _ (Ne.symm hne)]
        exact hF
      · simp only [Module.findFunction] at hfn ⊢
        rw [List.find?_append, hfn]
        rfl
    | some R =>
      cases hp : (self.module.findFunction R).any md.isPrototype with
      | false => rw [createFunction_defined ctx self b R hb hp]; exact ⟨hF, hfn⟩
      | true =>
        rw [createFunction_prototype ctx self b R hb hp]
        have hRF : F ≠ R := by
          intro h
          subst h
          have h1 := AddrMap.mem_of_find _ _ _ hF
          have h2 := AddrMap.mem_of_find _ _ _ hb
          have := List.inj_on_of_nodup_map hv.2.1 h1 h2 rfl
          simp at this
          exact hne this.symm
        exact ⟨hF, by
          simp only
          rw [Module.findFunction_modify_of_ne _ _ _ _ (redefine_id ctx b) hRF]
          exact hfn⟩
  | setAlias ctx self self' name b hdone =>
    obtain ⟨hf, hm, -, -⟩ := setAlias_done self self' name b hdone
    simp only [hf, hm]
    exact ⟨hF, hfn⟩

theorem frame_steps {a F : Nat} {fn : Function} {s t : LLVMContext × AddressToFunction}
    (hst : Relation.ReflTransGen (StepAvoiding a) s t) (hv : s.2.Valid s.1)
    (hF : s.2.functions.find a = some F) (hfn : s.2.module.findFunction F = some fn) :
    t.2.Valid t.1 ∧ t.2.functions.find a = some F ∧ t.2.module.findFunction F = some fn := by
  induction hst with
  | refl => exact ⟨hv, hF, hfn⟩
  | tail _ hstep ih => exact ⟨valid_step hstep ih.1, frame_step hstep ih.1 ih.2.1 ih.2.2⟩

/-- C3. Call-target idempotence. A second `getCallTarget a` returns the function of
the first and changes nothing, allocator included. When the first call creates
the function, then after any steps of a valid registry other than
`createFunction a` the function is still the call target of `a`, tagged prototype
with virtual address `a`; and `createFunction a` then returns that same function,
which is no longer tagged prototype. -/
theorem call_target_idempotent (ctx : LLVMContext) (self : AddressToFunction) (a : Nat)
    (hvalid : self.Valid ctx) :
    (self.getCallTarget ctx a).2.2.getCallTarget (self.getCallTarget ctx a).2.1 a
      = ((self.getCallTarget ctx a).1, (self.getCallTarget ctx a).2.1,
          (self.getCallTarget ctx a).2.2) ∧
    (self.functions.find a = none →
      ∀ ctx2 s2, Relation.ReflTransGen (StepAvoiding a) (self.getCallTarget ctx a).2 (ctx2, s2) →
        s2.getCallTarget ctx2 a = ((self.getCallTarget ctx a).1, ctx2, s2) ∧
        (∃ fn, s2.module.findFunction (self.getCallTarget ctx a).1 = some fn ∧
          md.isPrototype fn = true ∧ fn.virtualAddress = some a) ∧
        (s2.createFunction ctx2 a).1 = some (self.getCallTarget ctx a).1 ∧
        ∃ fn', (s2.createFunction ctx2 a).2.2.module.findFunction (self.getCallTarget ctx a).1
            = some fn' ∧ md.isPrototype fn' = false) := by
  constructor
  · cases ha : self.functions.find a with
    | some F =>
      rw [getCallTarget_of_some ctx self a F ha]
      exact getCallTarget_of_some ctx self a F ha
    | none =>
      obtain ⟨h1, hfun, -⟩ := getCallTarget_created ctx self a ha
      apply getCallTarget_of_some
      rw [hfun, h1]
      exact AddrMap.find_set_self _ _ _
  · intro ha ctx2 s2 hsteps
    obtain ⟨h1, hfun, -, -, -, ⟨fn, hfn, hproto, hva⟩, -⟩ := getCallTarget_created ctx self a ha
    have hreg : (self.getCallTarget ctx a).2.2.functions.find a = some ctx.nextId := by
      rw [hfun]
      exact AddrMap.find_set_self _ _ _
    obtain ⟨-, hF2, hfn2⟩ := frame_steps hsteps (valid_getCallTarget ctx self a hvalid) hreg hfn
    simp only at hF2 hfn2
    rw [h1]
    have hany : (s2.module.findFunction ctx.nextId).any md.isPrototype = true := by
      simp [hfn2, hproto]
    refine ⟨getCallTarget_of_some ctx2 s2 a _ hF2, ⟨fn, hfn2, hproto, hva⟩, ?_, ?_⟩
    · rw [createFunction_prototype ctx2 s2 a _ hF2 hany]
    · rw [createFunction_prototype ctx2 s2 a _ hF2 hany]
      simp only
      rw [Module.findFunction_modify _ _ _ _ (redefine_id ctx2 a), hfn2]
      have hid : fn.id = ctx.nextId := by
        have := List.find?_some hfn2
        simpa using this
      exact ⟨_, rfl, by
        simp [hid, md.isPrototype, md.setVirtualAddress, BasicBlock.Create,
          Function.deleteBody]⟩

theorem call_target_idempotent_witness :
    sampleFunctions.Valid ⟨0⟩ ∧
    (sampleFunctions.getCallTarget ⟨0⟩ 0x2000).2.2.getCallTarget
        (sampleFunctions.getCallTarget ⟨0⟩ 0x2000).2.1 0x2000
      = ((sampleFunctions.getCallTarget ⟨0⟩ 0x2000).1,
          (sampleFunctions.getCallTarget ⟨0⟩ 0x2000).2.1,
          (sampleFunctions.getCallTarget ⟨0⟩ 0x2000).2.2) :=
  ⟨by simp [Valid, sampleFunctions, new],
    (call_target_idempotent ⟨0⟩ sampleFunctions 0x2000
      (by simp [Valid, sampleFunctions, new])).1⟩

end AddressToFunction

theorem AddrMap.find_append_of_none {β : Type} (m : AddrMap β) (k : Nat) (v : β)
    (h : AddrMap.find m k = none) : AddrMap.find (m ++ [(k, v)]) k = some v := by
  induction m with
  | nil => simp [AddrMap.find]
  | cons e rest ih =>
    obtain ⟨k0, v0⟩ := e
    by_cases h0 : k0 = k
    · simp [AddrMap.find, h0] at h
    · simp [AddrMap.find, h0] at h
      simp [AddrMap.find, h0, ih h]

namespace AddressToFunction

/-- After `createFunction a` returned a function from a valid registry, that function
is registered at `a`, is in the module and is not tagged prototype. -/
theorem defined_after_createFunction (ctx0 ctx : LLVMContext) (self0 self : AddressToFunction)
    (a F : Nat) (hv : self0.Valid ctx0) (h : self0.createFunction ctx0 a = (some F, ctx, self)) :
    ∃ fn, self.functions.find a = some F ∧ self.module.findFunction F = some fn ∧
      md.isPrototype fn = false := by
  cases ha : self0.functions.find a with
  | none =>
    rw [createFunction_absent ctx0 self0 a ha] at h
    simp only [Prod.mk.injEq, Option.some.injEq] at h
    obtain ⟨hF, -, hself⟩ := h
    subst hF hself
    refine ⟨{ id := ctx0.nextId, name := self0.nameForAddress a, params := self0.fnType,
              blocks := [], prototype := false, virtualAddress := none },
      AddrMap.find_set_self _ _ _, ?_, rfl⟩
    simp only [Module.findFunction]
    rw [List.find?_append]
    have hnone : List.find? (fun fn => decide (fn.id = ctx0.nextId)) self0.module.functions
        = none := by
      rw [List.find?_eq_none]
      intro fn hfn
      have := hv.2.2 fn hfn
      simp
      omega
    rw [hnone]
    simp
  | some R =>
    cases hp : (self0.module.findFunction R).any md.isPrototype with
    | false =>
      rw [createFunction_defined ctx0 self0 a R ha hp] at h
      simp at h
    | true =>
      rw [createFunction_prototype ctx0 self0 a R ha hp] at h
      simp only [Prod.mk.injEq, Option.some.injEq] at h
      obtain ⟨hF, -, hself⟩ := h
      subst hF hself
      cases hfn : self0.module.findFunction R with
      | none => simp [hfn] at hp
      | some fn0 =>
        have hid : fn0.id = R := by
          have := List.find?_some hfn
          simpa using this
        refine ⟨md.setVirtualAddress (BasicBlock.Create ctx0 "entry" fn0.deleteBody).2.2 a,
          ha, ?_, ?_⟩
        · simp only
          rw [Module.findFunction_modify _ _ _ _ (redefine_id ctx0 a), hfn]
          simp only [Option.map_some', hid, if_true]
        · simp [md.isPrototype, md.setVirtualAddress, BasicBlock.Create, Function.deleteBody]

/-- C5. Defining an address already defined is rejected without effect. When the
function registered at `a` exists and is not tagged prototype, in particular
when the state is the one an earlier `createFunction a` of a valid registry left
on returning a function, `createFunction a` returns the null pointer and the
allocator and the registry are unchanged; and the driver's `createFunction` at `a`
fails its assertion `fn != nullptr` with its context unchanged. -/
theorem define_defined_rejected (ctx : LLVMContext) (self : AddressToFunction) (a F : Nat)
    (hstate : (∃ fn, self.functions.find a = some F ∧ self.module.findFunction F = some fn ∧
        md.isPrototype fn = false) ∨
      ∃ ctx0 self0, AddressToFunction.Valid ctx0 self0 ∧
        self0.createFunction ctx0 a = (some F, ctx, self)) :
    self.createFunction ctx a = (none, ctx, self) ∧
    ∀ (ext : External) (fuel : Nat) (tc : TranslationContext) (bytes : List Nat),
      tc.context = ctx → tc.functionMap = self →
      tc.createFunction ext fuel a bytes
        = .failed (.assertion "fn != nullptr") { fn := none, self := tc } := by
  have hdef : ∃ fn, self.functions.find a = some F ∧ self.module.findFunction F = some fn ∧
      md.isPrototype fn = false := by
    rcases hstate with h | ⟨ctx0, self0, hv, h⟩
    · exact h
    · exact defined_after_createFunction ctx0 ctx self0 self a F hv h
  obtain ⟨fn, hF, hfn, hp⟩ := hdef
  have hrej : self.createFunction ctx a = (none, ctx, self) :=
    createFunction_defined ctx self a F hF (by simp [hfn, hp])
  refine ⟨hrej, ?_⟩
  intro ext fuel tc bytes hctx hmap
  subst hctx hmap
  simp only [TranslationContext.createFunction, hrej]

theorem define_defined_rejected_witness :
    sampleContext.functionMap.createFunction sampleContext.context 0x1000
      = (none, sampleContext.context, sampleContext.functionMap) ∧
    sampleContext.createFunction sampleExternal 8 0x1000 [0xc3]
      = .failed (.assertion "fn != nullptr") { fn := none, self := sampleContext } :=
  ⟨(define_defined_rejected sampleContext.context sampleContext.functionMap 0x1000 1
      (Or.inr ⟨⟨1⟩, sampleFunctions, by simp [Valid, sampleFunctions, new], by decide⟩)).1,
    (define_defined_rejected sampleContext.context sampleContext.functionMap 0x1000 1
      (Or.inr ⟨⟨1⟩, sampleFunctions, by simp [Valid, sampleFunctions, new], by decide⟩)).2
      sampleExternal 8 sampleContext [0xc3] rfl rfl⟩

end AddressToFunction

namespace AddressToFunction

/-- The claim of C6 evaluated in the empty registry at the address 0x1000, which
has no function: the function `createFunction` returns for it has no block at
all, so its body is not one empty entry block. -/
theorem define_absent_counterexample :
    ¬ (sampleFunctions.functions.find 0x1000 = none →
      ∃ F fn e, (sampleFunctions.createFunction ⟨0⟩ 0x1000).1 = some F ∧
        (sampleFunctions.createFunction ⟨0⟩ 0x1000).2.2.functions.find 0x1000 = some F ∧
        (sampleFunctions.createFunction ⟨0⟩ 0x1000).2.2.module.findFunction F = some fn ∧
        md.isPrototype fn = false ∧ fn.blocks = [e] ∧ e.insts = []) := by
  intro h
  obtain ⟨F, fn, e, h1, -, h3, -, h5, -⟩ := h (by decide)
  have hF : F = 0 := by
    have : (sampleFunctions.createFunction ⟨0⟩ 0x1000).1 = some 0 := by decide
    rw [this] at h1
    exact (Option.some.inj h1).symm
  subst hF
  have hfn : (sampleFunctions.createFunction ⟨0⟩ 0x1000).2.2.module.findFunction 0
      = some { id := 0, name := "func_1000", params := [Ty.pointer (.named "struct.x86_regs") 0],
               blocks := [], prototype := false, virtualAddress := none } := by decide
  rw [hfn] at h3
  have := Option.some.inj h3
  subst this
  simp at h5

/-- C6, where the code departs from it. On an address without a function in a
valid registry, `createFunction` returns a function that was not in the module
before, registers it at the address, and that function is not tagged
prototype; but it has no block, so no entry block, and no virtual address is
recorded for it. The sibling branch of the same method, taken when the address
holds a prototype, does both: the function it returns has the one empty block
`entry` as its body and carries the virtual address. -/
theorem define_absent (ctx : LLVMContext) (self : AddressToFunction) (a : Nat)
    (hvalid : self.Valid ctx) (ha : self.functions.find a = none) :
    (∃ F fn, (self.createFunction ctx a).1 = some F ∧
      self.module.findFunction F = none ∧
      (self.createFunction ctx a).2.2.functions.find a = some F ∧
      (self.createFunction ctx a).2.2.module.findFunction F = some fn ∧
      md.isPrototype fn = false ∧ fn.blocks = [] ∧ fn.virtualAddress = none) ∧
    ∀ (ctx' : LLVMContext) (other : AddressToFunction) (R : Nat) (fn0 : Function),
      other.functions.find a = some R → other.module.findFunction R = some fn0 →
      md.isPrototype fn0 = true →
      ∃ fn', (other.createFunction ctx' a).1 = some R ∧
        (other.createFunction ctx' a).2.2.module.findFunction R = some fn' ∧
        md.isPrototype fn' = false ∧
        fn'.blocks = [{ id := ctx'.nextId, name := "entry", insts := [] }] ∧
        fn'.virtualAddress = some a := by
  constructor
  · have hnone : self.module.findFunction ctx.nextId = none := by
      simp only [Module.findFunction]
      rw [List.find?_eq_none]
      intro fn hfn
      have := hvalid.2.2 fn hfn
      simp
      omega
    rw [createFunction_absent ctx self a ha]
    refine ⟨ctx.nextId, ⟨ctx.nextId, self.nameForAddress a, self.fnType, [], false, none⟩,
      rfl, hnone, AddrMap.find_set_self _ _ _, ?_, rfl, rfl, rfl⟩
    simp only [Module.findFunction] at hnone ⊢
    rw [List.find?_append, hnone]
    simp
  · intro ctx' other R fn0 hR hfn hp
    have hany : (other.module.findFunction R).any md.isPrototype = true := by
      simp [hfn, hp]
    have hid : fn0.id = R := by
      have := List.find?_some hfn
      simpa using this
    rw [createFunction_prototype ctx' other a R hR hany]
    refine ⟨md.setVirtualAddress (BasicBlock.Create ctx' "entry" fn0.deleteBody).2.2 a,
      rfl, ?_, ?_, ?_, ?_⟩
    · simp only
      rw [Module.findFunction_modify _ _ _ _ (redefine_id ctx' a), hfn]
      simp only [Option.map_some', hid, if_true]
    · simp [md.isPrototype, md.setVirtualAddress, BasicBlock.Create, Function.deleteBody]
    · simp [md.setVirtualAddress, BasicBlock.Create, Function.deleteBody]
    · simp [md.setVirtualAddress]

theorem define_absent_witness :
    (sampleFunctions.Valid ⟨0⟩ ∧ sampleFunctions.functions.find 0x1000 = none ∧
      ∃ F fn, (sampleFunctions.createFunction ⟨0⟩ 0x1000).1 = some F ∧
        sampleFunctions.module.findFunction F = none ∧
        (sampleFunctions.createFunction ⟨0⟩ 0x1000).2.2.functions.find 0x1000 = some F ∧
        (sampleFunctions.createFunction ⟨0⟩ 0x1000).2.2.module.findFunction F = some fn ∧
        md.isPrototype fn = false ∧ fn.blocks = [] ∧ fn.virtualAddress = none) ∧
    ∃ fn', ((sampleFunctions.getCallTarget ⟨0⟩ 0x1000).2.2.createFunction
          (sampleFunctions.getCallTarget ⟨0⟩ 0x1000).2.1 0x1000).1 = some 0 ∧
      ((sampleFunctions.getCallTarget ⟨0⟩ 0x1000).2.2.createFunction
          (sampleFunctions.getCallTarget ⟨0⟩ 0x1000).2.1 0x1000).2.2.module.findFunction 0
        = some fn' ∧
      md.isPrototype fn' = false ∧
      fn'.blocks = [{ id := (sampleFunctions.getCallTarget ⟨0⟩ 0x1000).2.1.nextId,
                      name := "entry", insts := [] }] ∧
      fn'.virtualAddress = some 0x1000 :=
  have h := define_absent ⟨0⟩ sampleFunctions 0x1000 (by simp [Valid, sampleFunctions, new])
    (by decide)
  ⟨⟨by simp [Valid, sampleFunctions, new], by decide, h.1⟩,
    h.2 (sampleFunctions.getCallTarget ⟨0⟩ 0x1000).2.1
      (sampleFunctions.getCallTarget ⟨0⟩ 0x1000).2.2 0
      (((sampleFunctions.getCallTarget ⟨0⟩ 0x1000).2.2.module.findFunction 0).getD
        (sampleBody ""))
      (by decide) (by decide) (by decide)⟩

/-- C7. Aliases are set once. After `setAlias n1 a` has returned normally, `setAlias
n2 a` fails its assertion and leaves the registry as it was, the alias of `a` is
`n1`, and `nameForAddress a` is `n1`. -/
theorem alias_set_once (self s1 : AddressToFunction) (n1 n2 : String) (a : Nat)
    (h : self.setAlias n1 a = .done s1) :
    s1.setAlias n2 a = .failed (.assertion "result.second") s1 ∧
    s1.aliases.find a = some n1 ∧ s1.nameForAddress a = n1 := by
  obtain ⟨-, -, hnone, hal⟩ := setAlias_done self s1 n1 a h
  have hfind : s1.aliases.find a = some n1 := by
    rw [hal]
    exact AddrMap.find_append_of_none _ _ _ hnone
  refine ⟨?_, hfind, ?_⟩
  · simp [setAlias, AddrMap.insert, hfind]
  · simp [nameForAddress, hfind]

theorem alias_set_once_witness :
    sampleFunctions.setAlias "main" 0x1000
      = .done { sampleFunctions with aliases := [(0x1000, "main")] } ∧
    ({ sampleFunctions with aliases := [(0x1000, "main")] } : AddressToFunction).setAlias
        "start" 0x1000
      = .failed (.assertion "result.second")
          { sampleFunctions with aliases := [(0x1000, "main")] } :=
  ⟨by decide,
    (alias_set_once sampleFunctions { sampleFunctions with aliases := [(0x1000, "main")] }
      "main" "start" 0x1000 (by decide)).1⟩

end AddressToFunction

/-! ## Names -/

theorem hexDigit_eq_digitChar (x : Nat) (h : x < 16) : hexDigit x = Nat.digitChar x := by
  interval_cases x <;> rfl

theorem write_hex_loop_eq (fuel : Nat) :
    ∀ (N : Nat) (buffer : List Char), 0 < N → N ≤ fuel →
      write_hex_loop fuel N buffer = Nat.toDigitsCore 16 (fuel + 1) N buffer := by
  induction fuel with
  | zero => intro N _ h0 h1; omega
  | succ fuel ih =>
    intro N buffer h0 h1
    have hN : N ≠ 0 := by omega
    rw [write_hex_loop, if_neg hN, Nat.toDigitsCore,
      hexDigit_eq_digitChar (N % 16) (Nat.mod_lt _ (by decide))]
    by_cases hq : N / 16 = 0
    · simp only [hq, if_true]
      cases fuel <;> simp [write_hex_loop]
    · simp only [hq, if_false]
      have hlt : N / 16 < N := Nat.div_lt_self h0 (by decide)
      exact ih (N / 16) _ (Nat.pos_of_ne_zero hq) (by omega)

theorem write_hex_eq (N : Nat) : write_hex N = String.mk (Nat.toDigits 16 N) := by
  unfold write_hex
  by_cases h : N = 0
  · subst h
    rfl
  · rw [if_neg h, write_hex_loop_eq N N [] (Nat.pos_of_ne_zero h) (Nat.le_refl _)]
    rfl

namespace AddressToFunction

/-- C8. The name of an address equals its reference definition: the alias when
one is registered, otherwise `func_` followed by the lowercase hexadecimal
numeral of the address; 0x1000 and 0x2000 without alias give `func_1000` and
`func_2000`. The method computes a string from the registry and the address and
returns nothing else, so the registry is as it was; the driver's `nameOf` is the
same function of its registry. -/
theorem nameForAddress_eq_spec (self : AddressToFunction) (a : Nat) :
    self.nameForAddress a = nameForSpec self.aliases a ∧
    (∀ tc : TranslationContext, tc.nameOf a = nameForSpec tc.functionMap.aliases a) ∧
    sampleFunctions.nameForAddress 0x1000 = "func_1000" ∧
    sampleFunctions.nameForAddress 0x2000 = "func_2000" := by
  have key : ∀ s : AddressToFunction, s.nameForAddress a = nameForSpec s.aliases a := by
    intro s
    unfold nameForAddress nameForSpec
    cases s.aliases.find a with
    | some n => rfl
    | none => simp only [write_hex_eq]
  exact ⟨key self, fun tc => key tc.functionMap, by decide, by decide⟩

end AddressToFunction

/-! ## Configuration -/

/-- C10. Address-size validation. `cs_size_mode` returns the 16-, 32- and 64-bit mode
for the sizes 2, 4 and 8 and returns a mode for no other size; for every
other size it throws `invalid_argument("address_size")`, and the constructor
of the translation context, given a semantics provider, ends with that thrown
exception, which its caller can catch, rather than with an abort. -/
theorem address_size_validation (address_size : Nat) :
    (∀ mode, cs_size_mode address_size = .ok mode ↔
      (address_size = 2 ∧ mode = .CS_MODE_16) ∨ (address_size = 4 ∧ mode = .CS_MODE_32) ∨
      (address_size = 8 ∧ mode = .CS_MODE_64)) ∧
    ((∃ mode, cs_size_mode address_size = .ok mode) ↔
      address_size = 2 ∨ address_size = 4 ∨ address_size = 8) ∧
    (¬ (address_size = 2 ∨ address_size = 4 ∨ address_size = 8) →
      cs_size_mode address_size = .error (.invalid_argument "address_size") ∧
      ∀ (context : LLVMContext) (irgen : CodeGenerator) (capstoneOpens : cs_mode → Bool)
        (config : x86_config) (module_name : String),
        config.address_size = address_size →
        TranslationContext.new context (some irgen) capstoneOpens config module_name
          = .error (.invalid_argument "address_size")) ∧
    cs_size_mode 3 = .error (.invalid_argument "address_size") := by
  have hcases : address_size = 2 ∨ address_size = 4 ∨ address_size = 8 ∨
      cs_size_mode address_size = .error (.invalid_argument "address_size") := by
    unfold cs_size_mode
    split <;> simp
  refine ⟨?_, ?_, ?_, rfl⟩
  · intro mode
    rcases hcases with h | h | h | h
    · subst h; cases mode <;> simp [cs_size_mode]
    · subst h; cases mode <;> simp [cs_size_mode]
    · subst h; cases mode <;> simp [cs_size_mode]
    · constructor
      · intro hok
        rw [h] at hok
        cases hok
      · rintro (⟨h2, -⟩ | ⟨h4, -⟩ | ⟨h8, -⟩)
        · subst h2; simp [cs_size_mode] at h
        · subst h4; simp [cs_size_mode] at h
        · subst h8; simp [cs_size_mode] at h
  · rcases hcases with h | h | h | h
    · subst h; simp [cs_size_mode]
    · subst h; simp [cs_size_mode]
    · subst h; simp [cs_size_mode]
    · constructor
      · rintro ⟨mode, hok⟩
        rw [h] at hok
        cases hok
      · rintro (h2 | h4 | h8)
        · subst h2; simp [cs_size_mode] at h
        · subst h4; simp [cs_size_mode] at h
        · subst h8; simp [cs_size_mode] at h
  · intro hnot
    have herr : cs_size_mode address_size = .error (.invalid_argument "address_size") := by
      rcases hcases with h | h | h | h
      · exact absurd (Or.inl h) hnot
      · exact absurd (Or.inr (Or.inl h)) hnot
      · exact absurd (Or.inr (Or.inr h)) hnot
      · exact h
    refine ⟨herr, ?_⟩
    intro context irgen capstoneOpens config module_name hsize
    simp only [TranslationContext.new, hsize, herr]

theorem address_size_validation_witness :
    cs_size_mode 3 = .error (.invalid_argument "address_size") ∧
    TranslationContext.new ⟨0⟩ (some sampleGenerator) (fun _ => true)
        { isa := 32, address_size := 3, ip := 0, sp := 1, fp := 2 } "m"
      = .error (.invalid_argument "address_size") :=
  ⟨((address_size_validation 3).2.2.1 (by decide)).1,
    ((address_size_validation 3).2.2.1 (by decide)).2 ⟨0⟩ sampleGenerator (fun _ => true)
      { isa := 32, address_size := 3, ip := 0, sp := 1, fp := 2 } "m" rfl⟩

/-! ## Intrinsic resolver -/

namespace Function

theorem hasInst_of_findInst (fn : Function) (c : Nat) (inst : Instruction)
    (h : fn.findInst c = some inst) : fn.HasInst inst ∧ inst.id = c := by
  unfold findInst at h
  have hmem := List.mem_of_find?_eq_some h
  have hid := List.find?_some h
  rw [List.mem_flatMap] at hmem
  obtain ⟨b, hb, hi⟩ := hmem
  exact ⟨⟨b, hb, hi⟩, by simpa using hid⟩

theorem mem_insertBeforeIn_old (before : Nat) (new i : Instruction) (l : List Instruction)
    (h : i ∈ l) : i ∈ insertBeforeIn before new l := by
  induction l with
  | nil => cases h
  | cons j rest ih =>
    unfold insertBeforeIn
    by_cases hj : j.id = before
    · simp only [hj, if_true]
      exact List.mem_cons_of_mem _ h
    · simp only [hj, if_false]
      rcases List.mem_cons.mp h with h | h
      · subst h
        exact List.mem_cons_self _ _
      · exact List.mem_cons_of_mem _ (ih h)

theorem mem_insertBeforeIn_new (new i : Instruction) (l : List Instruction)
    (h : i ∈ l) : new ∈ insertBeforeIn i.id new l := by
  induction l with
  | nil => cases h
  | cons j rest ih =>
    unfold insertBeforeIn
    by_cases hj : j.id = i.id
    · simp only [hj, if_true]
      exact List.mem_cons_self _ _
    · simp only [hj, if_false]
      rcases List.mem_cons.mp h with h | h
      · subst h
        exact absurd rfl hj
      · exact List.mem_cons_of_mem _ (ih h)

theorem mem_insertBeforeIn_cases (before : Nat) (new i : Instruction) (l : List Instruction)
    (h : i ∈ insertBeforeIn before new l) : i = new ∨ i ∈ l := by
  induction l with
  | nil => simp [insertBeforeIn] at h
  | cons j rest ih =>
    unfold insertBeforeIn at h
    by_cases hj : j.id = before
    · simp only [hj, if_true, List.mem_cons] at h
      rcases h with h | h | h
      · exact Or.inl h
      · exact Or.inr (by simp [h])
      · exact Or.inr (List.mem_cons_of_mem _ h)
    · simp only [hj, if_false, List.mem_cons] at h
      rcases h with h | h
      · exact Or.inr (by simp [h])
      · rcases ih h with h | h
        · exact Or.inl h
        · exact Or.inr (List.mem_cons_of_mem _ h)

theorem hasInst_insertBefore_old (fn : Function) (before : Nat) (new i : Instruction)
    (h : fn.HasInst i) : (fn.insertBefore before new).HasInst i := by
  obtain ⟨b, hb, hi⟩ := h
  exact ⟨{ b with insts := insertBeforeIn before new b.insts },
    List.mem_map.mpr ⟨b, hb, rfl⟩, mem_insertBeforeIn_old before new i b.insts hi⟩

theorem hasInst_insertBefore_new (fn : Function) (new i : Instruction)
    (h : fn.HasInst i) : (fn.insertBefore i.id new).HasInst new := by
  obtain ⟨b, hb, hi⟩ := h
  exact ⟨{ b with insts := insertBeforeIn i.id new b.insts },
    List.mem_map.mpr ⟨b, hb, rfl⟩, mem_insertBeforeIn_new new i b.insts hi⟩

theorem hasInst_replaceAllUsesWith (fn : Function) (old new : Value) (i : Instruction)
    (h : fn.HasInst i) : (fn.replaceAllUsesWith old new).HasInst (i.replaceUses old new) := by
  obtain ⟨b, hb, hi⟩ := h
  exact ⟨b.replaceUses old new, List.mem_map.mpr ⟨b, hb, rfl⟩,
    List.mem_map.mpr ⟨i, hi, rfl⟩⟩

theorem hasInst_eraseInst (fn : Function) (c : Nat) (i : Instruction)
    (h : fn.HasInst i) (hne : i.id ≠ c) : (fn.eraseInst c).HasInst i := by
  obtain ⟨b, hb, hi⟩ := h
  refine ⟨{ b with insts := b.insts.filter fun j => j.id ≠ c },
    List.mem_map.mpr ⟨b, hb, rfl⟩, ?_⟩
  simp only [List.mem_filter]
  exact ⟨hi, by simpa using hne⟩

theorem findInst_eraseInst (fn : Function) (c : Nat) : (fn.eraseInst c).findInst c = none := by
  unfold findInst eraseInst
  rw [List.find?_eq_none]
  intro i hi
  rw [List.mem_flatMap] at hi
  obtain ⟨b, hb, hib⟩ := hi
  obtain ⟨b0, -, rfl⟩ := List.mem_map.mp hb
  simp only [List.mem_filter] at hib
  simpa using hib.2

end Function

theorem AddressToFunction.getCallTarget_ctx_le (ctx : LLVMContext) (self : AddressToFunction)
    (a : Nat) : ctx.nextId ≤ (self.getCallTarget ctx a).2.1.nextId := by
  cases ha : self.functions.find a with
  | some F => rw [AddressToFunction.getCallTarget_of_some ctx self a F ha]
  | none =>
    obtain ⟨-, -, -, hlt, -⟩ := AddressToFunction.getCallTarget_created ctx self a ha
    omega

theorem AddressToFunction.getCallTarget_registered (ctx : LLVMContext)
    (self : AddressToFunction) (a : Nat) :
    (self.getCallTarget ctx a).2.2.functions.find a = some (self.getCallTarget ctx a).1 := by
  cases ha : self.functions.find a with
  | some F => rw [AddressToFunction.getCallTarget_of_some ctx self a F ha]; exact ha
  | none =>
    obtain ⟨h1, hfun, -⟩ := AddressToFunction.getCallTarget_created ctx self a ha
    rw [hfun, h1]
    exact AddrMap.find_set_self _ _ _

/-- C4. Discovery exclusion. Resolving a pseudo-call `x86_call_intrin` whose
destination operand is the constant `D` returns normally with the set of
discovered addresses exactly as it was; afterwards the function registry holds
a function `F` for the address `D`, the pseudo-call is gone from the function,
and the function contains a call of `F` whose only argument is the register-file
argument of the pseudo-call. -/
theorem call_discovery_exclusion (st : Lifting) (c bits D : Nat) (inst : Instruction)
    (reg : Value)
    (hfind : st.blockMap.insertInto.findInst c = some inst)
    (hname : inst.getCalledFunction = some "x86_call_intrin")
    (hreg : inst.operands.get? 1 = some reg)
    (hdest : inst.operands.get? 2 = some (.constantInt bits D))
    (hself : reg ≠ inst.asValue)
    (hc : c < st.ctx.nextId) :
    ∃ st' F name, resolveIntrinsic c st = .done st' ∧
      st'.newLabels = st.newLabels ∧
      st'.funcMap.functions.find (getLimitedValue D) = some F ∧
      st'.blockMap.insertInto.findInst c = none ∧
      ∃ i, st'.blockMap.insertInto.HasInst i ∧ i.opcode = .call ∧
        i.operands = [reg, .function F name] := by
  obtain ⟨hhas, hid⟩ := Function.hasInst_of_findInst _ _ _ hfind
  subst hid
  have hle := AddressToFunction.getCallTarget_ctx_le st.ctx st.funcMap (getLimitedValue D)
  have hreg' := AddressToFunction.getCallTarget_registered st.ctx st.funcMap (getLimitedValue D)
  have hres : resolveIntrinsic inst.id st = resolveCall inst st := by
    simp only [resolveIntrinsic, hfind, hname]
    rfl
  simp only [resolveCall, hdest] at hres
  refine ⟨_, _, ?name, hres, rfl, hreg', ?_, ?_⟩
  case name =>
    exact ((Option.map (fun x => x.name)
      ((st.funcMap.getCallTarget st.ctx (getLimitedValue D)).2.2.module.findFunction
        (st.funcMap.getCallTarget st.ctx (getLimitedValue D)).1)).getD "")
  · exact Function.findInst_eraseInst _ inst.id
  · refine ⟨_, Function.hasInst_eraseInst _ inst.id _
      (Function.hasInst_replaceAllUsesWith _ inst.asValue _ _
        (Function.hasInst_insertBefore_new _ _ inst hhas)) ?_, ?_, ?_⟩
    · simp only [Instruction.replaceUses]
      omega
    · rfl
    · simp only [Instruction.replaceUses, hreg, Option.getD_some, List.map_cons, List.map_nil,
        if_neg hself]
      simp [Instruction.asValue]

theorem call_discovery_exclusion_witness :
    ∃ st' F name, resolveIntrinsic 3 sampleLifting = .done st' ∧
      st'.newLabels = sampleLifting.newLabels ∧
      st'.funcMap.functions.find (getLimitedValue 0x2000) = some F ∧
      st'.blockMap.insertInto.findInst 3 = none ∧
      ∃ i, st'.blockMap.insertInto.HasInst i ∧ i.opcode = .call ∧
        i.operands = [.argument (.pointer (.named "struct.x86_regs") 0) 0 0,
          .function F name] :=
  call_discovery_exclusion sampleLifting 3 64 0x2000 sampleCall
    (.argument (.pointer (.named "struct.x86_regs") 0) 0 0)
    (by decide) (by decide) (by decide) (by decide) (by decide) (by decide)

theorem getStoreType_limited_ok (w : Nat) (h : w = 1 ∨ w = 2 ∨ w = 4 ∨ w = 8) :
    getStoreType (getLimitedValue w) = .ok (.int (w * 8)) := by
  rcases h with h | h | h | h <;> subst h <;> rfl

theorem getStoreType_limited_error (w : Nat) (h : ¬ (w = 1 ∨ w = 2 ∨ w = 4 ∨ w = 8)) :
    getStoreType (getLimitedValue w) = .error (.invalid_argument "size") := by
  unfold getStoreType getLimitedValue
  by_cases hbig : w > 2 ^ 64 - 1
  · rw [if_pos hbig]
    rfl
  · rw [if_neg hbig, if_neg h]

theorem sizeOperand_of_constant (inst : Instruction) (bits w : Nat)
    (h : inst.operands.get? 1 = some (.constantInt bits w)) :
    sizeOperand inst = .ok (getLimitedValue w) := by
  unfold sizeOperand
  rw [h]

theorem resolveReadMem_ok (st : Lifting) (inst : Instruction) (bits w : Nat)
    (hwidth : inst.operands.get? 1 = some (.constantInt bits w))
    (hw : w = 1 ∨ w = 2 ∨ w = 4 ∨ w = 8)
    (hhas : st.blockMap.insertInto.HasInst inst) (hc : inst.id < st.ctx.nextId) :
    ∃ st' i, resolveReadMem inst st = .done st' ∧ st'.blockMap.insertInto.HasInst i ∧
      i.opcode = .load ∧ i.ty = .int (w * 8) ∧ i.programMemory = true := by
  have h0 : ∃ a, inst.operands.get? 0 = some a := by
    cases hops : inst.operands with
    | nil => simp [hops] at hwidth
    | cons a rest => exact ⟨a, by simp⟩
  obtain ⟨a, ha⟩ := h0
  have hsize : (sizeOperand inst >>= getStoreType) = .ok (.int (w * 8)) := by
    rw [sizeOperand_of_constant inst bits w hwidth]
    exact getStoreType_limited_ok w hw
  unfold resolveReadMem
  simp only [ha, hsize]
  by_cases h64 : (md.setProgramMemory
      { id := st.ctx.nextId + 1, opcode := .load, ty := Ty.int (w * 8),
        operands := [Instruction.asValue
          { id := st.ctx.nextId, opcode := .intToPtr, ty := (Ty.int (w * 8)).getPointerTo,
            operands := [a], programMemory := false }],
        programMemory := false }).ty ≠ Ty.int 64
  · rw [if_pos h64]
    refine ⟨_, _, rfl, Function.hasInst_eraseInst _ inst.id _
      (Function.hasInst_replaceAllUsesWith _ inst.asValue _ _
        (Function.hasInst_insertBefore_old _ inst.id _ _
          (Function.hasInst_insertBefore_new _ _ inst
            (Function.hasInst_insertBefore_old _ inst.id _ _ hhas)))) ?_, rfl, rfl, rfl⟩
    simp only [Instruction.replaceUses, md.setProgramMemory]
    omega
  · rw [if_neg h64]
    refine ⟨_, _, rfl, Function.hasInst_eraseInst _ inst.id _
      (Function.hasInst_replaceAllUsesWith _ inst.asValue _ _
        (Function.hasInst_insertBefore_new _ _ inst
          (Function.hasInst_insertBefore_old _ inst.id _ _ hhas))) ?_, rfl, rfl, rfl⟩
    simp only [Instruction.replaceUses, md.setProgramMemory]
    omega

theorem resolveWriteMem_ok (st : Lifting) (inst : Instruction) (bits w : Nat)
    (hwidth : inst.operands.get? 1 = some (.constantInt bits w))
    (hvalue : (inst.operands.get? 2).isSome = true)
    (hw : w = 1 ∨ w = 2 ∨ w = 4 ∨ w = 8)
    (hhas : st.blockMap.insertInto.HasInst inst) (hc : inst.id < st.ctx.nextId) :
    ∃ st' i, resolveWriteMem inst st = .done st' ∧ st'.blockMap.insertInto.HasInst i ∧
      i.opcode = .store ∧ i.programMemory = true ∧
      i.operands.get? 1 = some (.instruction (.pointer (.int (w * 8)) 0) st.ctx.nextId) := by
  have h0 : ∃ a, inst.operands.get? 0 = some a := by
    cases hops : inst.operands with
    | nil => simp [hops] at hwidth
    | cons a rest => exact ⟨a, by simp⟩
  obtain ⟨a, ha⟩ := h0
  obtain ⟨value, hv⟩ := Option.isSome_iff_exists.mp hvalue
  have hsize : (sizeOperand inst >>= getStoreType) = .ok (.int (w * 8)) := by
    rw [sizeOperand_of_constant inst bits w hwidth]
    exact getStoreType_limited_ok w hw
  unfold resolveWriteMem
  simp only [ha, hv, hsize]
  by_cases hty : value.getType ≠ Ty.int (w * 8)
  · rw [if_pos hty]
    refine ⟨_, _, rfl, Function.hasInst_eraseInst _ inst.id _
      (Function.hasInst_insertBefore_new _ _ inst
        (Function.hasInst_insertBefore_old _ inst.id _ _
          (Function.hasInst_insertBefore_old _ inst.id _ _ hhas))) ?_, rfl, rfl, rfl⟩
    simp only [md.setProgramMemory]
    omega
  · rw [if_neg hty]
    refine ⟨_, _, rfl, Function.hasInst_eraseInst _ inst.id _
      (Function.hasInst_insertBefore_new _ _ inst
        (Function.hasInst_insertBefore_old _ inst.id _ _ hhas)) ?_, rfl, rfl, rfl⟩
    simp only [md.setProgramMemory]
    omega

theorem resolveMem_error (st : Lifting) (inst : Instruction) (bits w : Nat)
    (hwidth : inst.operands.get? 1 = some (.constantInt bits w))
    (hw : ¬ (w = 1 ∨ w = 2 ∨ w = 4 ∨ w = 8)) :
    resolveReadMem inst st = .failed (.invalid_argument "size") st ∧
    ((inst.operands.get? 2).isSome = true →
      resolveWriteMem inst st = .failed (.invalid_argument "size") st) := by
  have h0 : ∃ a, inst.operands.get? 0 = some a := by
    cases hops : inst.operands with
    | nil => simp [hops] at hwidth
    | cons a rest => exact ⟨a, by simp⟩
  obtain ⟨a, ha⟩ := h0
  have hsize : (sizeOperand inst >>= getStoreType) = .error (.invalid_argument "size") := by
    rw [sizeOperand_of_constant inst bits w hwidth]
    exact getStoreType_limited_error w hw
  constructor
  · unfold resolveReadMem
    simp only [ha, hsize]
  · intro hvalue
    obtain ⟨value, hv⟩ := Option.isSome_iff_exists.mp hvalue
    unfold resolveWriteMem
    simp only [ha, hv, hsize]

/-- C9. Access-width validation. For a memory read `x86_read_mem`, or a memory write
`x86_write_mem` that has its value operand, whose width operand is the constant
`w`: when `w` is not 1, 2, 4 or 8 the resolution fails with the thrown
`invalid_argument("size")` in the very state it started from, so nothing was
rewritten; when `w` is 1, 2, 4 or 8 the store type is the integer type of `w * 8`
bits and the resolution returns normally, leaving in the function an access
tagged as program memory, a load of that type for a read and a store through a
pointer to that type for a write. Hence the resolution fails exactly when `w` is
outside 1, 2, 4, 8. -/
theorem access_width_validation (st : Lifting) (c bits w : Nat) (inst : Instruction)
    (name : String)
    (hfind : st.blockMap.insertInto.findInst c = some inst)
    (hname : inst.getCalledFunction = some name)
    (hkind : name = "x86_read_mem" ∨
      (name = "x86_write_mem" ∧ (inst.operands.get? 2).isSome = true))
    (hwidth : inst.operands.get? 1 = some (.constantInt bits w))
    (hc : c < st.ctx.nextId) :
    (¬ (w = 1 ∨ w = 2 ∨ w = 4 ∨ w = 8) →
      resolveIntrinsic c st = .failed (.invalid_argument "size") st) ∧
    ((w = 1 ∨ w = 2 ∨ w = 4 ∨ w = 8) →
      getStoreType (getLimitedValue w) = .ok (.int (w * 8)) ∧
      ∃ st' i, resolveIntrinsic c st = .done st' ∧ st'.blockMap.insertInto.HasInst i ∧
        i.programMemory = true ∧
        ((name = "x86_read_mem" ∧ i.opcode = .load ∧ i.ty = .int (w * 8)) ∨
         (name = "x86_write_mem" ∧ i.opcode = .store ∧
            i.operands.get? 1
              = some (.instruction (.pointer (.int (w * 8)) 0) st.ctx.nextId)))) ∧
    ((∃ e st', resolveIntrinsic c st = .failed e st') ↔
      ¬ (w = 1 ∨ w = 2 ∨ w = 4 ∨ w = 8)) := by
  obtain ⟨hhas, hid⟩ := Function.hasInst_of_findInst _ _ _ hfind
  subst hid
  have hres : resolveIntrinsic inst.id st =
      if name = "x86_read_mem" then resolveReadMem inst st else resolveWriteMem inst st := by
    simp only [resolveIntrinsic, hfind, hname]
    rcases hkind with h | ⟨h, -⟩ <;> subst h <;> rfl
  have hbad : ¬ (w = 1 ∨ w = 2 ∨ w = 4 ∨ w = 8) →
      resolveIntrinsic inst.id st = .failed (.invalid_argument "size") st := by
    intro hw
    obtain ⟨hr, hwr⟩ := resolveMem_error st inst bits w hwidth hw
    rw [hres]
    rcases hkind with h | ⟨h, hv⟩
    · rw [if_pos h]
      exact hr
    · subst h
      rw [if_neg (by decide)]
      exact hwr hv
  have hgood : (w = 1 ∨ w = 2 ∨ w = 4 ∨ w = 8) →
      ∃ st' i, resolveIntrinsic inst.id st = .done st' ∧ st'.blockMap.insertInto.HasInst i ∧
        i.programMemory = true ∧
        ((name = "x86_read_mem" ∧ i.opcode = .load ∧ i.ty = .int (w * 8)) ∨
         (name = "x86_write_mem" ∧ i.opcode = .store ∧
            i.operands.get? 1
              = some (.instruction (.pointer (.int (w * 8)) 0) st.ctx.nextId))) := by
    intro hw
    rw [hres]
    rcases hkind with h | ⟨h, hv⟩
    · rw [if_pos h]
      obtain ⟨st', i, h1, h2, h3, h4, h5⟩ := resolveReadMem_ok st inst bits w hwidth hw hhas hc
      exact ⟨st', i, h1, h2, h5, Or.inl ⟨h, h3, h4⟩⟩
    · subst h
      rw [if_neg (by decide)]
      obtain ⟨st', i, h1, h2, h3, h4, h5⟩ :=
        resolveWriteMem_ok st inst bits w hwidth hv hw hhas hc
      exact ⟨st', i, h1, h2, h4, Or.inr ⟨rfl, h3, h5⟩⟩
  refine ⟨hbad, fun hw => ⟨getStoreType_limited_ok w hw, hgood hw⟩, ?_⟩
  constructor
  · rintro ⟨e, st', hfail⟩ hw
    obtain ⟨st'', i, hdone, -⟩ := hgood hw
    rw [hdone] at hfail
    cases hfail
  · intro hw
    exact ⟨_, _, hbad hw⟩

theorem access_width_validation_witness :
    resolveIntrinsic 4 sampleLifting = .failed (.invalid_argument "size") sampleLifting ∧
    ∃ st' i, resolveIntrinsic 2 sampleLifting = .done st' ∧
      st'.blockMap.insertInto.HasInst i ∧ i.programMemory = true ∧
      (("x86_read_mem" = "x86_read_mem" ∧ i.opcode = .load ∧ i.ty = .int (8 * 8)) ∨
       ("x86_read_mem" = "x86_write_mem" ∧ i.opcode = .store ∧
          i.operands.get? 1
            = some (.instruction (.pointer (.int (8 * 8)) 0) sampleLifting.ctx.nextId))) :=
  ⟨(access_width_validation sampleLifting 4 64 3 sampleWrite "x86_write_mem"
      (by decide) (by decide) (by decide) (by decide) (by decide)).1 (by decide),
    ((access_width_validation sampleLifting 2 64 8 sampleRead "x86_read_mem"
      (by decide) (by decide) (by decide) (by decide) (by decide)).2.1 (by decide)).2⟩

theorem dataLayoutFor_eq_spec (config : x86_config)
    (hsize : config.address_size = 2 ∨ config.address_size = 4 ∨ config.address_size = 8) :
    dataLayoutFor config = dataLayoutSpec config.isa config.address_size := by
  obtain ⟨isa, size, ip, sp, fp⟩ := config
  simp only at hsize
  by_cases h64 : isa ≥ 64
  · have h32 : isa ≥ 32 := by omega
    rcases hsize with h | h | h <;> subst h <;>
      simp only [dataLayoutFor, dataLayoutSpec, x86_isa32, x86_isa64, h32, h64, if_true] <;>
      decide
  · by_cases h32 : isa ≥ 32
    · rcases hsize with h | h | h <;> subst h <;>
        simp only [dataLayoutFor, dataLayoutSpec, x86_isa32, x86_isa64, h32, h64, if_true,
          if_false] <;>
        decide
    · rcases hsize with h | h | h <;> subst h <;>
        simp only [dataLayoutFor, dataLayoutSpec, x86_isa32, x86_isa64, h32, h64,
          if_false] <;>
        decide

theorem dataLayoutFor_shape (config : x86_config)
    (hsize : config.address_size = 2 ∨ config.address_size = 4 ∨ config.address_size = 8) :
    dataLayoutFor config =
      "e-n8:16" ++ (if config.isa ≥ 32 then ":32" else "") ++
        (if config.isa ≥ 64 then ":64" else "") ++ "-p0:64:64:64-p1:" ++
        toString (config.address_size * 8) ++ ":" ++ toString (config.address_size * 8) ++
        ":" ++ toString (config.address_size * 8) := by
  obtain ⟨isa, size, ip, sp, fp⟩ := config
  simp only at hsize
  by_cases h64 : isa ≥ 64
  · have h32 : isa ≥ 32 := by omega
    rcases hsize with h | h | h <;> subst h <;>
      simp only [dataLayoutFor, x86_isa32, x86_isa64, h32, h64, if_true] <;>
      decide
  · by_cases h32 : isa ≥ 32
    · rcases hsize with h | h | h <;> subst h <;>
        simp only [dataLayoutFor, x86_isa32, x86_isa64, h32, h64, if_true, if_false] <;>
        decide
    · rcases hsize with h | h | h <;> subst h <;>
        simp only [dataLayoutFor, x86_isa32, x86_isa64, h32, h64, if_false] <;>
        decide

theorem TranslationContext.new_dataLayout (context : LLVMContext)
    (generator : Option CodeGenerator) (capstoneOpens : cs_mode → Bool) (config : x86_config)
    (module_name : String) (tc : TranslationContext)
    (h : TranslationContext.new context generator capstoneOpens config module_name = .ok tc) :
    tc.take.dataLayout = dataLayoutFor config := by
  unfold TranslationContext.new at h
  cases generator with
  | none => cases h
  | some irgen =>
    simp only at h
    cases hm : cs_size_mode config.address_size with
    | error e => rw [hm] at h; cases h
    | ok mode =>
      rw [hm] at h
      simp only at h
      cases ho : capstoneOpens mode with
      | false => simp [ho] at h
      | true =>
        simp only [ho, Bool.not_true, Bool.false_eq_true, if_false] at h
        cases ht : tripleFor config with
        | error e => rw [ht] at h; cases h
        | ok triple =>
          rw [ht] at h
          simp only [Except.ok.injEq] at h
          subst h
          rfl

/-- C11. Data-layout construction. For an address size of 2, 4 or 8 the
data-layout string is `e-n8:16`, then `:32` exactly when the instruction-set width
is at least 32, then `:64` exactly when it is at least 64, then
`-p0:64:64:64-p1:N:N:N` with `N` the decimal numeral of `address_size * 8`. It equals
the reference layout: little-endian, native widths 8 and 16 plus 32 and 64
under those conditions, 64-bit pointers in space 0 and pointers of
`address_size * 8` bits in space 1. It is the data layout of the module of every
context the constructor returns. -/
theorem data_layout_construction (config : x86_config)
    (hsize : config.address_size = 2 ∨ config.address_size = 4 ∨ config.address_size = 8) :
    dataLayoutFor config =
      "e-n8:16" ++ (if config.isa ≥ 32 then ":32" else "") ++
        (if config.isa ≥ 64 then ":64" else "") ++ "-p0:64:64:64-p1:" ++
        toString (config.address_size * 8) ++ ":" ++ toString (config.address_size * 8) ++
        ":" ++ toString (config.address_size * 8) ∧
    dataLayoutFor config = dataLayoutSpec config.isa config.address_size ∧
    ∀ (context : LLVMContext) (generator : Option CodeGenerator)
      (capstoneOpens : cs_mode → Bool) (module_name : String) (tc : TranslationContext),
      TranslationContext.new context generator capstoneOpens config module_name = .ok tc →
      tc.take.dataLayout = dataLayoutFor config :=
  ⟨dataLayoutFor_shape config hsize, dataLayoutFor_eq_spec config hsize,
    fun context generator capstoneOpens module_name tc h =>
      TranslationContext.new_dataLayout context generator capstoneOpens config module_name tc h⟩

theorem data_layout_construction_witness :
    dataLayoutFor { isa := 64, address_size := 8, ip := 0, sp := 1, fp := 2 }
      = "e-n8:16:32:64-p0:64:64:64-p1:64:64:64" ∧
    dataLayoutFor { isa := 32, address_size := 4, ip := 0, sp := 1, fp := 2 }
      = "e-n8:16:32-p0:64:64:64-p1:32:32:32" :=
  ⟨(data_layout_construction { isa := 64, address_size := 8, ip := 0, sp := 1, fp := 2 }
      (by decide)).1,
    (data_layout_construction { isa := 32, address_size := 4, ip := 0, sp := 1, fp := 2 }
      (by decide)).1⟩

/-! ## Semantics provider -/

namespace CodeGenerator

theorem fillTable_size (self : CodeGenerator) (decls : List (Nat × String)) :
    ∀ (funcs result : FunctionVector), self.fillTable decls funcs = .ok result →
      result.size = funcs.size := by
  induction decls with
  | nil =>
    intro funcs result h
    simp only [fillTable, Except.ok.injEq] at h
    rw [← h]
  | cons d rest ih =>
    obtain ⟨e, n⟩ := d
    intro funcs result h
    simp only [fillTable] at h
    cases hg : self.getFunction ("x86_" ++ n) with
    | error err => rw [hg] at h; cases h
    | ok fn =>
      rw [hg] at h
      simp only at h
      have := ih _ _ h
      rw [this]
      rfl

/-- C13, where the code departs from it. The factory never returns a semantics
provider: when the bundle parses, `init` leaves the member module null and the
next line dereferences it; when it does not parse, `init` fails its assertion.
And whatever provider fills the table from the declaration list, the table
keeps the size zero it had after `reserve`, so `implementationFor` throws
`out_of_range` for every opcode id, those of the list included. -/
theorem opcode_table_not_total (parsed : Option Module) (X86_INS_ENDING : Nat)
    (decls : List (Nat × String)) :
    (∀ g, x86 parsed X86_INS_ENDING decls ≠ .ok (some g)) ∧
    (x86 parsed X86_INS_ENDING decls = .error .nullDereference ∨
      x86 parsed X86_INS_ENDING decls = .error (.assertion "false")) ∧
    ∀ (g : CodeGenerator) (funcs : FunctionVector) (e : Nat),
      g.fillTable decls (create.functionByOpcode.reserve X86_INS_ENDING) = .ok funcs →
      ({ g with functionByOpcode := funcs } : CodeGenerator).implementationFor e
        = .error .out_of_range := by
  have hx : x86 parsed X86_INS_ENDING decls = .error .nullDereference ∨
      x86 parsed X86_INS_ENDING decls = .error (.assertion "false") := by
    cases parsed with
    | some m => exact Or.inl rfl
    | none => exact Or.inr rfl
  refine ⟨?_, hx, ?_⟩
  · intro g hg
    rcases hx with h | h <;> rw [h] at hg <;> cases hg
  · intro g funcs e h
    have hsize := fillTable_size g decls _ _ h
    simp only [implementationFor, FunctionVector.at]
    have h0 : funcs.size = 0 := by
      rw [hsize]
      rfl
    rw [h0]
    rfl

end CodeGenerator

namespace CodeGenerator

theorem opcode_table_not_total_witness :
    ∃ funcs, workingGenerator.fillTable [(2, "ret")] (create.functionByOpcode.reserve 1000)
        = .ok funcs ∧
      ({ workingGenerator with functionByOpcode := funcs } : CodeGenerator).implementationFor 2
        = .error .out_of_range :=
  ⟨_, rfl, (opcode_table_not_total (some sampleBundle) 1000 [(2, "ret")]).2.2
    workingGenerator _ 2 rfl⟩

theorem redirectReturns_eq (jumpOut : Nat) (rets : List Nat) :
    ∀ (ctx : LLVMContext) (fn : Function),
      redirectReturns jumpOut rets ctx fn =
        ({ nextId := ctx.nextId + rets.length },
          { fn with blocks := fn.blocks.map fun b =>
              { b with insts := redirectIn jumpOut rets ctx.nextId b.insts } }) := by
  induction rets with
  | nil =>
    intro ctx fn
    simp [redirectReturns, redirectIn]
  | cons r rest ih =>
    intro ctx fn
    rw [redirectReturns, ih]
    simp only [Function.insertBefore, Function.eraseInst, List.map_map, List.length_cons,
      redirectIn]
    refine Prod.ext ?_ ?_
    · simp only
      congr 1
      omega
    · rfl

theorem redirectIn_nil (jumpOut : Nat) (rets : List Nat) :
    ∀ next, redirectIn jumpOut rets next [] = [] := by
  induction rets with
  | nil => intro next; rfl
  | cons r rest ih => intro next; simp [redirectIn, insertBeforeIn, ih]

/-- No redirected return is left, provided the returns were allocated before
the branches. -/
theorem redirectIn_no_return (jumpOut : Nat) (rets : List Nat) :
    ∀ (next : Nat) (insts : List Instruction) (r : Nat),
      (∀ x ∈ rets, x < next) → (r ∈ rets ∨ (r < next ∧ ∀ i ∈ insts, i.id ≠ r)) →
      ∀ i ∈ redirectIn jumpOut rets next insts, i.id ≠ r := by
  induction rets with
  | nil =>
    intro next insts r _ h i hi
    rcases h with h | h
    · cases h
    · exact h.2 i hi
  | cons x rest ih =>
    intro next insts r hlt h i hi
    simp only [redirectIn] at hi
    have hx : x < next := hlt x (List.mem_cons_self _ _)
    have hrest : ∀ y ∈ rest, y < next + 1 :=
      fun y hy => Nat.lt_succ_of_lt (hlt y (List.mem_cons_of_mem _ hy))
    have hr : r < next := by
      rcases h with h | h
      · exact hlt r h
      · exact h.1
    by_cases hrx : r = x
    · subst hrx
      refine ih (next + 1) _ r hrest (Or.inr ⟨by omega, ?_⟩) i hi
      intro j hj
      simp only [List.mem_filter] at hj
      simpa using hj.2
    · have hcase : r ∈ rest ∨ (r < next + 1 ∧
          ∀ j ∈ (insertBeforeIn x (BranchInst.Create next jumpOut) insts).filter
            (fun i => i.id ≠ x), j.id ≠ r) := by
        rcases h with h | h
        · rcases List.mem_cons.mp h with h | h
          · exact absurd h hrx
          · exact Or.inl h
        · refine Or.inr ⟨by omega, ?_⟩
          intro j hj
          simp only [List.mem_filter] at hj
          rcases Function.mem_insertBeforeIn_cases x _ j insts hj.1 with hmem | hmem
          · subst hmem
            simp only [BranchInst.Create]
            omega
          · exact h.2 j hmem
      exact ih (next + 1) _ r hrest hcase i hi

end CodeGenerator

namespace CodeGenerator

/-- A block that held a redirected return holds a branch to the continuation. -/
theorem redirectIn_branch (jumpOut lo : Nat) (rets : List Nat) :
    ∀ (next : Nat) (insts : List Instruction), lo ≤ next → (∀ x ∈ rets, x < lo) →
      ((∃ i ∈ insts, i.id ∈ rets) ∨
        (∃ br ∈ insts, br.opcode = .br ∧ br.operands = [.basicBlock jumpOut] ∧ lo ≤ br.id)) →
      ∃ br ∈ redirectIn jumpOut rets next insts,
        br.opcode = .br ∧ br.operands = [.basicBlock jumpOut] := by
  induction rets with
  | nil =>
    intro next insts _ _ h
    rcases h with ⟨i, -, hi⟩ | ⟨br, hbr, h1, h2, -⟩
    · cases hi
    · exact ⟨br, hbr, h1, h2⟩
  | cons x rest ih =>
    intro next insts hlo hlt h
    simp only [redirectIn]
    have hx : x < lo := hlt x (List.mem_cons_self _ _)
    have hrest : ∀ y ∈ rest, y < lo := fun y hy => hlt y (List.mem_cons_of_mem _ hy)
    apply ih (next + 1) _ (by omega) hrest
    rcases h with ⟨i, hi, hid⟩ | ⟨br, hbr, h1, h2, h3⟩
    · by_cases hix : i.id = x
      · refine Or.inr ⟨BranchInst.Create next jumpOut, ?_, rfl, rfl, hlo⟩
        simp only [List.mem_filter]
        refine ⟨?_, ?_⟩
        · rw [← hix]
          exact Function.mem_insertBeforeIn_new _ i insts hi
        · simp only [BranchInst.Create, ne_eq, decide_not, Bool.not_eq_true', decide_eq_false_iff_not]
          omega
      · refine Or.inl ⟨i, ?_, ?_⟩
        · simp only [List.mem_filter]
          exact ⟨Function.mem_insertBeforeIn_old _ _ i insts hi, by simpa using hix⟩
        · rcases List.mem_cons.mp hid with h | h
          · exact absurd h hix
          · exact h
    · refine Or.inr ⟨br, ?_, h1, h2, h3⟩
      simp only [List.mem_filter]
      refine ⟨Function.mem_insertBeforeIn_old _ _ br insts hbr, ?_⟩
      simp only [ne_eq, decide_not, Bool.not_eq_true', decide_eq_false_iff_not]
      omega

theorem findInst_eq_none_iff (fn : Function) (r : Nat) :
    fn.findInst r = none ↔ ∀ b ∈ fn.blocks, ∀ i ∈ b.insts, i.id ≠ r := by
  unfold Function.findInst
  rw [List.find?_eq_none]
  constructor
  · intro h b hb i hi
    have := h i (List.mem_flatMap.mpr ⟨b, hb, hi⟩)
    simpa using this
  · intro h i hi
    obtain ⟨b, hb, hib⟩ := List.mem_flatMap.mp hi
    simpa using h b hb i hib

/-- C14. Inlining returns a continuation exactly when the clone has a return. With
the returns the cloner reports for the body, all allocated by it: the result is
a block if and only if there is at least one; then it is one new empty block
appended after the blocks of the clone, every reported return is gone from the
function, and each block that held one holds an unconditional branch to the
new block; with no return the result is the null pointer and the function
and the allocator are those the cloner left. -/
theorem inline_continuation (ext : External) (ctx : LLVMContext)
    (target instructionBody : Function) (parameters : List Value)
    (hret : ∀ r ∈ (ext.clone ctx target instructionBody
        ((instructionBody.params.enum.map fun p =>
          Value.argument p.2 instructionBody.id p.1).zip parameters)).2.2,
      r < (ext.clone ctx target instructionBody
        ((instructionBody.params.enum.map fun p =>
          Value.argument p.2 instructionBody.id p.1).zip parameters)).1.nextId) :
    ∀ cloned, cloned = ext.clone ctx target instructionBody
        ((instructionBody.params.enum.map fun p =>
          Value.argument p.2 instructionBody.id p.1).zip parameters) →
      ((inlineInstruction ext ctx target instructionBody parameters).1.isSome = true ↔
        cloned.2.2 ≠ []) ∧
      (cloned.2.2 = [] →
        inlineInstruction ext ctx target instructionBody parameters
          = (none, cloned.1, cloned.2.1)) ∧
      (cloned.2.2 ≠ [] →
        (inlineInstruction ext ctx target instructionBody parameters).1
          = some cloned.1.nextId ∧
        (∃ blocks' : List BasicBlock,
          (inlineInstruction ext ctx target instructionBody parameters).2.2.blocks
            = blocks' ++ [{ id := cloned.1.nextId, name := "", insts := [] }] ∧
          blocks'.map (·.id) = cloned.2.1.blockIds) ∧
        (∀ r ∈ cloned.2.2,
          (inlineInstruction ext ctx target instructionBody parameters).2.2.findInst r
            = none) ∧
        ∀ b ∈ cloned.2.1.blocks, (∃ i ∈ b.insts, i.id ∈ cloned.2.2) →
          ∃ b' ∈ (inlineInstruction ext ctx target instructionBody parameters).2.2.blocks,
            b'.id = b.id ∧
            ∃ br ∈ b'.insts, br.opcode = .br ∧ br.operands = [.basicBlock cloned.1.nextId]) := by
  intro cloned hcl
  rw [← hcl] at hret
  have hinl : inlineInstruction ext ctx target instructionBody parameters =
      if cloned.2.2.length > 0 then
        (some cloned.1.nextId,
          (redirectReturns cloned.1.nextId cloned.2.2 { nextId := cloned.1.nextId + 1 }
            { cloned.2.1 with blocks := cloned.2.1.blocks ++
                [{ id := cloned.1.nextId, name := "", insts := [] }] }).1,
          (redirectReturns cloned.1.nextId cloned.2.2 { nextId := cloned.1.nextId + 1 }
            { cloned.2.1 with blocks := cloned.2.1.blocks ++
                [{ id := cloned.1.nextId, name := "", insts := [] }] }).2)
      else (none, cloned.1, cloned.2.1) := by
    rw [hcl]
    rfl
  rw [hinl]
  cases hrets : cloned.2.2 with
  | nil => simp
  | cons r0 rest =>
    rw [← hrets]
    have hpos : cloned.2.2.length > 0 := by simp [hrets]
    have hne : cloned.2.2 ≠ [] := by simp [hrets]
    rw [if_pos hpos, redirectReturns_eq]
    refine ⟨by simp [hne], fun h => absurd h hne, fun _ => ⟨rfl, ?_, ?_, ?_⟩⟩
    · refine ⟨cloned.2.1.blocks.map fun b =>
        ⟨b.id, b.name, redirectIn cloned.1.nextId cloned.2.2 (cloned.1.nextId + 1) b.insts⟩,
        ?_, ?_⟩
      · simp [redirectIn_nil]
      · simp [Function.blockIds, List.map_map, Function.comp]
    · intro r hr
      rw [findInst_eq_none_iff]
      intro b hb i hi
      simp only [List.mem_map] at hb
      obtain ⟨b0, -, rfl⟩ := hb
      exact redirectIn_no_return cloned.1.nextId cloned.2.2 (cloned.1.nextId + 1) b0.insts r
        (fun x hx => Nat.lt_succ_of_lt (hret x hx)) (Or.inl hr) i hi
    · intro b hb hhas
      refine ⟨⟨b.id, b.name,
        redirectIn cloned.1.nextId cloned.2.2 (cloned.1.nextId + 1) b.insts⟩, ?_, rfl, ?_⟩
      · simp only [List.mem_map]
        exact ⟨b, List.mem_append_left _ hb, rfl⟩
      · exact redirectIn_branch cloned.1.nextId cloned.1.nextId cloned.2.2
          (cloned.1.nextId + 1) b.insts (by omega) hret (Or.inl hhas)

end CodeGenerator

theorem CodeGenerator.inline_continuation_witness :
    (CodeGenerator.inlineInstruction workingExternal ⟨200⟩ sampleRegistry.insertInto
        (sampleBody "x86_function_prologue") []).1 = some 202 ∧
    (CodeGenerator.inlineInstruction workingExternal ⟨200⟩ sampleRegistry.insertInto
        (sampleBody "x86_function_prologue") []).2.2.findInst 201 = none :=
  ⟨((CodeGenerator.inline_continuation workingExternal ⟨200⟩ sampleRegistry.insertInto
      (sampleBody "x86_function_prologue") [] (by decide) _ rfl).2.2 (by decide)).1,
    ((CodeGenerator.inline_continuation workingExternal ⟨200⟩ sampleRegistry.insertInto
      (sampleBody "x86_function_prologue") [] (by decide) _ rfl).2.2 (by decide)).2.2.1
      201 (by decide)⟩

/-- C15, where the code departs from it. Resolving the jump intrinsic to the
constant 0x1008 in the sample block inserts 0x1008 in the output set and puts
a branch to the stub of 0x1008 (block 10) in place of the intrinsic, and it
removes the intrinsic and what followed it; but the block then ends with a
second branch, the one `splitBasicBlock` added, whose target (block 12) was
erased: the branch to the destination is neither the last instruction nor
the only terminator. -/
theorem jump_rewrite_leaves_two_branches :
    ∃ st', resolveIntrinsic 3 sampleJumpLifting = .done st' ∧
      st'.newLabels = [0x1008] ∧
      st'.blockMap.blockToInstruction st'.ctx 0x1008 = (10, st'.ctx, st'.blockMap) ∧
      st'.blockMap.insertInto.blocks =
        [{ id := 1, name := "",
           insts := [sampleMove, BranchInst.Create 11 10, BranchInst.Create 13 12] },
         { id := 10, name := "", insts := [] }] ∧
      12 ∉ st'.blockMap.insertInto.blockIds :=
  ⟨_, rfl, rfl, rfl, rfl, by decide⟩

/-- C16, where the code departs from it. Resolving the return intrinsic in the
sample block removes the intrinsic and what followed it, adds nothing to the
output set and leaves a real return as the last instruction; but the
instruction before the return is the branch `splitBasicBlock` added, whose target
(block 10) was erased, so the return is not the only terminator of the block. -/
theorem ret_rewrite_leaves_branch :
    ∃ st', resolveIntrinsic 3 sampleRetLifting = .done st' ∧
      st'.newLabels = sampleRetLifting.newLabels ∧
      st'.blockMap.insertInto.blocks =
        [{ id := 1, name := "",
           insts := [sampleMove, BranchInst.Create 11 10, ReturnInst.Create 12] }] ∧
      10 ∉ st'.blockMap.insertInto.blockIds :=
  ⟨_, rfl, rfl, rfl, by decide⟩

theorem resolveReadMem_load (st : Lifting) (inst : Instruction) (bits w : Nat)
    (hwidth : inst.operands.get? 1 = some (.constantInt bits w))
    (hw : w = 1 ∨ w = 2 ∨ w = 4 ∨ w = 8)
    (hhas : st.blockMap.insertInto.HasInst inst) (hc : inst.id < st.ctx.nextId) :
    ∃ st' l, resolveReadMem inst st = .done st' ∧ st'.blockMap.insertInto.HasInst l ∧
      l.opcode = .load ∧ l.ty = .int (w * 8) ∧ l.programMemory = true ∧
      l.operands = [.instruction (.pointer (.int (w * 8)) 0) st.ctx.nextId] ∧
      st'.blockMap.insertInto.findInst inst.id = none := by
  have h0 : ∃ a, inst.operands.get? 0 = some a := by
    cases hops : inst.operands with
    | nil => simp [hops] at hwidth
    | cons a rest => exact ⟨a, by simp⟩
  obtain ⟨a, ha⟩ := h0
  have hsize : (sizeOperand inst >>= getStoreType) = .ok (.int (w * 8)) := by
    rw [sizeOperand_of_constant inst bits w hwidth]
    exact getStoreType_limited_ok w hw
  have hne : (Value.instruction (.pointer (.int (w * 8)) 0) st.ctx.nextId) ≠
      Value.instruction inst.ty inst.id := by
    intro h
    simp only [Value.instruction.injEq] at h
    omega
  unfold resolveReadMem
  simp only [ha, hsize]
  by_cases h64 : (md.setProgramMemory
      { id := st.ctx.nextId + 1, opcode := .load, ty := Ty.int (w * 8),
        operands := [Instruction.asValue
          { id := st.ctx.nextId, opcode := .intToPtr, ty := (Ty.int (w * 8)).getPointerTo,
            operands := [a], programMemory := false }],
        programMemory := false }).ty ≠ Ty.int 64
  · rw [if_pos h64]
    refine ⟨_, _, rfl, Function.hasInst_eraseInst _ inst.id _
      (Function.hasInst_replaceAllUsesWith _ inst.asValue _ _
        (Function.hasInst_insertBefore_old _ inst.id _ _
          (Function.hasInst_insertBefore_new _ _ inst
            (Function.hasInst_insertBefore_old _ inst.id _ _ hhas)))) ?_, rfl, rfl, rfl, ?_,
      Function.findInst_eraseInst _ _⟩
    · simp only [Instruction.replaceUses, md.setProgramMemory]
      omega
    · simp only [Instruction.replaceUses, md.setProgramMemory, Instruction.asValue,
        Ty.getPointerTo, List.map_cons, List.map_nil]
      rw [if_neg hne]
  · rw [if_neg h64]
    refine ⟨_, _, rfl, Function.hasInst_eraseInst _ inst.id _
      (Function.hasInst_replaceAllUsesWith _ inst.asValue _ _
        (Function.hasInst_insertBefore_new _ _ inst
          (Function.hasInst_insertBefore_old _ inst.id _ _ hhas))) ?_, rfl, rfl, rfl, ?_,
      Function.findInst_eraseInst _ _⟩
    · simp only [Instruction.replaceUses, md.setProgramMemory]
      omega
    · simp only [Instruction.replaceUses, md.setProgramMemory, Instruction.asValue,
        Ty.getPointerTo, List.map_cons, List.map_nil]
      rw [if_neg hne]

/-- C17, where the code departs from it. For every memory read of a width `w` among
1, 2, 4, 8, the resolution removes the intrinsic and leaves a load of the
integer type of `w * 8` bits tagged as a program memory access; but the pointer
it loads through, cast with `getPointerTo()` and no argument, is in address space
0, the space of the register file, not in space 1, the space of memory. -/
theorem read_rewrite_address_space (st : Lifting) (c bits w : Nat) (inst : Instruction)
    (hfind : st.blockMap.insertInto.findInst c = some inst)
    (hname : inst.getCalledFunction = some "x86_read_mem")
    (hwidth : inst.operands.get? 1 = some (.constantInt bits w))
    (hw : w = 1 ∨ w = 2 ∨ w = 4 ∨ w = 8)
    (hc : c < st.ctx.nextId) :
    ∃ st' l, resolveIntrinsic c st = .done st' ∧
      st'.blockMap.insertInto.findInst c = none ∧
      st'.blockMap.insertInto.HasInst l ∧
      l.opcode = .load ∧ l.ty = .int (w * 8) ∧ l.programMemory = true ∧
      l.operands = [.instruction (.pointer (.int (w * 8)) 0) st.ctx.nextId] ∧
      l.operands ≠ [.instruction (.pointer (.int (w * 8)) 1) st.ctx.nextId] := by
  obtain ⟨hhas, hid⟩ := Function.hasInst_of_findInst _ _ _ hfind
  subst hid
  have hres : resolveIntrinsic inst.id st = resolveReadMem inst st := by
    simp only [resolveIntrinsic, hfind, hname]
    rfl
  obtain ⟨st', l, h1, h2, h3, h4, h5, h6, h7⟩ :=
    resolveReadMem_load st inst bits w hwidth hw hhas hc
  refine ⟨st', l, by rw [hres, h1], h7, h2, h3, h4, h5, h6, ?_⟩
  rw [h6]
  simp

theorem read_rewrite_address_space_witness :
    ∃ st' l, resolveIntrinsic 2 sampleLifting = .done st' ∧
      st'.blockMap.insertInto.findInst 2 = none ∧
      st'.blockMap.insertInto.HasInst l ∧
      l.opcode = .load ∧ l.ty = .int (8 * 8) ∧ l.programMemory = true ∧
      l.operands = [.instruction (.pointer (.int (8 * 8)) 0) sampleLifting.ctx.nextId] ∧
      l.operands ≠ [.instruction (.pointer (.int (8 * 8)) 1) sampleLifting.ctx.nextId] :=
  read_rewrite_address_space sampleLifting 2 64 8 sampleRead (by decide) (by decide)
    (by decide) (by decide) (by decide)

namespace AddressToBlock

theorem exclusive_new (fn : Function) : (AddressToBlock.new fn).Exclusive :=
  fun _ => Or.inl rfl

theorem exclusive_step {s t : LLVMContext × AddressToBlock} (hst : Step s t)
    (h : s.2.Exclusive) : t.2.Exclusive := by
  cases hst with
  | reference ctx self a =>
    intro x
    simp only [blockToInstruction]
    cases hb : self.blocks.find a with
    | some b => exact h x
    | none =>
      cases hsa : self.stubs.find a with
      | some st => exact h x
      | none =>
        by_cases hx : x = a
        · subst hx
          exact Or.inr hb
        · show (self.stubs.set a _).find x = none ∨ self.blocks.find x = none
          rw [AddrMap.find_set_of_ne _ _ _ _ hx]
          exact h x
  | implement ctx self a =>
    intro x
    simp only [implementInstruction]
    cases hb : self.blocks.find a with
    | some b => exact h x
    | none =>
      cases hsa : self.stubs.find a with
      | some st =>
        by_cases hx : x = a
        · subst hx
          exact Or.inl (AddrMap.find_erase_self _ _)
        · show (self.stubs.erase a).find x = none ∨ (self.blocks.set a _).find x = none
          rw [AddrMap.find_erase_of_ne _ _ _ hx, AddrMap.find_set_of_ne _ _ _ _ hx]
          exact h x
      | none =>
        by_cases hx : x = a
        · subst hx
          exact Or.inl hsa
        · show self.stubs.find x = none ∨ (self.blocks.set a _).find x = none
          rw [AddrMap.find_set_of_ne _ _ _ _ hx]
          exact h x
  | edit ctx ctx' self fn hle => exact h

theorem exclusive_steps {s t : LLVMContext × AddressToBlock}
    (hst : Relation.ReflTransGen Step s t) (h : s.2.Exclusive) : t.2.Exclusive := by
  induction hst with
  | refl => exact h
  | tail _ hstep ih => exact exclusive_step hstep ih

end AddressToBlock

theorem find?_of_nodup_ids (l : List BasicBlock) (b : BasicBlock) (hb : b ∈ l)
    (hnd : (l.map (·.id)).Nodup) : (l.find? fun x => x.id = b.id) = some b := by
  induction l with
  | nil => cases hb
  | cons x rest ih =>
    rw [List.map_cons, List.nodup_cons] at hnd
    rcases List.mem_cons.mp hb with rfl | hrest
    · simp
    · have hne : x.id ≠ b.id := by
        intro h
        exact hnd.1 (h ▸ List.mem_map.mpr ⟨b, hrest, rfl⟩)
      rw [List.find?_cons_of_neg _ (by simpa using hne)]
      exact ih hrest hnd.2

theorem mem_insertBlockAfter_old (after : Nat) (new b : BasicBlock) (l : List BasicBlock)
    (h : b ∈ l) : b ∈ insertBlockAfter after new l := by
  induction l with
  | nil => cases h
  | cons x rest ih =>
    unfold insertBlockAfter
    by_cases hx : x.id = after
    · rw [if_pos hx]
      rcases List.mem_cons.mp h with rfl | hrest
      · exact List.mem_cons_self _ _
      · exact List.mem_cons_of_mem _ (List.mem_cons_of_mem _ hrest)
    · rw [if_neg hx]
      rcases List.mem_cons.mp h with rfl | hrest
      · exact List.mem_cons_self _ _
      · exact List.mem_cons_of_mem _ (ih hrest)

theorem filter_insertBlockAfter (after : Nat) (new : BasicBlock) (l : List BasicBlock)
    (h : ∀ b ∈ l, b.id ≠ new.id) :
    (insertBlockAfter after new l).filter (fun b => b.id ≠ new.id) = l := by
  induction l with
  | nil => rfl
  | cons x rest ih =>
    have hx : x.id ≠ new.id := h x (List.mem_cons_self _ _)
    have hrest : ∀ b ∈ rest, b.id ≠ new.id := fun b hb => h b (List.mem_cons_of_mem _ hb)
    have hfilter : rest.filter (fun b => b.id ≠ new.id) = rest :=
      List.filter_eq_self.mpr fun b hb => by simpa using hrest b hb
    unfold insertBlockAfter
    by_cases ha : x.id = after
    · rw [if_pos ha, List.filter_cons_of_pos (by simpa using hx),
        List.filter_cons_of_neg (by simp), hfilter]
    · rw [if_neg ha, List.filter_cons_of_pos (by simpa using hx), ih hrest]

theorem mem_takeWhile_insertBeforeIn (before : Nat) (new : Instruction) (l : List Instruction)
    (hmem : new ∈ insertBeforeIn before new l) (hold : ∀ i ∈ l, i ≠ new)
    (hne : new.id ≠ before) :
    new ∈ (insertBeforeIn before new l).takeWhile fun i => i.id ≠ before := by
  induction l with
  | nil => simp [insertBeforeIn] at hmem
  | cons i rest ih =>
    unfold insertBeforeIn at hmem ⊢
    by_cases hi : i.id = before
    · rw [if_pos hi]
      rw [List.takeWhile_cons_of_pos (by simpa using hne)]
      exact List.mem_cons_self _ _
    · rw [if_neg hi] at hmem ⊢
      rw [List.takeWhile_cons_of_pos (by simpa using hi)]
      rcases List.mem_cons.mp hmem with h | h
      · exact absurd h.symm (hold i (List.mem_cons_self _ _))
      · exact List.mem_cons_of_mem _
          (ih h fun j hj => hold j (List.mem_cons_of_mem _ hj))

theorem map_id_of_preserving (g : BasicBlock → BasicBlock) (hg : ∀ b, (g b).id = b.id)
    (l : List BasicBlock) : (l.map g).map (·.id) = l.map (·.id) := by
  induction l with
  | nil => rfl
  | cons x rest ih => simp only [List.map_cons, hg, ih]

theorem filter_map_of_preserving (g : BasicBlock → BasicBlock) (hg : ∀ b, (g b).id = b.id)
    (n : Nat) (l : List BasicBlock) :
    (l.map g).filter (fun b => b.id ≠ n) = (l.filter fun b => b.id ≠ n).map g := by
  induction l with
  | nil => rfl
  | cons x rest ih =>
    by_cases hx : x.id = n
    · rw [List.map_cons, List.filter_cons_of_neg (by simpa [hg] using hx),
        List.filter_cons_of_neg (by simpa using hx), ih]
    · rw [List.map_cons, List.filter_cons_of_pos (by simpa [hg] using hx),
        List.filter_cons_of_pos (by simpa using hx), ih, List.map_cons]

/-- Splitting a block and erasing the new block right away leaves the blocks of
the function as they were, in the same order. -/
theorem Function.blockIds_split_erase (fn : Function) (ctx : LLVMContext) (p c : Nat)
    (hfresh : ∀ b ∈ fn.blocks, b.id ≠ ctx.nextId) :
    ((fn.splitBasicBlock ctx p c).2.2.eraseBlock (fn.splitBasicBlock ctx p c).1).blockIds =
      fn.blockIds := by
  unfold Function.splitBasicBlock Function.eraseBlock Function.blockIds
  simp only
  rw [filter_map_of_preserving _ (fun b => by split <;> rfl)]
  rw [map_id_of_preserving _ (fun b => by split <;> rfl)]
  rw [filter_insertBlockAfter p ⟨ctx.nextId, "", _⟩ _ (by
    intro b hb
    obtain ⟨b0, hb0, rfl⟩ := List.mem_map.mp hb
    have := hfresh b0 hb0
    split <;> exact this)]
  exact map_id_of_preserving _ (fun b => by split <;> rfl) _

theorem Function.blockIds_insertBefore (fn : Function) (before : Nat) (new : Instruction) :
    (fn.insertBefore before new).blockIds = fn.blockIds :=
  map_id_of_preserving (fun b => { b with insts := insertBeforeIn before new b.insts })
    (fun _ => rfl) fn.blocks

theorem phiUpdate_spec (succs : List Nat) (old new : Value) (B : BasicBlock)
    (i : Instruction) (hi : i ∈ B.insts) (hop : i.opcode ≠ .phi) :
    i ∈ (if B.id ∈ succs then
          { B with insts := B.insts.map fun i =>
              if i.opcode = .phi then i.replaceUses old new else i }
        else B).insts ∧
    (if B.id ∈ succs then
          { B with insts := B.insts.map fun i =>
              if i.opcode = .phi then i.replaceUses old new else i }
        else B).id = B.id := by
  by_cases h : B.id ∈ succs
  · rw [if_pos h]
    exact ⟨List.mem_map.mpr ⟨i, hi, if_neg hop⟩, rfl⟩
  · rw [if_neg h]
    exact ⟨hi, rfl⟩

/-- An instruction that stands before the split point, and is no phi node, is
still in the function after the split and the erasure of the new block. -/
theorem Function.hasInst_split_erase (fn : Function) (ctx : LLVMContext) (P : BasicBlock)
    (c : Nat) (i : Instruction) (hP : P ∈ fn.blocks) (hnd : fn.blockIds.Nodup)
    (hne : P.id ≠ ctx.nextId) (hi : i ∈ P.insts.takeWhile fun j => j.id ≠ c)
    (hop : i.opcode ≠ .phi) :
    ((fn.splitBasicBlock ctx P.id c).2.2.eraseBlock (fn.splitBasicBlock ctx P.id c).1).HasInst
      i := by
  have hfind := find?_of_nodup_ids fn.blocks P hP hnd
  unfold Function.splitBasicBlock Function.eraseBlock Function.HasInst
  simp only [hfind, Option.map_some', Option.getD_some]
  refine ⟨_, List.mem_filter.mpr ⟨List.mem_map.mpr ⟨_, mem_insertBlockAfter_old _ _ _ _
    (List.mem_map.mpr ⟨P, hP, if_pos rfl⟩), rfl⟩, ?_⟩,
    (phiUpdate_spec _ _ _ _ i (List.mem_append_left _ hi) hop).1⟩
  have hid := (phiUpdate_spec
    ((Option.map Instruction.successors
      (List.dropWhile (fun i => decide (i.id ≠ c)) P.insts).getLast?).getD [])
    (Value.basicBlock P.id) (Value.basicBlock ctx.nextId)
    ⟨P.id, P.name, P.insts.takeWhile (fun j => j.id ≠ c) ++
      [BranchInst.Create (ctx.nextId + 1) ctx.nextId]⟩ i (List.mem_append_left _ hi) hop).2
  simp only [ne_eq, decide_eq_true_eq, decide_not] at hid ⊢
  rw [hid]
  simpa using hne

theorem resolveJump_implemented (st : Lifting) (inst : Instruction) (bits dest b : Nat)
    (hdest : inst.operands.get? 2 = some (.constantInt bits dest))
    (himpl : st.blockMap.blocks.find (getLimitedValue dest) = some b)
    (hhas : st.blockMap.insertInto.HasInst inst)
    (hnd : st.blockMap.insertInto.blockIds.Nodup)
    (hfresh : ∀ blk ∈ st.blockMap.insertInto.blocks,
      blk.id < st.ctx.nextId ∧ ∀ i ∈ blk.insts, i.id < st.ctx.nextId) :
    ∃ st', resolveJump inst st = .done st' ∧ st'.blockMap.blocks = st.blockMap.blocks ∧
      st'.blockMap.stubs = st.blockMap.stubs ∧
      st'.blockMap.insertInto.blockIds = st.blockMap.insertInto.blockIds ∧
      st'.blockMap.insertInto.HasInst (BranchInst.Create st.ctx.nextId b) := by
  have href : st.blockMap.blockToInstruction st.ctx (getLimitedValue dest) =
      (b, st.ctx, st.blockMap) := by
    simp [AddressToBlock.blockToInstruction, himpl]
  have hparent : ∃ parent, (st.blockMap.insertInto.insertBefore inst.id
      (BranchInst.Create st.ctx.nextId b)).parentOf (BranchInst.Create st.ctx.nextId b).id =
        some parent := by
    obtain ⟨blk, hblk, hi⟩ := Function.hasInst_insertBefore_new _
      (BranchInst.Create st.ctx.nextId b) inst hhas
    cases hp : (st.blockMap.insertInto.insertBefore inst.id
      (BranchInst.Create st.ctx.nextId b)).parentOf (BranchInst.Create st.ctx.nextId b).id with
    | some parent => exact ⟨parent, rfl⟩
    | none =>
      unfold Function.parentOf at hp
      rw [List.find?_eq_none] at hp
      have := hp blk hblk
      simp only [List.any_eq_true, not_exists, not_and] at this
      exact absurd (by simp) (this _ hi)
  obtain ⟨parent, hparent⟩ := hparent
  have hcid : inst.id < st.ctx.nextId := by
    obtain ⟨blk, hblk, hi⟩ := hhas
    exact (hfresh blk hblk).2 inst hi
  unfold resolveJump
  simp only [hdest, href, hparent]
  refine ⟨_, rfl, rfl, rfl, ?_, ?_⟩
  · show (Function.eraseBlock _ _).blockIds = _
    rw [Function.blockIds_split_erase, Function.blockIds_insertBefore]
    intro blk hblk
    obtain ⟨P0, hP0, rfl⟩ := List.mem_map.mp hblk
    have := (hfresh P0 hP0).1
    show P0.id ≠ st.ctx.nextId + 1
    omega
  · have hmem := List.mem_of_find?_eq_some hparent
    have hany := List.find?_some hparent
    obtain ⟨P0, hP0, rfl⟩ := List.mem_map.mp hmem
    simp only [List.any_eq_true, decide_eq_true_eq] at hany
    obtain ⟨j, hj, hjid⟩ := hany
    have hold : ∀ i ∈ P0.insts, i ≠ BranchInst.Create st.ctx.nextId b := by
      intro i hi heq
      have := (hfresh P0 hP0).2 i hi
      rw [heq] at this
      exact Nat.lt_irrefl _ this
    have hbmem : BranchInst.Create st.ctx.nextId b ∈
        insertBeforeIn inst.id (BranchInst.Create st.ctx.nextId b) P0.insts := by
      rcases Function.mem_insertBeforeIn_cases _ _ _ _ hj with h | h
      · exact h ▸ hj
      · have := (hfresh P0 hP0).2 j h
        rw [hjid] at this
        exact absurd this (Nat.lt_irrefl _)
    have htake := mem_takeWhile_insertBeforeIn inst.id (BranchInst.Create st.ctx.nextId b)
      P0.insts hbmem hold (by
        show st.ctx.nextId ≠ inst.id
        omega)
    exact Function.hasInst_split_erase _ ⟨st.ctx.nextId + 1⟩ _ inst.id _ hmem
      (by rw [Function.blockIds_insertBefore]; exact hnd)
      (by
        have := (hfresh P0 hP0).1
        show P0.id ≠ st.ctx.nextId + 1
        omega)
      htake (by simp [BranchInst.Create])

/-- C19. Start from the empty registry of a function and apply any number of
`blockToInstruction` (`referenceFor`), `implementInstruction` (`implement`) and
edits of the function. In every state reached, no address is registered both as
a stub and as an implemented block. And in every such state whose blocks and
instructions carry distinct identities handed out by the allocator, resolving a
jump intrinsic whose constant destination `dest` is already implemented by the
block `b` returns normally, leaves both maps of the registry as they were (so no
stub and no second block for `dest`), leaves the function with the same blocks
in the same order, and places a branch to `b` in the function. -/
theorem one_block_per_address (ctx0 : LLVMContext) (fn0 : Function) :
    (∀ ctx self, Relation.ReflTransGen AddressToBlock.Step (ctx0, AddressToBlock.new fn0)
        (ctx, self) →
      ∀ a, self.stubs.find a = none ∨ self.blocks.find a = none) ∧
    ∀ (st : Lifting) (c bits dest b : Nat) (inst : Instruction),
      Relation.ReflTransGen AddressToBlock.Step (ctx0, AddressToBlock.new fn0)
        (st.ctx, st.blockMap) →
      st.blockMap.insertInto.findInst c = some inst →
      inst.getCalledFunction = some "x86_jump_intrin" →
      inst.operands.get? 2 = some (.constantInt bits dest) →
      dest < 2 ^ 64 →
      st.blockMap.blocks.find dest = some b →
      st.blockMap.insertInto.blockIds.Nodup →
      (∀ blk ∈ st.blockMap.insertInto.blocks,
        blk.id < st.ctx.nextId ∧ ∀ i ∈ blk.insts, i.id < st.ctx.nextId) →
      ∃ st', resolveIntrinsic c st = .done st' ∧
        st'.blockMap.blocks = st.blockMap.blocks ∧
        st'.blockMap.stubs = st.blockMap.stubs ∧
        st'.blockMap.blocks.find dest = some b ∧
        st'.blockMap.stubs.find dest = none ∧
        st'.blockMap.insertInto.blockIds = st.blockMap.insertInto.blockIds ∧
        st'.blockMap.insertInto.HasInst (BranchInst.Create st.ctx.nextId b) := by
  have hex : ∀ ctx self, Relation.ReflTransGen AddressToBlock.Step
      (ctx0, AddressToBlock.new fn0) (ctx, self) → self.Exclusive :=
    fun ctx self h => AddressToBlock.exclusive_steps h (AddressToBlock.exclusive_new fn0)
  refine ⟨hex, ?_⟩
  intro st c bits dest b inst hreach hfind hname hdest hlim himpl hnd hfresh
  obtain ⟨hhas, hid⟩ := Function.hasInst_of_findInst _ _ _ hfind
  subst hid
  have hres : resolveIntrinsic inst.id st = resolveJump inst st := by
    simp only [resolveIntrinsic, hfind, hname]
    rfl
  have hlimited : getLimitedValue dest = dest := by
    unfold getLimitedValue
    rw [if_neg (by omega)]
  obtain ⟨st', h1, h2, h3, h4, h5⟩ := resolveJump_implemented st inst bits dest b hdest
    (by rw [hlimited]; exact himpl) hhas hnd hfresh
  refine ⟨st', by rw [hres, h1], h2, h3, by rw [h2]; exact himpl, ?_, h4, h5⟩
  rw [h3]
  rcases hex st.ctx st.blockMap hreach dest with h | h
  · exact h
  · rw [himpl] at h
    cases h

theorem one_block_per_address_witness :
    (∀ a, sampleBackwardLifting.blockMap.stubs.find a = none ∨
      sampleBackwardLifting.blockMap.blocks.find a = none) ∧
    ∃ st', resolveIntrinsic 3 sampleBackwardLifting = .done st' ∧
      st'.blockMap.blocks = sampleBackwardLifting.blockMap.blocks ∧
      st'.blockMap.stubs = sampleBackwardLifting.blockMap.stubs ∧
      st'.blockMap.blocks.find 0x1000 = some 1 ∧
      st'.blockMap.stubs.find 0x1000 = none ∧
      st'.blockMap.insertInto.blockIds = sampleBackwardLifting.blockMap.insertInto.blockIds ∧
      st'.blockMap.insertInto.HasInst (BranchInst.Create sampleBackwardLifting.ctx.nextId 1) :=
  have hreach : Relation.ReflTransGen AddressToBlock.Step
      (⟨1⟩, AddressToBlock.new { sampleLifting.blockMap.insertInto with blocks := [] })
      (sampleBackwardLifting.ctx, sampleBackwardLifting.blockMap) :=
    Relation.ReflTransGen.tail
      (Relation.ReflTransGen.single (AddressToBlock.Step.implement ⟨1⟩
        (AddressToBlock.new { sampleLifting.blockMap.insertInto with blocks := [] }) 0x1000))
      (AddressToBlock.Step.edit ⟨2⟩ ⟨10⟩ _ sampleBackwardLifting.blockMap.insertInto
        (by decide))
  ⟨(one_block_per_address ⟨1⟩ { sampleLifting.blockMap.insertInto with blocks := [] }).1
      _ _ hreach,
    (one_block_per_address ⟨1⟩ { sampleLifting.blockMap.insertInto with blocks := [] }).2
      sampleBackwardLifting 3 64 0x1000 1 sampleBackwardJump hreach (by decide) (by decide) (by decide)
      (by decide) (by decide) (by decide) (by decide)⟩

theorem cloneContract_cloneFunctionInto : CloneContract cloneFunctionInto := by
  intro ctx target body args
  refine ⟨by simp only [cloneFunctionInto]; omega, ?_⟩
  intro b hb
  simp only [cloneFunctionInto, List.mem_append, List.mem_map] at hb
  rcases hb with hb | ⟨p, hp, rfl⟩
  · exact Or.inl (List.mem_map.mpr ⟨b, hb, rfl⟩)
  · right
    obtain ⟨n, blk⟩ := p
    have := List.mem_enumFrom hp
    simp only [cloneFunctionInto]
    omega

theorem AddressToFunction.body_after_createFunction (ctx0 ctx : LLVMContext)
    (self0 self : AddressToFunction) (a F : Nat) (body : Function) (hv : self0.Valid ctx0)
    (h : self0.createFunction ctx0 a = (some F, ctx, self))
    (hbody : self.module.findFunction F = some body) :
    ∀ b ∈ body.blocks, b.id < ctx.nextId := by
  cases ha : self0.functions.find a with
  | none =>
    rw [createFunction_absent ctx0 self0 a ha] at h
    simp only [Prod.mk.injEq, Option.some.injEq] at h
    obtain ⟨hF, -, hself⟩ := h
    subst hF hself
    simp only [Module.findFunction] at hbody
    rw [List.find?_append] at hbody
    have hnone : List.find? (fun fn => decide (fn.id = ctx0.nextId)) self0.module.functions
        = none := by
      rw [List.find?_eq_none]
      intro fn hfn
      have := hv.2.2 fn hfn
      simp
      omega
    rw [hnone] at hbody
    simp at hbody
    subst hbody
    intro b hb
    cases hb
  | some R =>
    cases hp : (self0.module.findFunction R).any md.isPrototype with
    | false =>
      rw [createFunction_defined ctx0 self0 a R ha hp] at h
      simp at h
    | true =>
      rw [createFunction_prototype ctx0 self0 a R ha hp] at h
      simp only [Prod.mk.injEq, Option.some.injEq] at h
      obtain ⟨hF, hctx, hself⟩ := h
      subst hF hself hctx
      cases hfn : self0.module.findFunction R with
      | none => simp [hfn] at hp
      | some fn0 =>
        have hid : fn0.id = R := by
          have := List.find?_some hfn
          simpa using this
        simp only at hbody
        rw [Module.findFunction_modify _ _ _ _ (redefine_id ctx0 a), hfn] at hbody
        simp only [Option.map_some', hid, if_true, Option.some.injEq] at hbody
        subst hbody
        intro b hb
        simp [md.setVirtualAddress, BasicBlock.Create, Function.deleteBody] at hb
        subst hb
        simp

/-- Inlining under a cloner that keeps its contract: the allocator only moves
forward, every block of the result is an old block of the target or was
allocated during the call, and so is the continuation block. -/
theorem CodeGenerator.inline_fresh (ext : External) (hc : CloneContract ext.clone)
    (ctx : LLVMContext) (target body : Function) (params : List Value) :
    ctx.nextId ≤ (inlineInstruction ext ctx target body params).2.1.nextId ∧
    (∀ b ∈ (inlineInstruction ext ctx target body params).2.2.blocks,
      b.id ∈ target.blockIds ∨
        (ctx.nextId ≤ b.id ∧
          b.id < (inlineInstruction ext ctx target body params).2.1.nextId)) ∧
    ∀ j, (inlineInstruction ext ctx target body params).1 = some j →
      ctx.nextId ≤ j ∧ j < (inlineInstruction ext ctx target body params).2.1.nextId := by
  have hcon := hc ctx target body
    ((body.params.enum.map fun p => Value.argument p.2 body.id p.1).zip params)
  unfold inlineInstruction
  simp only
  generalize ext.clone ctx target body
    ((body.params.enum.map fun p => Value.argument p.2 body.id p.1).zip params) = cl at hcon ⊢
  obtain ⟨h1, h2⟩ := hcon
  by_cases hr : cl.2.2.length > 0
  · rw [if_pos hr]
    simp only [redirectReturns_eq, BasicBlock.Create]
    refine ⟨by omega, ?_, ?_⟩
    · intro b hb
      obtain ⟨b0, hb0, rfl⟩ := List.mem_map.mp hb
      simp only [List.mem_append, List.mem_singleton] at hb0
      rcases hb0 with hb0 | rfl
      · rcases h2 b0 hb0 with h | h
        · exact Or.inl h
        · right
          show ctx.nextId ≤ b0.id ∧ b0.id < cl.1.nextId + 1 + cl.2.2.length
          omega
      · right
        show ctx.nextId ≤ cl.1.nextId ∧ cl.1.nextId < cl.1.nextId + 1 + cl.2.2.length
        omega
    · intro j hj
      simp only [Option.some.injEq] at hj
      subst hj
      omega
  · rw [if_neg hr]
    refine ⟨h1, h2, ?_⟩
    intro j hj
    cases hj

theorem CodeGenerator.inline_inv (ext : External) (hc : CloneContract ext.clone)
    (ctx : LLVMContext) (target body : Function) (params : List Value) (S : Nat)
    (hS : S < ctx.nextId) (hall : ∀ b ∈ target.blocks, b.id < ctx.nextId)
    (hno : ∀ b ∈ target.blocks, b.id ≠ S) :
    S < (inlineInstruction ext ctx target body params).2.1.nextId ∧
    (∀ b ∈ (inlineInstruction ext ctx target body params).2.2.blocks,
      b.id < (inlineInstruction ext ctx target body params).2.1.nextId) ∧
    ∀ b ∈ (inlineInstruction ext ctx target body params).2.2.blocks, b.id ≠ S := by
  obtain ⟨h1, h2, -⟩ := inline_fresh ext hc ctx target body params
  refine ⟨by omega, ?_, ?_⟩
  · intro b hb
    rcases h2 b hb with h | h
    · obtain ⟨b0, hb0, hid⟩ := List.mem_map.mp h
      have := hall b0 hb0
      omega
    · exact h.2
  · intro b hb
    rcases h2 b hb with h | h
    · obtain ⟨b0, hb0, hid⟩ := List.mem_map.mp h
      have := hno b0 hb0
      omega
    · omega

/-- Implementing an address keeps the blocks allocated. -/
theorem AddressToBlock.implement_alloc (ctx : LLVMContext) (self : AddressToBlock) (a : Nat)
    (hall : ∀ b ∈ self.insertInto.blocks, b.id < ctx.nextId) :
    ctx.nextId ≤ (self.implementInstruction ctx a).2.1.nextId ∧
    ∀ b ∈ (self.implementInstruction ctx a).2.2.insertInto.blocks,
      b.id < (self.implementInstruction ctx a).2.1.nextId := by
  unfold implementInstruction
  cases hb : self.blocks.find a with
  | some blk => exact ⟨Nat.le_refl _, hall⟩
  | none =>
    cases hs : self.stubs.find a with
    | some stub =>
      simp only [BasicBlock.Create, Function.replaceAllUsesWith, Function.eraseBlock]
      refine ⟨by omega, ?_⟩
      intro b hbm
      obtain ⟨b0, hb0, rfl⟩ := List.mem_map.mp (List.mem_of_mem_filter hbm)
      simp only [List.mem_append, List.mem_singleton] at hb0
      rcases hb0 with hb0 | rfl
      · have := hall b0 hb0
        show b0.id < ctx.nextId + 1
        omega
      · show ctx.nextId < ctx.nextId + 1
        omega
    | none =>
      simp only [BasicBlock.Create]
      refine ⟨by omega, ?_⟩
      intro b hbm
      simp only [List.mem_append, List.mem_singleton] at hbm
      rcases hbm with hb0 | rfl
      · have := hall b hb0
        omega
      · show ctx.nextId < ctx.nextId + 1
        omega

/-- Implementing an address keeps the blocks allocated, and never brings back
a block identity that is gone. -/
theorem AddressToBlock.implement_inv (ctx : LLVMContext) (self : AddressToBlock) (a S : Nat)
    (hS : S < ctx.nextId) (hall : ∀ b ∈ self.insertInto.blocks, b.id < ctx.nextId)
    (hno : ∀ b ∈ self.insertInto.blocks, b.id ≠ S) :
    S < (self.implementInstruction ctx a).2.1.nextId ∧
    (∀ b ∈ (self.implementInstruction ctx a).2.2.insertInto.blocks,
      b.id < (self.implementInstruction ctx a).2.1.nextId) ∧
    ∀ b ∈ (self.implementInstruction ctx a).2.2.insertInto.blocks, b.id ≠ S := by
  unfold implementInstruction
  cases hb : self.blocks.find a with
  | some blk => exact ⟨hS, hall, hno⟩
  | none =>
    cases hs : self.stubs.find a with
    | some stub =>
      simp only [BasicBlock.Create, Function.replaceAllUsesWith, Function.eraseBlock]
      refine ⟨by omega, ?_, ?_⟩
      · intro b hbm
        obtain ⟨b0, hb0, rfl⟩ := List.mem_map.mp (List.mem_of_mem_filter hbm)
        simp only [List.mem_append, List.mem_singleton] at hb0
        rcases hb0 with hb0 | rfl
        · have := hall b0 hb0
          show b0.id < ctx.nextId + 1
          omega
        · show ctx.nextId < ctx.nextId + 1
          omega
      · intro b hbm
        obtain ⟨b0, hb0, rfl⟩ := List.mem_map.mp (List.mem_of_mem_filter hbm)
        simp only [List.mem_append, List.mem_singleton] at hb0
        rcases hb0 with hb0 | rfl
        · exact hno b0 hb0
        · show ctx.nextId ≠ S
          omega
    | none =>
      simp only [BasicBlock.Create]
      refine ⟨by omega, ?_, ?_⟩
      · intro b hbm
        simp only [List.mem_append, List.mem_singleton] at hbm
        rcases hbm with hb0 | rfl
        · have := hall b hb0
          omega
        · show ctx.nextId < ctx.nextId + 1
          omega
      · intro b hbm
        simp only [List.mem_append, List.mem_singleton] at hbm
        rcases hbm with hb0 | rfl
        · exact hno b hb0
        · show ctx.nextId ≠ S
          omega

/-- A chain that returns leaves the worklist alone, keeps the blocks allocated,
and never brings back a block identity that is gone, or that its first
instruction removes. -/
theorem TranslationContext.decodeChain_inv (ext : External) (hc : CloneContract ext.clone)
    (self : TranslationContext) (registers flags : Value) (S : Nat) :
    ∀ (fuel : Nat) (code : List Nat) (address : Nat) (st st' : Lifting),
      decodeChain ext self registers flags fuel code address st = .done st' →
      S < st.ctx.nextId → st.BlocksAllocated →
      (st.NoBlock S ∨
        (ext.disasm self.cs code address ≠ none ∧
          ∀ b ∈ (st.blockMap.implementInstruction st.ctx address).2.2.insertInto.blocks,
            b.id ≠ S)) →
      S < st'.ctx.nextId ∧ st'.BlocksAllocated ∧ st'.NoBlock S ∧
        st'.newLabels = st.newLabels := by
  intro fuel
  induction fuel with
  | zero =>
    intro code address st st' h _ _ _
    simp [decodeChain] at h
  | succ fuel ih =>
    intro code address st st' h hS hall hno
    unfold decodeChain at h
    cases hd : ext.disasm self.cs code address with
    | none =>
      simp only [hd, Outcome.done.injEq] at h
      subst h
      rcases hno with hno | hno
      · exact ⟨hS, hall, hno, rfl⟩
      · exact absurd hd hno.1
    | some insn =>
      simp only [hd] at h
      have i3 : ∀ b ∈ (st.blockMap.implementInstruction st.ctx address).2.2.insertInto.blocks,
          b.id ≠ S := by
        rcases hno with hno | hno
        · exact (AddressToBlock.implement_inv st.ctx st.blockMap address S hS hall hno).2.2
        · exact hno.2
      obtain ⟨i1, i2⟩ := AddressToBlock.implement_alloc st.ctx st.blockMap address hall
      cases hi : (st.blockMap.implementInstruction st.ctx address).1 with
      | none =>
        simp only [hi, Outcome.done.injEq] at h
        subst h
        exact ⟨Nat.lt_of_lt_of_le hS i1, i2, i3, rfl⟩
      | some blk =>
        simp only [hi] at h
        cases himp : self.irgen.implementationFor insn.id with
        | error e => simp [himp] at h
        | ok found =>
          cases found with
          | none => simp [himp] at h
          | some implementation =>
            simp only [himp] at h
            obtain ⟨j1, j2, j3⟩ := CodeGenerator.inline_inv ext hc
              { nextId := (st.blockMap.implementInstruction st.ctx address).2.1.nextId + 1 }
              (st.blockMap.implementInstruction st.ctx address).2.2.insertInto implementation
              [self.configVariable,
                .globalVariable (CodeGenerator.constantForDetail insn.detail).2.getPointerTo
                  (st.blockMap.implementInstruction st.ctx address).2.1.nextId,
                registers, flags] S
              (by show S < _ + 1; omega)
              (fun b hb => by
                have := i2 b hb
                show b.id < _ + 1
                omega)
              i3
            split at h
            · simp only [Outcome.done.injEq] at h
              subst h
              exact ⟨j1, j2, j3, rfl⟩
            · obtain ⟨k1, k2, k3, k4⟩ := ih _ _ _ _ h j1 j2 (Or.inl j3)
              exact ⟨k1, k2, k3, k4⟩

theorem Outcome.andThen_congr {σ : Type} (o : Outcome σ) (k k' : σ → Outcome σ)
    (h : ∀ s, o = .done s → k s = k' s) : o.andThen k = o.andThen k' := by
  cases o with
  | done s => exact h s rfl
  | failed e s => rfl

theorem takeOne_singleton (pick : List Nat → Nat) (a : Nat) : takeOne pick [a] = (a, []) := by
  simp [takeOne, Nat.mod_one]

theorem Lifting.LoopEntry.back_eq {S base : Nat} {st : Lifting} (h : st.LoopEntry S base) :
    TranslationContext.back st.blockMap.insertInto = some S := by
  obtain ⟨-, -, -, -, pre, hpre, -⟩ := h
  simp [TranslationContext.back, hpre]

theorem Lifting.LoopEntry.implement_removes {S base : Nat} {st : Lifting}
    (h : st.LoopEntry S base) :
    ∀ b ∈ (st.blockMap.implementInstruction st.ctx base).2.2.insertInto.blocks, b.id ≠ S := by
  obtain ⟨-, h2, h3, -, -⟩ := h
  have hb : st.blockMap.blocks.find base = none := by rw [h2]; rfl
  have hs : st.blockMap.stubs.find base = some S := by rw [h3]; simp [AddrMap.find]
  unfold AddressToBlock.implementInstruction
  simp only [hb, hs, Function.eraseBlock]
  intro b hbm
  simpa using (List.mem_filter.mp hbm).2

theorem Lifting.LoopEntry.allocated {S base : Nat} {st : Lifting} (h : st.LoopEntry S base) :
    st.BlocksAllocated := by
  obtain ⟨-, -, -, hS, pre, hpre, hlt⟩ := h
  intro b hb
  rw [hpre] at hb
  simp only [List.mem_append, List.mem_singleton] at hb
  rcases hb with hb | rfl
  · have := hlt b hb
    omega
  · exact hS

/-- Walking from a block that is no longer in the function is a use of a deleted
object. -/
theorem resolveIntrinsics_erased (S last : Nat) (st : Lifting) (hno : st.NoBlock S)
    (hlast : last ≠ S) : resolveIntrinsics S last st = .failed .useAfterFree st := by
  have hfind : (st.blockMap.insertInto.blocks.find? fun x => x.id = S) = none := by
    rw [List.find?_eq_none]
    intro b hb
    simpa using hno b hb
  unfold resolveIntrinsics resolveIntrinsicsLoop
  rw [if_neg (Ne.symm hlast)]
  unfold resolveIntrinsicsBlock
  simp only [hfind]
  rfl

/-- The first round of the worklist loop when an instruction decodes at the
base address: implementing it deletes the stub `start` points at, so the walk
from `start` that follows the chain is a use of a deleted block. -/
theorem TranslationContext.visitLoop_entry_some (ext : External)
    (hc : CloneContract ext.clone) (self : TranslationContext)
    (registers flags : Value) (base : Nat) (bytes : List Nat) (S : Nat) (st : Lifting)
    (hentry : st.LoopEntry S base) (insn : cs_insn)
    (hd : ext.disasm self.cs (codeAt bytes base base) base = some insn) (fuel : Nat) :
    visitLoop ext self registers flags base bytes (fuel + 1) st =
      (decodeChain ext self registers flags ((codeAt bytes base base).length + 2)
        (codeAt bytes base base) base { st with newLabels := [] }).andThen fun st1 =>
          match back st1.blockMap.insertInto with
          | none => .failed .nullDereference st1
          | some _ => .failed .useAfterFree st1 := by
  have hnl := hentry.1
  have hback : back ({ st with newLabels := [] } : Lifting).blockMap.insertInto = some S :=
    hentry.back_eq
  rw [visitLoop]
  simp only [hnl, takeOne_singleton, List.isEmpty_cons, Bool.false_eq_true, if_false, hback]
  apply Outcome.andThen_congr
  intro st1 hch
  obtain ⟨-, -, hno, -⟩ := decodeChain_inv ext hc self registers flags S _ _ _ _ _ hch
    hentry.2.2.2.1 hentry.allocated
    (Or.inr ⟨by rw [hd]; simp, hentry.implement_removes⟩)
  cases hb : back st1.blockMap.insertInto with
  | none => rfl
  | some last =>
    have hlast : last ≠ S := by
      unfold back at hb
      cases hl : st1.blockMap.insertInto.blocks.getLast? with
      | none => simp [hl] at hb
      | some blk =>
        simp only [hl, Option.map_some', Option.some.injEq] at hb
        subst hb
        exact hno blk (List.mem_of_getLast?_eq_some hl)
    simp only [resolveIntrinsics_erased S last st1 hno hlast]
    rfl

theorem Lifting.loopEntry_intro (ctxI : LLVMContext) (reg : AddressToBlock)
    (base prologueExit : Nat) (funcMap : AddressToFunction) (branch : Instruction)
    (hb : reg.blocks = []) (hs : reg.stubs = [])
    (hT : ∀ b ∈ reg.insertInto.blocks, b.id < ctxI.nextId)
    (hexit : prologueExit < ctxI.nextId) :
    Lifting.LoopEntry (reg.blockToInstruction ctxI base).1 base
      { ctx := { nextId := (reg.blockToInstruction ctxI base).2.1.nextId + 1 },
        funcMap := funcMap,
        blockMap :=
          { (reg.blockToInstruction ctxI base).2.2 with
            insertInto :=
              (reg.blockToInstruction ctxI base).2.2.insertInto.insertAtEnd prologueExit branch },
        newLabels := [base] } := by
  have hfb : reg.blocks.find base = none := by rw [hb]; rfl
  have hfs : reg.stubs.find base = none := by rw [hs]; rfl
  unfold AddressToBlock.blockToInstruction
  simp only [hfb, hfs, BasicBlock.Create]
  refine ⟨rfl, hb, by simp only [hs]; rfl, ?_, reg.insertInto.blocks.map (fun b =>
    if b.id = prologueExit then { b with insts := b.insts ++ [branch] } else b), ?_, ?_⟩
  · show ctxI.nextId < ctxI.nextId + 1 + 1
    omega
  · simp only [Function.insertAtEnd, List.map_append, List.map_cons, List.map_nil]
    rw [if_neg (by show ctxI.nextId ≠ prologueExit; omega)]
  · intro b hbm
    obtain ⟨b0, hb0, rfl⟩ := List.mem_map.mp hbm
    have := hT b0 hb0
    split <;> exact this

theorem entry_blocks_alloc (ctx1 : LLVMContext) (body : Function) (inst : Instruction)
    (hbody : ∀ b ∈ body.blocks, b.id < ctx1.nextId) :
    ∀ b ∈ ((BasicBlock.Create ctx1 "entry" body).2.2.insertAtEnd
        (BasicBlock.Create ctx1 "entry" body).1 inst).blocks,
      b.id < (BasicBlock.Create ctx1 "entry" body).2.1.nextId := by
  intro b hb
  simp only [BasicBlock.Create, Function.insertAtEnd] at hb ⊢
  obtain ⟨b0, hb0, rfl⟩ := List.mem_map.mp hb
  have hlt : b0.id < ctx1.nextId + 1 := by
    simp only [List.mem_append, List.mem_singleton] at hb0
    rcases hb0 with hb0 | rfl
    · have := hbody b0 hb0
      omega
    · show ctx1.nextId < ctx1.nextId + 1
      omega
  split <;> exact hlt

/-- The state in which `createFunction` enters its worklist loop is a loop-entry
state, whenever the registry is valid and the cloner keeps its contract. -/
theorem loopEntry_of_prologue (ext : External) (hc : CloneContract ext.clone)
    (ctx1 : LLVMContext) (body prologue : Function) (inst branch : Instruction)
    (params : List Value) (base prologueExit : Nat) (funcMap : AddressToFunction)
    (hbody : ∀ b ∈ body.blocks, b.id < ctx1.nextId)
    (hexit : (CodeGenerator.inlineInstruction ext
      { nextId := (BasicBlock.Create ctx1 "entry" body).2.1.nextId + 1 }
      ((BasicBlock.Create ctx1 "entry" body).2.2.insertAtEnd
        (BasicBlock.Create ctx1 "entry" body).1 inst) prologue params).1 = some prologueExit) :
    Lifting.LoopEntry
      (AddressToBlock.blockToInstruction
        (CodeGenerator.inlineInstruction ext
          { nextId := (BasicBlock.Create ctx1 "entry" body).2.1.nextId + 1 }
          ((BasicBlock.Create ctx1 "entry" body).2.2.insertAtEnd
            (BasicBlock.Create ctx1 "entry" body).1 inst) prologue params).2.1
        { AddressToBlock.new body with
          insertInto := (CodeGenerator.inlineInstruction ext
            { nextId := (BasicBlock.Create ctx1 "entry" body).2.1.nextId + 1 }
            ((BasicBlock.Create ctx1 "entry" body).2.2.insertAtEnd
              (BasicBlock.Create ctx1 "entry" body).1 inst) prologue params).2.2 } base).1
      base
      { ctx := { nextId := (AddressToBlock.blockToInstruction
          (CodeGenerator.inlineInstruction ext
            { nextId := (BasicBlock.Create ctx1 "entry" body).2.1.nextId + 1 }
            ((BasicBlock.Create ctx1 "entry" body).2.2.insertAtEnd
              (BasicBlock.Create ctx1 "entry" body).1 inst) prologue params).2.1
          { AddressToBlock.new body with
            insertInto := (CodeGenerator.inlineInstruction ext
              { nextId := (BasicBlock.Create ctx1 "entry" body).2.1.nextId + 1 }
              ((BasicBlock.Create ctx1 "entry" body).2.2.insertAtEnd
                (BasicBlock.Create ctx1 "entry" body).1 inst) prologue params).2.2 }
          base).2.1.nextId + 1 },
        funcMap := funcMap,
        blockMap :=
          { (AddressToBlock.blockToInstruction
              (CodeGenerator.inlineInstruction ext
                { nextId := (BasicBlock.Create ctx1 "entry" body).2.1.nextId + 1 }
                ((BasicBlock.Create ctx1 "entry" body).2.2.insertAtEnd
                  (BasicBlock.Create ctx1 "entry" body).1 inst) prologue params).2.1
              { AddressToBlock.new body with
                insertInto := (CodeGenerator.inlineInstruction ext
                  { nextId := (BasicBlock.Create ctx1 "entry" body).2.1.nextId + 1 }
                  ((BasicBlock.Create ctx1 "entry" body).2.2.insertAtEnd
                    (BasicBlock.Create ctx1 "entry" body).1 inst) prologue params).2.2 }
              base).2.2 with
            insertInto :=
              (AddressToBlock.blockToInstruction
                (CodeGenerator.inlineInstruction ext
                  { nextId := (BasicBlock.Create ctx1 "entry" body).2.1.nextId + 1 }
                  ((BasicBlock.Create ctx1 "entry" body).2.2.insertAtEnd
                    (BasicBlock.Create ctx1 "entry" body).1 inst) prologue params).2.1
                { AddressToBlock.new body with
                  insertInto := (CodeGenerator.inlineInstruction ext
                    { nextId := (BasicBlock.Create ctx1 "entry" body).2.1.nextId + 1 }
                    ((BasicBlock.Create ctx1 "entry" body).2.2.insertAtEnd
                      (BasicBlock.Create ctx1 "entry" body).1 inst) prologue params).2.2 }
                base).2.2.insertInto.insertAtEnd prologueExit branch },
        newLabels := [base] } := by
  obtain ⟨-, h2, h3⟩ := CodeGenerator.inline_fresh ext hc
    { nextId := (BasicBlock.Create ctx1 "entry" body).2.1.nextId + 1 }
    ((BasicBlock.Create ctx1 "entry" body).2.2.insertAtEnd
      (BasicBlock.Create ctx1 "entry" body).1 inst) prologue params
  refine Lifting.loopEntry_intro _ _ _ _ _ _ rfl rfl ?_ (h3 _ hexit).2
  intro b hb
  rcases h2 b hb with h | h
  · obtain ⟨b0, hb0, hid⟩ := List.mem_map.mp h
    have := entry_blocks_alloc ctx1 body inst hbody b0 hb0
    have hle := (CodeGenerator.inline_fresh ext hc
      { nextId := (BasicBlock.Create ctx1 "entry" body).2.1.nextId + 1 }
      ((BasicBlock.Create ctx1 "entry" body).2.2.insertAtEnd
        (BasicBlock.Create ctx1 "entry" body).1 inst) prologue params).1
    show b.id < _
    simp only at hle
    omega
  · exact h.2

theorem TranslationContext.codeAt_base (bytes : List Nat) (base : Nat) :
    codeAt bytes base base = bytes := by
  simp [codeAt]

/-- From the state in which the loop starts, with an instruction that decodes
at the base address, the loop never returns. -/
theorem TranslationContext.visitLoop_entry_fails (ext : External)
    (hc : CloneContract ext.clone) (self : TranslationContext)
    (registers flags : Value) (base : Nat) (bytes : List Nat) (S : Nat) (st : Lifting)
    (hentry : st.LoopEntry S base) (insn : cs_insn)
    (hd : ext.disasm self.cs bytes base = some insn) (fuel : Nat) :
    ∃ e s, visitLoop ext self registers flags base bytes fuel st = .failed e s := by
  cases fuel with
  | zero => exact ⟨_, _, rfl⟩
  | succ fuel =>
    rw [visitLoop_entry_some ext hc self registers flags base bytes S st hentry insn
      (by rw [codeAt_base]; exact hd)]
    cases decodeChain ext self registers flags ((codeAt bytes base base).length + 2)
        (codeAt bytes base base) base { st with newLabels := [] } with
    | failed e s => exact ⟨e, s, rfl⟩
    | done st1 =>
      simp only [Outcome.andThen]
      cases back st1.blockMap.insertInto with
      | none => exact ⟨_, _, rfl⟩
      | some last => exact ⟨_, _, rfl⟩

theorem TranslationContext.visitLoop_entry_never_done (ext : External)
    (hc : CloneContract ext.clone) (self : TranslationContext)
    (registers flags : Value) (base : Nat) (bytes : List Nat) (S : Nat) (st : Lifting)
    (hentry : st.LoopEntry S base) (insn : cs_insn)
    (hd : ext.disasm self.cs bytes base = some insn) (fuel : Nat) (st2 : Lifting) :
    visitLoop ext self registers flags base bytes fuel st ≠ .done st2 := by
  obtain ⟨e, s, hfail⟩ := visitLoop_entry_fails ext hc self registers flags base bytes S st
    hentry insn hd fuel
  rw [hfail]
  simp

/-- C20, where the code departs from it. Whenever an instruction decodes at the
base address, `createFunction` does not return, whatever the number of rounds
allowed: the first round implements the base address, which deletes the stub
that `start` points at, and the walk of `resolveIntrinsics` from `start` is a use
of that deleted block. The loop does not reach its exit on the empty
worklist. -/
theorem build_of_decodable_never_returns (ext : External) (fuel : Nat)
    (self : TranslationContext) (base : Nat) (bytes : List Nat) (insn : cs_insn)
    (hc : CloneContract ext.clone) (hv : self.functionMap.Valid self.context)
    (hd : ext.disasm self.cs bytes base = some insn) :
    ∀ built, TranslationContext.createFunction ext fuel self base bytes ≠ .done built := by
  intro built
  unfold TranslationContext.createFunction
  simp only
  cases h1 : (self.functionMap.createFunction self.context base).1 with
  | none => simp
  | some fn =>
    simp only
    cases h2 : (self.functionMap.createFunction self.context base).2.2.module.findFunction fn with
    | none => simp
    | some body =>
      simp only
      have heq : self.functionMap.createFunction self.context base =
          (some fn, (self.functionMap.createFunction self.context base).2.1,
            (self.functionMap.createFunction self.context base).2.2) := by
        rw [← h1]
      have hbody := AddressToFunction.body_after_createFunction _ _ _ _ _ _ _ hv heq h2
      split
      · simp
      · rename_i prologueExit h3
        split
        · rename_i st2 hdone
          refine absurd hdone ?_
          refine TranslationContext.visitLoop_entry_never_done ext hc
            { self with
              context := (self.functionMap.createFunction self.context base).2.1,
              functionMap := (self.functionMap.createFunction self.context base).2.2 }
            _ _ base bytes ?S _ ?hentry insn hd fuel st2
          case hentry =>
            exact loopEntry_of_prologue ext hc _ body _ _ _ _ base prologueExit _ hbody h3
        · simp

theorem build_of_decodable_never_returns_witness :
    (∀ built, TranslationContext.createFunction workingExternal 8 workingContext 0x1000 [0xc3] ≠
      .done built) ∧
    ∃ built, TranslationContext.createFunction workingExternal 8 workingContext 0x1000 [0xc3] =
      .failed .useAfterFree built :=
  ⟨build_of_decodable_never_returns workingExternal 8 workingContext 0x1000 [0xc3]
      { id := 2, size := 1, detail := 0 } cloneContract_cloneFunctionInto
      (by simp [AddressToFunction.Valid, workingContext, sampleFunctions, AddressToFunction.new])
      rfl,
    ⟨_, rfl⟩⟩

/-! ## The worklist during a build -/

theorem hexValue_hexDigit (x : Nat) (h : x < 16) : hexValue (hexDigit x) = x := by
  interval_cases x <;> rfl

/-- Reading back what the digit loop wrote in front of a buffer. -/
theorem write_hex_loop_read (fuel : Nat) :
    ∀ (N : Nat) (buffer : List Char), N ≤ fuel →
      (write_hex_loop fuel N buffer).foldl (fun acc c => acc * 16 + hexValue c) 0 =
        buffer.foldl (fun acc c => acc * 16 + hexValue c) N := by
  induction fuel with
  | zero =>
    intro N buffer h
    have hN : N = 0 := by omega
    subst hN
    rfl
  | succ fuel ih =>
    intro N buffer h
    rw [write_hex_loop]
    by_cases hN : N = 0
    · rw [if_pos hN, hN]
    · rw [if_neg hN]
      have hlt : N / 16 < N := Nat.div_lt_self (Nat.pos_of_ne_zero hN) (by decide)
      rw [ih (N / 16) _ (by omega), List.foldl_cons,
        hexValue_hexDigit (N % 16) (Nat.mod_lt _ (by decide)), Nat.div_add_mod']

/-- The numeral `write_hex` prints denotes the number printed. -/
theorem hexNumber_write_hex (N : Nat) : hexNumber (write_hex N).data = N := by
  unfold write_hex hexNumber
  by_cases h : N = 0
  · subst h
    rfl
  · rw [if_neg h]
    exact write_hex_loop_read N N [] (Nat.le_refl _)

theorem write_hex_injective (a b : Nat) (h : write_hex a = write_hex b) : a = b := by
  have := congrArg (fun s : String => hexNumber s.data) h
  simpa only [hexNumber_write_hex] using this

theorem string_append_left_cancel (p s t : String) (h : p ++ s = p ++ t) : s = t := by
  have hdata := congrArg String.data h
  rw [String.data_append, String.data_append] at hdata
  exact String.ext (List.append_cancel_left hdata)

theorem AddressToFunction.prototypeBody_name (ctx : LLVMContext) (p a : Nat) (fn : Function) :
    (prototypeBody ctx p a fn).name = fn.name := by
  simp [prototypeBody, md.setVirtualAddress, md.setPrototype, Function.insertAtEnd,
    BasicBlock.Create]

/-- The function `getCallTarget` creates for an address carries the name of the
address. -/
theorem AddressToFunction.getCallTarget_name (ctx : LLVMContext) (self : AddressToFunction)
    (a : Nat) (ha : self.functions.find a = none)
    (hids : ∀ fn ∈ self.module.functions, fn.id < ctx.nextId) :
    ∃ fn, (self.getCallTarget ctx a).2.2.module.findFunction ctx.nextId = some fn ∧
      fn.name = self.nameForAddress a := by
  obtain ⟨extra, hmod, -, -⟩ := Module.getOrInsertFunction_spec
    (Function.Create ctx self.fnType (self.nameForAddress a) self.module).2.1
    (Function.Create ctx self.fnType (self.nameForAddress a) self.module).2.2
    "/fcd/prototype" [Ty.pointer (.int 8) 0]
  simp only [getCallTarget, ha, createFunctionNamed]
  generalize Module.getOrInsertFunction
    (Function.Create ctx self.fnType (self.nameForAddress a) self.module).2.1
    (Function.Create ctx self.fnType (self.nameForAddress a) self.module).2.2
    "/fcd/prototype" [Ty.pointer (.int 8) 0] = proto at hmod ⊢
  show ∃ fn, (proto.2.2.modifyFunction ctx.nextId _).findFunction ctx.nextId = some fn ∧ _
  rw [Module.findFunction_modify _ _ _ _ (prototypeBody_id _ _ _)]
  have hfound : proto.2.2.findFunction ctx.nextId =
      some { id := ctx.nextId, name := self.nameForAddress a, params := self.fnType,
             blocks := [], prototype := false, virtualAddress := none } := by
    rw [hmod]
    simp only [Module.findFunction, Function.Create, List.append_assoc]
    rw [List.find?_append]
    have hnone : List.find? (fun fn => decide (fn.id = ctx.nextId)) self.module.functions
        = none := by
      rw [List.find?_eq_none]
      intro fn hfn
      have := hids fn hfn
      simp
      omega
    rw [hnone]
    simp
  rw [hfound]
  refine ⟨_, rfl, ?_⟩
  simp only [if_true]
  exact prototypeBody_name _ _ _ _

/-- C21. Synthesized names are injective. For two different addresses without
alias, `nameForAddress` returns different names. So when `getCallTarget` creates
the functions of two such addresses in a valid registry, one after the other,
the two functions of the module carry the names of their addresses, and these
differ. -/
theorem synthesized_names_injective (self : AddressToFunction) (a b : Nat)
    (hab : a ≠ b) (ha : self.aliases.find a = none) (hb : self.aliases.find b = none) :
    self.nameForAddress a ≠ self.nameForAddress b ∧
    ∀ ctx, self.Valid ctx → self.functions.find a = none → self.functions.find b = none →
      ∃ fa fb,
        ((self.getCallTarget ctx a).2.2.getCallTarget
            (self.getCallTarget ctx a).2.1 b).2.2.module.findFunction
          (self.getCallTarget ctx a).1 = some fa ∧
        ((self.getCallTarget ctx a).2.2.getCallTarget
            (self.getCallTarget ctx a).2.1 b).2.2.module.findFunction
          ((self.getCallTarget ctx a).2.2.getCallTarget
            (self.getCallTarget ctx a).2.1 b).1 = some fb ∧
        fa.name = self.nameForAddress a ∧ fb.name = self.nameForAddress b ∧
        fa.name ≠ fb.name := by
  have hne : self.nameForAddress a ≠ self.nameForAddress b := by
    intro h
    unfold AddressToFunction.nameForAddress at h
    simp only [ha, hb] at h
    exact hab (write_hex_injective a b (string_append_left_cancel _ _ _ h))
  refine ⟨hne, ?_⟩
  intro ctx hv hfa hfb
  obtain ⟨h1, hfun, hal, hlt, hids, -, -⟩ :=
    AddressToFunction.getCallTarget_created ctx self a hfa
  obtain ⟨fa, hfa1, hna⟩ := AddressToFunction.getCallTarget_name ctx self a hfa hv.2.2
  have hfb1 : (self.getCallTarget ctx a).2.2.functions.find b = none := by
    rw [hfun, AddrMap.find_set_of_ne _ _ _ _ (Ne.symm hab)]
    exact hfb
  obtain ⟨h2, -, -, -, -, -, hframe⟩ := AddressToFunction.getCallTarget_created
    (self.getCallTarget ctx a).2.1 (self.getCallTarget ctx a).2.2 b hfb1
  obtain ⟨fb, hfb2, hnb⟩ := AddressToFunction.getCallTarget_name
    (self.getCallTarget ctx a).2.1 (self.getCallTarget ctx a).2.2 b hfb1 (hids hv.2.2)
  have hsame : (self.getCallTarget ctx a).2.2.nameForAddress b = self.nameForAddress b := by
    unfold AddressToFunction.nameForAddress
    rw [hal]
  rw [hsame] at hnb
  refine ⟨fa, fb, ?_, ?_, hna, hnb, ?_⟩
  · rw [h1]
    exact hframe _ _ hlt hfa1
  · rw [h2]
    exact hfb2
  · rw [hna, hnb]
    exact hne

theorem synthesized_names_injective_witness :
    sampleFunctions.nameForAddress 0x1000 ≠ sampleFunctions.nameForAddress 0x2000 ∧
    ∃ fa fb,
      ((sampleFunctions.getCallTarget ⟨0⟩ 0x1000).2.2.getCallTarget
          (sampleFunctions.getCallTarget ⟨0⟩ 0x1000).2.1 0x2000).2.2.module.findFunction
        (sampleFunctions.getCallTarget ⟨0⟩ 0x1000).1 = some fa ∧
      ((sampleFunctions.getCallTarget ⟨0⟩ 0x1000).2.2.getCallTarget
          (sampleFunctions.getCallTarget ⟨0⟩ 0x1000).2.1 0x2000).2.2.module.findFunction
        ((sampleFunctions.getCallTarget ⟨0⟩ 0x1000).2.2.getCallTarget
          (sampleFunctions.getCallTarget ⟨0⟩ 0x1000).2.1 0x2000).1 = some fb ∧
      fa.name = sampleFunctions.nameForAddress 0x1000 ∧
      fb.name = sampleFunctions.nameForAddress 0x2000 ∧ fa.name ≠ fb.name :=
  have h := synthesized_names_injective sampleFunctions 0x1000 0x2000 (by decide) (by decide)
    (by decide)
  ⟨h.1, h.2 ⟨0⟩ (by simp [AddressToFunction.Valid, sampleFunctions, AddressToFunction.new])
    (by decide) (by decide)⟩

end Fcd
